import Mathlib

/-!
Verification of the Cadence workflow/state scheduler scripts.

This development shallowly embeds the Python modules
`skill/scripts/workflow_state.py`, `skill/scripts/ideation_research.py` and
`skill/scripts/run-research-pass.py` as executable Lean definitions, and
proves (or refutes) the behavioural claims made about them.

Conventions of the embedding:
* Python `str` values become `String`; `str.strip()` / `str.lower()` are
  embedded as `pyStrip` / `pyLower` below (ASCII semantics, which is what
  all identifiers, statuses and ids in this code base use).
* Python `dict`s keyed by strings become insertion-ordered association
  lists `List (String × _)`, matching CPython's ordered-dict semantics.
* Python `int` JSON inputs become `Int` where a raw value can be negative
  and `Nat` after the code's own clamping helpers have run.
* Fallible code paths (`raise ValueError`) become `Except`-valued
  functions.
-/

namespace Cadence

/-- Characters removed by Python `str.strip()` in the ASCII range, by code
point: space, tab, newline, carriage return, vertical tab, form feed. -/
def wsChar (c : Char) : Bool :=
  c.toNat = 32 || c.toNat = 9 || c.toNat = 10 || c.toNat = 13 ||
    c.toNat = 11 || c.toNat = 12

/-- Strip leading and trailing whitespace from a character list. -/
def stripChars (l : List Char) : List Char :=
  (l.dropWhile wsChar).rdropWhile wsChar

/-- Embedding of Python `str.strip()`. -/
def pyStrip (s : String) : String := ⟨stripChars s.data⟩

/-- Embedding of Python `str.lower()` on one ASCII character. -/
def pyLowerChar (c : Char) : Char :=
  if 65 ≤ c.toNat ∧ c.toNat ≤ 90 then Char.ofNat (c.toNat + 32) else c

/-- Embedding of Python `str.lower()` (ASCII range). -/
def pyLower (s : String) : String := ⟨s.data.map pyLowerChar⟩

theorem char_toNat_ofNat {n : Nat} (h : n < 55296) : (Char.ofNat n).toNat = n := by
  simp [Char.ofNat, Char.toNat]
  split
  · rfl
  · next hh => exact absurd (Or.inl h) hh

theorem pyLowerChar_idem (c : Char) : pyLowerChar (pyLowerChar c) = pyLowerChar c := by
  by_cases h : 65 ≤ c.toNat ∧ c.toNat ≤ 90
  · have h1 : pyLowerChar c = Char.ofNat (c.toNat + 32) := by
      simp only [pyLowerChar, if_pos h]
    have hv : (Char.ofNat (c.toNat + 32)).toNat = c.toNat + 32 :=
      char_toNat_ofNat (by omega)
    rw [h1]
    simp only [pyLowerChar, hv]
    rw [if_neg (by omega)]
  · have h1 : pyLowerChar c = c := by simp only [pyLowerChar, if_neg h]
    rw [h1, h1]

theorem wsChar_pyLowerChar (c : Char) : wsChar (pyLowerChar c) = wsChar c := by
  by_cases h : 65 ≤ c.toNat ∧ c.toNat ≤ 90
  · have h1 : pyLowerChar c = Char.ofNat (c.toNat + 32) := by
      simp only [pyLowerChar, if_pos h]
    have hv : (Char.ofNat (c.toNat + 32)).toNat = c.toNat + 32 :=
      char_toNat_ofNat (by omega)
    have hl : wsChar (Char.ofNat (c.toNat + 32)) = false := by
      simp only [wsChar, hv, Bool.or_eq_false_iff, decide_eq_false_iff_not]
      omega
    have hr : wsChar c = false := by
      simp only [wsChar, Bool.or_eq_false_iff, decide_eq_false_iff_not]
      omega
    rw [h1, hl, hr]
  · have h1 : pyLowerChar c = c := by simp only [pyLowerChar, if_neg h]
    rw [h1]

theorem dropWhile_head_false {p : Char → Bool} {l : List Char} {c : Char} {t : List Char}
    (h : l.dropWhile p = c :: t) : p c = false := by
  induction l with
  | nil => simp at h
  | cons a as ih =>
    by_cases hp : p a
    · exact ih (by simpa [List.dropWhile, hp] using h)
    · rw [List.dropWhile_cons, if_neg (by simp [hp])] at h
      cases h
      simpa using hp

theorem dropWhile_eq_self_of_head {p : Char → Bool} {c : Char} {t : List Char}
    (h : p c = false) : List.dropWhile p (c :: t) = c :: t := by
  rw [List.dropWhile_cons, if_neg (by simp [h])]

theorem stripChars_idem (l : List Char) : stripChars (stripChars l) = stripChars l := by
  unfold stripChars
  cases hr : (l.dropWhile wsChar).rdropWhile wsChar with
  | nil => simp
  | cons c t =>
    obtain ⟨s, hs⟩ := List.rdropWhile_prefix wsChar (l.dropWhile wsChar)
    rw [hr] at hs
    have hc : wsChar c = false := dropWhile_head_false (l := l) (by rw [← hs]; rfl)
    rw [dropWhile_eq_self_of_head hc, ← hr, List.rdropWhile_idempotent]

theorem pyStrip_idem (s : String) : pyStrip (pyStrip s) = pyStrip s := by
  simp [pyStrip, stripChars_idem]

theorem pyLower_idem (s : String) : pyLower (pyLower s) = pyLower s := by
  have hfun : pyLowerChar ∘ pyLowerChar = pyLowerChar := funext pyLowerChar_idem
  simp only [pyLower, List.map_map, hfun]

theorem dropWhile_map_comm (f : Char → Char) (hf : ∀ c, wsChar (f c) = wsChar c)
    (l : List Char) : List.dropWhile wsChar (l.map f) = (l.dropWhile wsChar).map f := by
  induction l with
  | nil => rfl
  | cons a l ih =>
    by_cases h : wsChar a
    · simp [List.dropWhile, hf, h, ih]
    · simp [List.dropWhile, hf, h]

theorem stripChars_map_comm (f : Char → Char) (hf : ∀ c, wsChar (f c) = wsChar c)
    (l : List Char) : stripChars (l.map f) = (stripChars l).map f := by
  unfold stripChars
  rw [dropWhile_map_comm f hf]
  unfold List.rdropWhile
  rw [← List.map_reverse, dropWhile_map_comm f hf, List.map_reverse]

theorem pyStrip_pyLower_comm (s : String) : pyStrip (pyLower s) = pyLower (pyStrip s) := by
  simp [pyStrip, pyLower, stripChars_map_comm pyLowerChar wsChar_pyLowerChar]

theorem pyLower_pyStrip_lower_stable (s : String) :
    pyLower (pyStrip (pyLower (pyStrip s))) = pyLower (pyStrip s) := by
  rw [pyStrip_pyLower_comm, pyStrip_idem, pyLower_idem]

/-- Lists whose characters are all non-whitespace. -/
def wsFree (l : List Char) : Bool := l.all (fun c => !(wsChar c))

theorem stripChars_eq_self_of_wsFree {l : List Char} (h : wsFree l) :
    stripChars l = l := by
  unfold stripChars
  have hall : ∀ c ∈ l, wsChar c = false := by
    intro c hc
    have h2 : ∀ c ∈ l, !(wsChar c) = true := by simpa [wsFree] using h
    simpa using h2 c hc
  have h1 : l.dropWhile wsChar = l := by
    cases l with
    | nil => rfl
    | cons a as => exact dropWhile_eq_self_of_head (hall a (by simp))
  rw [h1, List.rdropWhile_eq_self_iff]
  intro hl
  simp [hall _ (List.getLast_mem hl)]

/-- If `stripChars a = a` then `a.dropWhile wsChar = a`. -/
theorem dropWhile_eq_self_of_stripStable {a : List Char} (ha : stripChars a = a) :
    a.dropWhile wsChar = a := by
  have hsuf : a.dropWhile wsChar <:+ a := List.dropWhile_suffix _
  have hpre : (a.dropWhile wsChar).rdropWhile wsChar <+: a.dropWhile wsChar :=
    List.rdropWhile_prefix _ _
  have hlen : a.length ≤ (a.dropWhile wsChar).length := by
    have h1 := hpre.length_le
    unfold stripChars at ha
    rw [ha] at h1
    exact h1
  exact hsuf.eq_of_length (Nat.le_antisymm hsuf.length_le hlen)

theorem stripChars_append_of_wsFree {a b : List Char}
    (ha : stripChars a = a) (hane : a ≠ []) (hb : wsFree b) (hbne : b ≠ []) :
    stripChars (a ++ b) = a ++ b := by
  have hball : ∀ c ∈ b, wsChar c = false := by
    intro c hc
    have h2 : ∀ c ∈ b, !(wsChar c) = true := by simpa [wsFree] using hb
    simpa using h2 c hc
  unfold stripChars
  have h1 : (a ++ b).dropWhile wsChar = a ++ b := by
    cases hcons : a with
    | nil => exact absurd hcons hane
    | cons x xs =>
      have hx : wsChar x = false := by
        have hself := dropWhile_eq_self_of_stripStable ha
        rw [hcons] at hself
        exact dropWhile_head_false hself
      simpa [hcons] using dropWhile_eq_self_of_head (t := xs ++ b) hx
  rw [h1]
  have hsplit : a ++ b = (a ++ b.dropLast) ++ [b.getLast hbne] := by
    rw [List.append_assoc, List.dropLast_append_getLast hbne]
  rw [hsplit]
  exact List.rdropWhile_concat_neg _ _ _ (by simp [hball _ (List.getLast_mem hbne)])

/-- Decimal digit character, for `d < 10`. -/
def digitCh (d : Nat) : Char := Char.ofNat (48 + d)

/-- Decimal digit expansion, accumulator style with structural fuel (the fuel
`n + 1` always suffices because each step divides `n` by 10). -/
def natDigits : Nat → Nat → List Char → List Char
  | 0, _, acc => acc
  | fuel + 1, n, acc =>
    if n < 10 then digitCh n :: acc
    else natDigits fuel (n / 10) (digitCh (n % 10) :: acc)

/-- Decimal representation of a natural number (embedding of Python decimal
formatting of nonnegative integers). -/
def natStr (n : Nat) : String := ⟨natDigits (n + 1) n []⟩

theorem digitCh_not_ws (d : Nat) (hd : d < 10) : wsChar (digitCh d) = false := by
  have hv : (Char.ofNat (48 + d)).toNat = 48 + d := char_toNat_ofNat (by omega)
  simp only [digitCh, wsChar, hv, Bool.or_eq_false_iff, decide_eq_false_iff_not]
  omega

theorem natDigits_wsFree (fuel n : Nat) (acc : List Char) (hacc : wsFree acc) :
    wsFree (natDigits fuel n acc) := by
  induction fuel generalizing n acc with
  | zero => exact hacc
  | succ fuel ih =>
    unfold natDigits
    split
    · next h =>
      simp only [wsFree, List.all_cons, Bool.and_eq_true, Bool.not_eq_true']
      exact ⟨digitCh_not_ws n h, hacc⟩
    · next h =>
      refine ih (n / 10) _ ?_
      simp only [wsFree, List.all_cons, Bool.and_eq_true, Bool.not_eq_true']
      exact ⟨digitCh_not_ws (n % 10) (Nat.mod_lt _ (by omega)), hacc⟩

theorem natStr_wsFree (n : Nat) : wsFree (natStr n).data :=
  natDigits_wsFree (n + 1) n [] (by simp [wsFree])

theorem natDigits_length (fuel n : Nat) (acc : List Char) (hf : 1 ≤ fuel) :
    acc.length + 1 ≤ (natDigits fuel n acc).length := by
  induction fuel generalizing n acc with
  | zero => omega
  | succ fuel ih =>
    unfold natDigits
    split
    · simp
    · rcases Nat.eq_zero_or_pos fuel with hz | hp
      · subst hz
        simp [natDigits]
      · have := ih (n / 10) (digitCh (n % 10) :: acc) hp
        simp only [List.length_cons] at this
        omega

theorem natStr_ne_empty (n : Nat) : (natStr n).data ≠ [] := by
  have h1 := natDigits_length (n + 1) n [] (by omega)
  intro h
  rw [natStr] at h
  simp only [List.length_nil, Nat.zero_add] at h1
  rw [show ({ data := natDigits (n + 1) n [] } : String).data = natDigits (n + 1) n [] from rfl] at h
  rw [h] at h1
  simp at h1

/-! ### Embedding of `workflow_state.py`: the workflow plan tree -/

def VALID_STATUSES : List String :=
  ["pending", "in_progress", "complete", "blocked", "skipped"]

def COMPLETED_STATUSES : List String := ["complete", "skipped"]

/-- Embedding of `workflow_state._coerce_status`. -/
def coerceStatus (value : String) : String :=
  let status := pyLower (pyStrip value)
  if status ∈ VALID_STATUSES then status else "pending"

/-- Embedding of `workflow_state._is_complete_status`. -/
def isCompleteStatus (status : String) : Bool :=
  decide (status ∈ COMPLETED_STATUSES)

/-- A work item of the plan tree: `{id, kind, title, status, children}`.
The `route` payload is not modelled; no claim concerns it. -/
inductive Item where
  | mk (id kind title status : String) (children : List Item)

def Item.id : Item → String
  | .mk i _ _ _ _ => i

def Item.kind : Item → String
  | .mk _ k _ _ _ => k

def Item.title : Item → String
  | .mk _ _ t _ _ => t

def Item.status : Item → String
  | .mk _ _ _ s _ => s

def Item.children : Item → List Item
  | .mk _ _ _ _ cs => cs

mutual

/-- All nodes of a tree, in pre-order (the node itself first). -/
def nodesItem : Item → List Item
  | .mk i k t s cs => .mk i k t s cs :: nodesList cs

def nodesList : List Item → List Item
  | [] => []
  | c :: cs => nodesItem c ++ nodesList cs

end

/-- The ordered status roll-up case analysis of `workflow_state._roll_up_status`
applied to the list of (already rolled-up) child statuses. -/
def derivedStatus (childStatuses : List String) : String :=
  if childStatuses.all (fun s => isCompleteStatus s) then "complete"
  else if childStatuses.all (fun s => s == "pending") then "pending"
  else if childStatuses.any (fun s => s == "in_progress") then "in_progress"
  else if childStatuses.any (fun s => isCompleteStatus s) then "in_progress"
  else if childStatuses.any (fun s => s == "blocked") then "blocked"
  else "pending"

mutual

/-- Embedding of `workflow_state._roll_up_status` (as a pure tree rewrite).
A leaf keeps its coerced status; an internal node's stored status is ignored
and replaced by the derived status of its rolled-up children. -/
def rollUpItem : Item → Item
  | .mk i k t s [] => .mk i k t (coerceStatus s) []
  | .mk i k t _ (c :: cs) =>
    let children := rollUpList (c :: cs)
    .mk i k t (derivedStatus (children.map Item.status)) children

def rollUpList : List Item → List Item
  | [] => []
  | c :: cs => rollUpItem c :: rollUpList cs

end

mutual

/-- Does an item with this id occur anywhere in the tree? -/
def occursItem (itemId : String) : Item → Bool
  | .mk i _ _ _ cs => i == itemId || occursList itemId cs

def occursList (itemId : String) : List Item → Bool
  | [] => false
  | c :: cs => occursItem itemId c || occursList itemId cs

end

mutual

/-- Embedding of `workflow_state._set_item_status`: set the status of every
node whose id matches, recursing into all children, and report whether any
match was found. -/
def setStatusItem (itemId status : String) : Item → Item × Bool
  | .mk i k t s cs =>
    let hit := i == itemId
    let rec' := setStatusList itemId status cs
    (.mk i k t (if hit then status else s) rec'.1, hit || rec'.2)

def setStatusList (itemId status : String) : List Item → List Item × Bool
  | [] => ([], false)
  | c :: cs =>
    let r1 := setStatusItem itemId status c
    let r2 := setStatusList itemId status cs
    (r1.1 :: r2.1, r1.2 || r2.2)

end

mutual

/-- Embedding of `workflow_state._find_item_by_id` (first match, pre-order). -/
def findItem (itemId : String) : Item → Option Item
  | .mk i k t s cs => if i == itemId then some (.mk i k t s cs) else findList itemId cs

def findList (itemId : String) : List Item → Option Item
  | [] => none
  | c :: cs =>
    match findItem itemId c with
    | some it => some it
    | none => findList itemId cs

end

mutual

/-- Embedding of `workflow_state._normalize_item`. -/
def normalizeItem (fallbackId : String) : Item → Item
  | .mk i k t s cs =>
    let itemId := if pyStrip i = "" then fallbackId else pyStrip i
    let children := normalizeChildren itemId 1 cs
    let kindRaw := pyLower (pyStrip k)
    let kind :=
      if kindRaw ≠ "" then kindRaw
      else if children.isEmpty then "task" else "phase"
    let title := if pyStrip t = "" then itemId else pyStrip t
    .mk itemId kind title (coerceStatus s) children

def normalizeChildren (parentId : String) (index : Nat) : List Item → List Item
  | [] => []
  | c :: cs =>
    normalizeItem (parentId ++ "-child-" ++ natStr index) c ::
      normalizeChildren parentId (index + 1) cs

end

def normalizePlanAux (index : Nat) : List Item → List Item
  | [] => []
  | it :: rest =>
    normalizeItem ("item-" ++ natStr index) it :: normalizePlanAux (index + 1) rest

/-- Embedding of `workflow_state._normalize_plan` (for list-shaped plans). -/
def normalizePlan (plan : List Item) : List Item := normalizePlanAux 1 plan

/-- Projection of the cadence state document onto the fields that the
workflow-tree code reads and writes: the two legacy booleans and the plan. -/
structure WorkflowDoc where
  prerequisitesPass : Bool
  ideationCompleted : Bool
  plan : List Item

/-- Embedding of `workflow_state._legacy_completion_map` (insertion order). -/
def legacyCompletionMap (data : WorkflowDoc) (cadenceDirExists : Bool) :
    List (String × Bool) :=
  [("task-scaffold", cadenceDirExists),
   ("task-prerequisite-gate", data.prerequisitesPass),
   ("task-ideation", data.ideationCompleted)]

/-- Embedding of `workflow_state._apply_legacy_task_states`: the loop over
`_legacy_completion_map` unrolled over its three fixed entries. -/
def applyLegacyTaskStates (data : WorkflowDoc) (cadenceDirExists : Bool)
    (plan : List Item) : List Item :=
  (setStatusList "task-ideation"
    (if data.ideationCompleted then "complete" else "pending")
    (setStatusList "task-prerequisite-gate"
      (if data.prerequisitesPass then "complete" else "pending")
      (setStatusList "task-scaffold"
        (if cadenceDirExists then "complete" else "pending") plan).1).1).1

/-- Embedding of `workflow_state._sync_legacy_flags_from_plan`. -/
def syncLegacyFlags (data : WorkflowDoc) (plan : List Item) : WorkflowDoc :=
  let d1 :=
    match findList "task-prerequisite-gate" plan with
    | some it => { data with prerequisitesPass := isCompleteStatus (coerceStatus it.status) }
    | none => data
  match findList "task-ideation" plan with
  | some it => { d1 with ideationCompleted := isCompleteStatus (coerceStatus it.status) }
  | none => d1

/-- Embedding of `workflow_state.reconcile_workflow_state`, restricted to the
plan-bearing projection (the derived `workflow.summary`/`next_item` fields are
pure functions of the resulting plan and are not re-read by any claim). -/
def reconcileDoc (data : WorkflowDoc) (cadenceDirExists : Bool) : WorkflowDoc :=
  let plan := normalizePlan data.plan
  let plan := applyLegacyTaskStates data cadenceDirExists plan
  let plan := rollUpList plan
  { data with plan := plan }

/-- Embedding of `workflow_state.set_workflow_item_status`. -/
def setWorkflowItemStatus (data : WorkflowDoc) (itemId status : String)
    (cadenceDirExists : Bool) : Except String (WorkflowDoc × Bool) :=
  let normalizedItemId := pyStrip itemId
  if normalizedItemId = "" then .ok (data, false)
  else
    let normalizedStatus := pyLower (pyStrip status)
    if normalizedStatus ∈ VALID_STATUSES then
      let reconciled := reconcileDoc data cadenceDirExists
      let plan := normalizePlan reconciled.plan
      let res := setStatusList normalizedItemId normalizedStatus plan
      if res.2 then
        let plan2 := rollUpList res.1
        let synced := syncLegacyFlags reconciled plan2
        .ok (reconcileDoc { synced with plan := plan2 } cadenceDirExists, true)
      else .ok (reconciled, false)
    else .error "UNSUPPORTED_STATUS"

/-! ### Roll-up lemmas and claim C3 -/

theorem derivedStatus_eq_complete_iff (cs : List String) :
    derivedStatus cs = "complete" ↔ cs.all (fun s => isCompleteStatus s) = true := by
  unfold derivedStatus
  split_ifs with h1 h2 h3 h4 h5 <;> simp_all <;>
    (obtain ⟨x, hx, -⟩ := h1; exact ⟨x, hx⟩)

mutual

theorem rollUpNodes_item (it : Item) :
    ∀ n ∈ nodesItem (rollUpItem it), n.children ≠ [] →
      n.status = derivedStatus (n.children.map Item.status)
  | n, hmem, hne => by
    cases it with
    | mk i k t s cs =>
      cases cs with
      | nil =>
        rw [rollUpItem] at hmem
        rw [nodesItem] at hmem
        rw [nodesList] at hmem
        simp only [List.mem_singleton] at hmem
        subst hmem
        exact absurd rfl hne
      | cons c cs' =>
        rw [rollUpItem] at hmem
        rw [nodesItem] at hmem
        rcases List.mem_cons.mp hmem with heq | htail
        · subst heq
          rfl
        · exact rollUpNodes_list (c :: cs') n htail hne

theorem rollUpNodes_list (l : List Item) :
    ∀ n ∈ nodesList (rollUpList l), n.children ≠ [] →
      n.status = derivedStatus (n.children.map Item.status)
  | n, hmem, hne => by
    cases l with
    | nil =>
      rw [rollUpList, nodesList] at hmem
      simp at hmem
    | cons c cs =>
      rw [rollUpList, nodesList] at hmem
      rcases List.mem_append.mp hmem with hhead | htail
      · exact rollUpNodes_item c n hhead hne
      · exact rollUpNodes_list cs n htail hne

end

/-- C3: after roll-up, every non-leaf node's status is exactly the ordered
case analysis of its children's (already rolled-up) statuses: `complete` if
every child is complete/skipped; else `pending` if every child is pending;
else `in_progress` if some child is in progress or some-but-not-all children
are complete/skipped; else `blocked` if some child is blocked; else
`pending`. In particular, an internal node is `complete` iff every child
status is in `{complete, skipped}`. -/
theorem C3_rollup_status_derivation (it : Item) (n : Item)
    (hmem : n ∈ nodesItem (rollUpItem it)) (hne : n.children ≠ []) :
    n.status = derivedStatus (n.children.map Item.status) ∧
      (n.status = "complete" ↔ ∀ c ∈ n.children, isCompleteStatus c.status = true) := by
  have h1 := rollUpNodes_item it n hmem hne
  refine ⟨h1, ?_⟩
  rw [h1, derivedStatus_eq_complete_iff]
  simp [List.all_eq_true]

/-- Closed witness for C3 on a concrete two-child tree. -/
theorem C3_rollup_status_derivation_witness :
    (Item.mk "milestone-1" "milestone" "M1" "complete"
        [Item.mk "task-1" "task" "T1" "complete" [],
         Item.mk "task-2" "task" "T2" "skipped" []]).status =
      derivedStatus
        ((Item.mk "milestone-1" "milestone" "M1" "complete"
          [Item.mk "task-1" "task" "T1" "complete" [],
           Item.mk "task-2" "task" "T2" "skipped" []]).children.map Item.status) ∧
      ((Item.mk "milestone-1" "milestone" "M1" "complete"
        [Item.mk "task-1" "task" "T1" "complete" [],
         Item.mk "task-2" "task" "T2" "skipped" []]).status = "complete" ↔
        ∀ c ∈ (Item.mk "milestone-1" "milestone" "M1" "complete"
          [Item.mk "task-1" "task" "T1" "complete" [],
           Item.mk "task-2" "task" "T2" "skipped" []]).children,
          isCompleteStatus c.status = true) :=
  C3_rollup_status_derivation
    (Item.mk "milestone-1" "milestone" "M1" "pending"
      [Item.mk "task-1" "task" "T1" "complete" [],
       Item.mk "task-2" "task" "T2" "skipped" []])
    (Item.mk "milestone-1" "milestone" "M1" "complete"
      [Item.mk "task-1" "task" "T1" "complete" [],
       Item.mk "task-2" "task" "T2" "skipped" []])
    (List.mem_cons_self _ _)
    (by simp [Item.children])

/-! ### Lemmas about `_set_item_status` and plan normalization, towards C9 -/

mutual

theorem setStatusItem_found (itemId status : String) (it : Item) :
    (setStatusItem itemId status it).2 = occursItem itemId it := by
  cases it with
  | mk i k t s cs =>
    rw [setStatusItem, occursItem]
    rw [setStatusList_found itemId status cs]

theorem setStatusList_found (itemId status : String) (l : List Item) :
    (setStatusList itemId status l).2 = occursList itemId l := by
  cases l with
  | nil => rfl
  | cons c cs =>
    rw [setStatusList, occursList]
    rw [setStatusItem_found itemId status c, setStatusList_found itemId status cs]

end

mutual

theorem setStatusItem_id (itemId status : String) (it : Item)
    (h : occursItem itemId it = false) : (setStatusItem itemId status it).1 = it := by
  cases it with
  | mk i k t s cs =>
    rw [occursItem, Bool.or_eq_false_iff] at h
    rw [setStatusItem]
    simp only [h.1, Bool.false_eq_true, if_false]
    rw [setStatusList_id itemId status cs h.2]

theorem setStatusList_id (itemId status : String) (l : List Item)
    (h : occursList itemId l = false) : (setStatusList itemId status l).1 = l := by
  cases l with
  | nil => rfl
  | cons c cs =>
    rw [occursList, Bool.or_eq_false_iff] at h
    rw [setStatusList]
    simp only
    rw [setStatusItem_id itemId status c h.1, setStatusList_id itemId status cs h.2]

end

theorem coerceStatus_idem (s : String) : coerceStatus (coerceStatus s) = coerceStatus s := by
  by_cases h : pyLower (pyStrip s) ∈ VALID_STATUSES
  · have h1 : coerceStatus s = pyLower (pyStrip s) := by simp [coerceStatus, h]
    rw [h1]
    simp only [VALID_STATUSES, List.mem_cons, List.not_mem_nil, or_false] at h
    rcases h with h | h | h | h | h <;> rw [h] <;> decide
  · have h1 : coerceStatus s = "pending" := by simp [coerceStatus, h]
    rw [h1]
    decide

/-- Strip-stable nonempty strings: the shape of every id/title produced by
`_normalize_item`. -/
def strStable (x : String) : Bool := (pyStrip x == x) && (x != "")

/-- Lower-and-strip-stable nonempty strings: the shape of every kind produced
by `_normalize_item`. -/
def kindStable (x : String) : Bool := (pyLower (pyStrip x) == x) && (x != "")

mutual

/-- Trees that are fixed points of `_normalize_item`. -/
def itemNormal : Item → Bool
  | .mk i k t s cs =>
    strStable i && kindStable k && strStable t && (coerceStatus s == s) && listNormal cs

def listNormal : List Item → Bool
  | [] => true
  | c :: cs => itemNormal c && listNormal cs

end

theorem string_data_ne_nil {p : String} (hp : p ≠ "") : p.data ≠ [] := by
  intro hnil
  apply hp
  cases p
  simp only at hnil
  rw [hnil]

theorem strStable_append (p q : String) (hp : strStable p = true)
    (hq : wsFree q.data = true) (hqne : q.data ≠ []) : strStable (p ++ q) = true := by
  simp only [strStable, Bool.and_eq_true, beq_iff_eq, bne_iff_ne, ne_eq] at hp ⊢
  have hpd : stripChars p.data = p.data := congrArg String.data hp.1
  have hpne : p.data ≠ [] := string_data_ne_nil hp.2
  have hdata : (p ++ q).data = p.data ++ q.data := String.data_append p q
  constructor
  · show pyStrip (p ++ q) = p ++ q
    have h1 : stripChars (p.data ++ q.data) = p.data ++ q.data :=
      stripChars_append_of_wsFree hpd hpne hq hqne
    unfold pyStrip
    rw [hdata, h1]
    exact String.ext hdata.symm
  · intro habs
    have hd2 : (p ++ q).data = [] := by rw [habs]
    rw [hdata] at hd2
    exact hpne (List.append_eq_nil.mp hd2).1

theorem strStable_of_wsFree (q : String) (hq : wsFree q.data = true)
    (hqne : q.data ≠ []) : strStable q = true := by
  simp only [strStable, Bool.and_eq_true, beq_iff_eq, bne_iff_ne, ne_eq]
  constructor
  · show pyStrip q = q
    unfold pyStrip
    rw [stripChars_eq_self_of_wsFree hq]
  · intro habs
    exact hqne (by rw [habs])

theorem strStable_pyStrip {x : String} (h : pyStrip x ≠ "") :
    strStable (pyStrip x) = true := by
  simp only [strStable, Bool.and_eq_true, beq_iff_eq, bne_iff_ne, ne_eq]
  exact ⟨pyStrip_idem x, h⟩

/-- The child fallback id `parentId ++ "-child-" ++ natStr index` is
strip-stable and nonempty whenever the parent id is. -/
theorem childFallback_stable (p : String) (hp : strStable p = true) (index : Nat) :
    strStable (p ++ "-child-" ++ natStr index) = true := by
  have hws : wsFree ("-child-" ++ natStr index).data = true := by
    rw [String.data_append]
    simp only [wsFree, List.all_append, Bool.and_eq_true]
    exact ⟨by decide, natStr_wsFree index⟩
  have hne : ("-child-" ++ natStr index).data ≠ [] := by
    rw [String.data_append]
    intro h
    exact natStr_ne_empty index (List.append_eq_nil.mp h).2
  have := strStable_append p ("-child-" ++ natStr index) hp hws hne
  rwa [← String.append_assoc] at this

theorem itemFallback_stable (index : Nat) : strStable ("item-" ++ natStr index) = true := by
  have hws : wsFree ("item-" ++ natStr index).data = true := by
    rw [String.data_append]
    simp only [wsFree, List.all_append, Bool.and_eq_true]
    exact ⟨by decide, natStr_wsFree index⟩
  refine strStable_of_wsFree _ hws ?_
  rw [String.data_append]
  intro h
  exact natStr_ne_empty index (List.append_eq_nil.mp h).2

theorem coerceStatus_kindStable_default : kindStable "task" = true ∧ kindStable "phase" = true := by
  decide

mutual

theorem normalizeItem_normal (f : String) (hf : strStable f = true) (it : Item) :
    itemNormal (normalizeItem f it) = true := by
  cases it with
  | mk i k t s cs =>
    rw [normalizeItem]
    have hid : strStable (if pyStrip i = "" then f else pyStrip i) = true := by
      split_ifs with h
      · exact hf
      · exact strStable_pyStrip h
    generalize hI : (if pyStrip i = "" then f else pyStrip i) = itemId at hid ⊢
    rw [itemNormal]
    simp only [Bool.and_eq_true]
    refine ⟨⟨⟨⟨hid, ?_⟩, ?_⟩, ?_⟩, ?_⟩
    · split_ifs with h1 h2
      · simp only [kindStable, Bool.and_eq_true, beq_iff_eq, bne_iff_ne, ne_eq]
        exact ⟨pyLower_pyStrip_lower_stable k, h1⟩
      · exact coerceStatus_kindStable_default.1
      · exact coerceStatus_kindStable_default.2
    · split_ifs with h
      · exact hid
      · exact strStable_pyStrip h
    · simp only [beq_iff_eq]
      exact coerceStatus_idem s
    · exact normalizeChildren_normal itemId hid 1 cs

theorem normalizeChildren_normal (p : String) (hp : strStable p = true) (index : Nat)
    (l : List Item) : listNormal (normalizeChildren p index l) = true := by
  cases l with
  | nil => rfl
  | cons c cs =>
    rw [normalizeChildren, listNormal]
    simp only [Bool.and_eq_true]
    exact ⟨normalizeItem_normal _ (childFallback_stable p hp index) c,
      normalizeChildren_normal p hp (index + 1) cs⟩

end

mutual

theorem normalizeItem_of_normal (f : String) (it : Item) (h : itemNormal it = true) :
    normalizeItem f it = it := by
  cases it with
  | mk i k t s cs =>
    rw [itemNormal] at h
    simp only [Bool.and_eq_true, strStable, kindStable, beq_iff_eq, bne_iff_ne, ne_eq] at h
    obtain ⟨⟨⟨⟨⟨hi1, hi2⟩, hk1, hk2⟩, ht1, ht2⟩, hs⟩, hcs⟩ := h
    rw [normalizeItem]
    rw [if_neg (by rw [hi1]; exact hi2)]
    rw [hi1]
    rw [normalizeChildren_of_normal i 1 cs hcs]
    rw [hk1]
    rw [if_pos (show k ≠ "" from hk2)]
    rw [ht1]
    rw [if_neg ht2]
    rw [hs]

theorem normalizeChildren_of_normal (p : String) (index : Nat) (l : List Item)
    (h : listNormal l = true) : normalizeChildren p index l = l := by
  cases l with
  | nil => rfl
  | cons c cs =>
    rw [listNormal] at h
    simp only [Bool.and_eq_true] at h
    rw [normalizeChildren]
    rw [normalizeItem_of_normal _ c h.1, normalizeChildren_of_normal p (index + 1) cs h.2]

end

theorem normalizePlanAux_normal (index : Nat) (l : List Item) :
    listNormal (normalizePlanAux index l) = true := by
  induction l generalizing index with
  | nil => rfl
  | cons c cs ih =>
    rw [normalizePlanAux, listNormal]
    simp only [Bool.and_eq_true]
    exact ⟨normalizeItem_normal _ (itemFallback_stable index) c, ih (index + 1)⟩

theorem normalizePlan_normal (l : List Item) : listNormal (normalizePlan l) = true :=
  normalizePlanAux_normal 1 l

theorem normalizePlanAux_of_normal (index : Nat) (l : List Item)
    (h : listNormal l = true) : normalizePlanAux index l = l := by
  induction l generalizing index with
  | nil => rfl
  | cons c cs ih =>
    rw [listNormal] at h
    simp only [Bool.and_eq_true] at h
    rw [normalizePlanAux, normalizeItem_of_normal _ c h.1, ih (index + 1) h.2]

theorem normalizePlan_of_normal (l : List Item) (h : listNormal l = true) :
    normalizePlan l = l :=
  normalizePlanAux_of_normal 1 l h

theorem derivedStatus_coerce_stable (cs : List String) :
    coerceStatus (derivedStatus cs) = derivedStatus cs := by
  unfold derivedStatus
  split_ifs <;> decide

mutual

theorem setStatusItem_normal (itemId status : String) (hst : coerceStatus status = status)
    (it : Item) (h : itemNormal it = true) :
    itemNormal (setStatusItem itemId status it).1 = true := by
  cases it with
  | mk i k t s cs =>
    rw [itemNormal] at h
    simp only [Bool.and_eq_true] at h
    obtain ⟨⟨⟨⟨hi, hk⟩, ht⟩, hs⟩, hcs⟩ := h
    rw [setStatusItem, itemNormal]
    simp only [Bool.and_eq_true]
    refine ⟨⟨⟨⟨hi, hk⟩, ht⟩, ?_⟩, setStatusList_normal itemId status hst cs hcs⟩
    split_ifs
    · simp [hst]
    · exact hs

theorem setStatusList_normal (itemId status : String) (hst : coerceStatus status = status)
    (l : List Item) (h : listNormal l = true) :
    listNormal (setStatusList itemId status l).1 = true := by
  cases l with
  | nil => rfl
  | cons c cs =>
    rw [listNormal] at h
    simp only [Bool.and_eq_true] at h
    rw [setStatusList, listNormal]
    simp only [Bool.and_eq_true]
    exact ⟨setStatusItem_normal itemId status hst c h.1,
      setStatusList_normal itemId status hst cs h.2⟩

end

mutual

theorem rollUpItem_normal (it : Item) (h : itemNormal it = true) :
    itemNormal (rollUpItem it) = true := by
  cases it with
  | mk i k t s cs =>
    rw [itemNormal] at h
    simp only [Bool.and_eq_true] at h
    obtain ⟨⟨⟨⟨hi, hk⟩, ht⟩, hs⟩, hcs⟩ := h
    cases cs with
    | nil =>
      rw [rollUpItem, itemNormal]
      simp only [Bool.and_eq_true]
      refine ⟨⟨⟨⟨hi, hk⟩, ht⟩, ?_⟩, rfl⟩
      simp only [beq_iff_eq] at hs ⊢
      exact coerceStatus_idem s
    | cons c cs' =>
      rw [rollUpItem, itemNormal]
      simp only [Bool.and_eq_true]
      refine ⟨⟨⟨⟨hi, hk⟩, ht⟩, ?_⟩, rollUpList_normal (c :: cs') hcs⟩
      simp only [beq_iff_eq]
      exact derivedStatus_coerce_stable _

theorem rollUpList_normal (l : List Item) (h : listNormal l = true) :
    listNormal (rollUpList l) = true := by
  cases l with
  | nil => rfl
  | cons c cs =>
    rw [listNormal] at h
    simp only [Bool.and_eq_true] at h
    rw [rollUpList, listNormal]
    simp only [Bool.and_eq_true]
    exact ⟨rollUpItem_normal c h.1, rollUpList_normal cs h.2⟩

end

theorem applyLegacyStatus_coerce_stable (b : Bool) :
    coerceStatus (if b then "complete" else "pending") = (if b then "complete" else "pending") := by
  cases b <;> decide

theorem applyLegacyTaskStates_normal (data : WorkflowDoc) (flag : Bool) (l : List Item)
    (h : listNormal l = true) :
    listNormal (applyLegacyTaskStates data flag l) = true := by
  unfold applyLegacyTaskStates
  exact setStatusList_normal _ _ (applyLegacyStatus_coerce_stable _) _
    (setStatusList_normal _ _ (applyLegacyStatus_coerce_stable _) _
      (setStatusList_normal _ _ (applyLegacyStatus_coerce_stable _) _ h))

/-! ### The status-skeleton: leaf statuses plus tree shape.
Internal statuses are erased; `_roll_up_status` ignores them. -/

mutual

def skelItem : Item → Item
  | .mk i k t s [] => .mk i k t s []
  | .mk i k t _ (c :: cs) => .mk i k t "" (skelList (c :: cs))

def skelList : List Item → List Item
  | [] => []
  | c :: cs => skelItem c :: skelList cs

end

mutual

theorem rollUpItem_skel_congr (it it' : Item) (h : skelItem it = skelItem it') :
    rollUpItem it = rollUpItem it' := by
  cases it with
  | mk i k t s cs =>
    cases it' with
    | mk i' k' t' s' cs' =>
      cases cs with
      | nil =>
        cases cs' with
        | nil =>
          rw [skelItem, skelItem] at h
          injection h with h1 h2 h3 h4 h5
          rw [rollUpItem, rollUpItem, h1, h2, h3, h4]
        | cons c' cs'' =>
          rw [skelItem, skelItem] at h
          injection h with h1 h2 h3 h4 h5
          rw [skelList] at h5
          exact absurd h5.symm (List.cons_ne_nil _ _)
      | cons c cs'' =>
        cases cs' with
        | nil =>
          rw [skelItem, skelItem] at h
          injection h with h1 h2 h3 h4 h5
          rw [skelList] at h5
          exact absurd h5 (List.cons_ne_nil _ _)
        | cons c' cs''' =>
          rw [skelItem, skelItem] at h
          injection h with h1 h2 h3 h4 h5
          have hroll := rollUpList_skel_congr (c :: cs'') (c' :: cs''') h5
          rw [rollUpItem, rollUpItem, h1, h2, h3, hroll]

theorem rollUpList_skel_congr (l l' : List Item) (h : skelList l = skelList l') :
    rollUpList l = rollUpList l' := by
  cases l with
  | nil =>
    cases l' with
    | nil => rfl
    | cons c' cs' =>
      rw [skelList, skelList] at h
      exact absurd h.symm (List.cons_ne_nil _ _)
  | cons c cs =>
    cases l' with
    | nil =>
      rw [skelList, skelList] at h
      exact absurd h (List.cons_ne_nil _ _)
    | cons c' cs' =>
      rw [skelList, skelList] at h
      injection h with h1 h2
      rw [rollUpList, rollUpList, rollUpItem_skel_congr c c' h1,
        rollUpList_skel_congr cs cs' h2]

end

mutual

theorem setStatusItem_skel_congr (itemId status : String) (it it' : Item)
    (h : skelItem it = skelItem it') :
    skelItem (setStatusItem itemId status it).1 = skelItem (setStatusItem itemId status it').1 := by
  cases it with
  | mk i k t s cs =>
    cases it' with
    | mk i' k' t' s' cs' =>
      cases cs with
      | nil =>
        cases cs' with
        | nil =>
          rw [skelItem, skelItem] at h
          injection h with h1 h2 h3 h4 h5
          rw [setStatusItem, setStatusItem]
          simp only [setStatusList]
          rw [skelItem, skelItem, h1, h2, h3, h4]
        | cons c' cs'' =>
          rw [skelItem, skelItem] at h
          injection h with h1 h2 h3 h4 h5
          rw [skelList] at h5
          exact absurd h5.symm (List.cons_ne_nil _ _)
      | cons c cs'' =>
        cases cs' with
        | nil =>
          rw [skelItem, skelItem] at h
          injection h with h1 h2 h3 h4 h5
          rw [skelList] at h5
          exact absurd h5 (List.cons_ne_nil _ _)
        | cons c' cs''' =>
          rw [skelItem, skelItem] at h
          injection h with h1 h2 h3 h4 h5
          have hsl := setStatusList_skel_congr itemId status (c :: cs'') (c' :: cs''') h5
          simp only [setStatusList] at hsl
          rw [setStatusItem, setStatusItem]
          simp only [setStatusList]
          rw [skelItem, skelItem]
          rw [h1, h2, h3, hsl]

theorem setStatusList_skel_congr (itemId status : String) (l l' : List Item)
    (h : skelList l = skelList l') :
    skelList (setStatusList itemId status l).1 = skelList (setStatusList itemId status l').1 := by
  cases l with
  | nil =>
    cases l' with
    | nil => rfl
    | cons c' cs' =>
      rw [skelList, skelList] at h
      exact absurd h.symm (List.cons_ne_nil _ _)
  | cons c cs =>
    cases l' with
    | nil =>
      rw [skelList, skelList] at h
      exact absurd h (List.cons_ne_nil _ _)
    | cons c' cs' =>
      rw [skelList, skelList] at h
      injection h with h1 h2
      rw [setStatusList, setStatusList]
      simp only
      rw [skelList, skelList]
      rw [setStatusItem_skel_congr itemId status c c' h1,
        setStatusList_skel_congr itemId status cs cs' h2]

end

mutual

/-- Leaf-status coercion, the only part of roll-up that touches leaves. -/
def coerceLeavesItem : Item → Item
  | .mk i k t s [] => .mk i k t (coerceStatus s) []
  | .mk i k t s (c :: cs) => .mk i k t s (coerceLeavesList (c :: cs))

def coerceLeavesList : List Item → List Item
  | [] => []
  | c :: cs => coerceLeavesItem c :: coerceLeavesList cs

end

mutual

theorem skel_rollUpItem (it : Item) :
    skelItem (rollUpItem it) = skelItem (coerceLeavesItem it) := by
  cases it with
  | mk i k t s cs =>
    cases cs with
    | nil => rfl
    | cons c cs' =>
      rw [rollUpItem, coerceLeavesItem]
      show skelItem (.mk i k t _ (rollUpList (c :: cs'))) = _
      rw [show rollUpList (c :: cs') = rollUpItem c :: rollUpList cs' from rfl]
      rw [show coerceLeavesList (c :: cs') = coerceLeavesItem c :: coerceLeavesList cs' from rfl]
      rw [skelItem, skelItem]
      congr 1
      have := skel_rollUpList (c :: cs')
      rw [show rollUpList (c :: cs') = rollUpItem c :: rollUpList cs' from rfl] at this
      rw [show coerceLeavesList (c :: cs') = coerceLeavesItem c :: coerceLeavesList cs' from rfl] at this
      exact this

theorem skel_rollUpList (l : List Item) :
    skelList (rollUpList l) = skelList (coerceLeavesList l) := by
  cases l with
  | nil => rfl
  | cons c cs =>
    rw [rollUpList, coerceLeavesList, skelList, skelList]
    rw [skel_rollUpItem c, skel_rollUpList cs]

end

mutual

theorem coerceLeavesItem_of_normal (it : Item) (h : itemNormal it = true) :
    coerceLeavesItem it = it := by
  cases it with
  | mk i k t s cs =>
    rw [itemNormal] at h
    simp only [Bool.and_eq_true, beq_iff_eq] at h
    obtain ⟨⟨⟨⟨-, -⟩, -⟩, hs⟩, hcs⟩ := h
    cases cs with
    | nil => rw [coerceLeavesItem, hs]
    | cons c cs' =>
      rw [coerceLeavesItem]
      rw [coerceLeavesList_of_normal (c :: cs') hcs]

theorem coerceLeavesList_of_normal (l : List Item) (h : listNormal l = true) :
    coerceLeavesList l = l := by
  cases l with
  | nil => rfl
  | cons c cs =>
    rw [listNormal] at h
    simp only [Bool.and_eq_true] at h
    rw [coerceLeavesList, coerceLeavesItem_of_normal c h.1, coerceLeavesList_of_normal cs h.2]

end

mutual

theorem setStatusItem_idem (itemId v : String) (it : Item) :
    (setStatusItem itemId v (setStatusItem itemId v it).1).1 =
      (setStatusItem itemId v it).1 := by
  cases it with
  | mk i k t s cs =>
    cases h : (i == itemId) <;>
      simp [setStatusItem, h, setStatusList_idem itemId v cs]

theorem setStatusList_idem (itemId v : String) (l : List Item) :
    (setStatusList itemId v (setStatusList itemId v l).1).1 =
      (setStatusList itemId v l).1 := by
  cases l with
  | nil => rfl
  | cons c cs =>
    simp [setStatusList, setStatusItem_idem itemId v c, setStatusList_idem itemId v cs]

end

mutual

theorem setStatusItem_comm (id1 v1 id2 v2 : String) (hne : id1 ≠ id2) (it : Item) :
    (setStatusItem id1 v1 (setStatusItem id2 v2 it).1).1 =
      (setStatusItem id2 v2 (setStatusItem id1 v1 it).1).1 := by
  cases it with
  | mk i k t s cs =>
    have hlist := setStatusList_comm id1 v1 id2 v2 hne cs
    cases h1 : (i == id1)
    · cases h2 : (i == id2) <;> simp [setStatusItem, h1, h2, hlist]
    · have h2 : (i == id2) = false := by
        cases h2c : (i == id2)
        · rfl
        · exact absurd ((beq_iff_eq.mp h1).symm.trans (beq_iff_eq.mp h2c)) hne
      simp [setStatusItem, h1, h2, hlist]

theorem setStatusList_comm (id1 v1 id2 v2 : String) (hne : id1 ≠ id2) (l : List Item) :
    (setStatusList id1 v1 (setStatusList id2 v2 l).1).1 =
      (setStatusList id2 v2 (setStatusList id1 v1 l).1).1 := by
  cases l with
  | nil => rfl
  | cons c cs =>
    simp [setStatusList, setStatusItem_comm id1 v1 id2 v2 hne c,
      setStatusList_comm id1 v1 id2 v2 hne cs]

end

theorem applyLegacyTaskStates_idem (d : WorkflowDoc) (flag : Bool) (l : List Item) :
    applyLegacyTaskStates d flag (applyLegacyTaskStates d flag l) =
      applyLegacyTaskStates d flag l := by
  unfold applyLegacyTaskStates
  generalize (if flag then "complete" else "pending") = vA
  generalize (if d.prerequisitesPass then "complete" else "pending") = vB
  generalize (if d.ideationCompleted then "complete" else "pending") = vC
  rw [setStatusList_comm "task-scaffold" vA "task-ideation" vC (by decide)]
  rw [setStatusList_comm "task-scaffold" vA "task-prerequisite-gate" vB (by decide)]
  rw [setStatusList_idem "task-scaffold" vA]
  rw [setStatusList_comm "task-prerequisite-gate" vB "task-ideation" vC (by decide)]
  rw [setStatusList_idem "task-prerequisite-gate" vB]
  rw [setStatusList_idem "task-ideation" vC]

theorem applyLegacy_skel_congr (d : WorkflowDoc) (flag : Bool) (l l' : List Item)
    (h : skelList l = skelList l') :
    skelList (applyLegacyTaskStates d flag l) = skelList (applyLegacyTaskStates d flag l') := by
  unfold applyLegacyTaskStates
  exact setStatusList_skel_congr _ _ _ _
    (setStatusList_skel_congr _ _ _ _
      (setStatusList_skel_congr _ _ _ _ h))

theorem reconcileDoc_plan_normal (d : WorkflowDoc) (flag : Bool) :
    listNormal (reconcileDoc d flag).plan = true := by
  unfold reconcileDoc
  exact rollUpList_normal _
    (applyLegacyTaskStates_normal d flag _ (normalizePlan_normal d.plan))

theorem reconcileDoc_idem (d : WorkflowDoc) (flag : Bool) :
    reconcileDoc (reconcileDoc d flag) flag = reconcileDoc d flag := by
  have hPnorm : listNormal (normalizePlan d.plan) = true := normalizePlan_normal d.plan
  have hQnorm : listNormal
      (applyLegacyTaskStates d flag (normalizePlan d.plan)) = true :=
    applyLegacyTaskStates_normal d flag _ hPnorm
  have hRnorm : listNormal
      (rollUpList (applyLegacyTaskStates d flag (normalizePlan d.plan))) = true :=
    rollUpList_normal _ hQnorm
  show reconcileDoc
      { d with plan := rollUpList (applyLegacyTaskStates d flag (normalizePlan d.plan)) } flag =
    { d with plan := rollUpList (applyLegacyTaskStates d flag (normalizePlan d.plan)) }
  unfold reconcileDoc
  simp only
  congr 1
  rw [normalizePlan_of_normal _ hRnorm]
  have hskelRQ : skelList
      (rollUpList (applyLegacyTaskStates d flag (normalizePlan d.plan))) =
      skelList (applyLegacyTaskStates d flag (normalizePlan d.plan)) := by
    rw [skel_rollUpList, coerceLeavesList_of_normal _ hQnorm]
  have happly : applyLegacyTaskStates
        { d with plan := rollUpList (applyLegacyTaskStates d flag (normalizePlan d.plan)) } flag
        (rollUpList (applyLegacyTaskStates d flag (normalizePlan d.plan))) =
      applyLegacyTaskStates d flag
        (rollUpList (applyLegacyTaskStates d flag (normalizePlan d.plan))) := rfl
  rw [happly]
  have hskel : skelList
      (applyLegacyTaskStates d flag
        (rollUpList (applyLegacyTaskStates d flag (normalizePlan d.plan)))) =
      skelList (applyLegacyTaskStates d flag (normalizePlan d.plan)) := by
    have h1 := applyLegacy_skel_congr d flag _ _ hskelRQ
    rw [h1, ← applyLegacyTaskStates_idem d flag (normalizePlan d.plan)]
    rw [applyLegacyTaskStates_idem d flag (normalizePlan d.plan)]
    rw [applyLegacyTaskStates_idem d flag (normalizePlan d.plan)]
  exact rollUpList_skel_congr _ _ hskel

/-- C9: for every state document and every item id that does not occur
anywhere in the (reconciled) plan tree, `set_workflow_item_status` returns
`found = false` and performs no status write: the returned document is
exactly the load-time reconciliation of the input, and reconciliation is
idempotent, so on an already-loaded document no leaf status changes at all. -/
theorem C9_set_unknown_id_no_mutation (d : WorkflowDoc) (itemId status : String)
    (flag : Bool) (hstatus : pyLower (pyStrip status) ∈ VALID_STATUSES)
    (hocc : occursList (pyStrip itemId) (reconcileDoc d flag).plan = false) :
    setWorkflowItemStatus d itemId status flag =
      .ok ((if pyStrip itemId = "" then d else reconcileDoc d flag), false) ∧
    reconcileDoc (reconcileDoc d flag) flag = reconcileDoc d flag := by
  refine ⟨?_, reconcileDoc_idem d flag⟩
  unfold setWorkflowItemStatus
  by_cases hid : pyStrip itemId = ""
  · rw [if_pos hid, if_pos hid]
  · rw [if_neg hid, if_neg hid, if_pos hstatus]
    have hplan : normalizePlan (reconcileDoc d flag).plan = (reconcileDoc d flag).plan :=
      normalizePlan_of_normal _ (reconcileDoc_plan_normal d flag)
    have hfound : (setStatusList (pyStrip itemId) (pyLower (pyStrip status))
        (normalizePlan (reconcileDoc d flag).plan)).2 = false := by
      rw [setStatusList_found, hplan]
      exact hocc
    simp only [hfound, Bool.false_eq_true, if_false]

/-- Closed witness for C9: a concrete one-task document and an id that is
absent from its plan. -/
theorem C9_set_unknown_id_no_mutation_witness :
    (setWorkflowItemStatus
        (WorkflowDoc.mk false false [Item.mk "task-a" "task" "Task A" "pending" []])
        "no-such-item" "complete" false =
      .ok ((if pyStrip "no-such-item" = "" then
          WorkflowDoc.mk false false [Item.mk "task-a" "task" "Task A" "pending" []]
        else reconcileDoc
          (WorkflowDoc.mk false false [Item.mk "task-a" "task" "Task A" "pending" []]) false),
        false)) ∧
    reconcileDoc (reconcileDoc
        (WorkflowDoc.mk false false [Item.mk "task-a" "task" "Task A" "pending" []]) false) false =
      reconcileDoc
        (WorkflowDoc.mk false false [Item.mk "task-a" "task" "Task A" "pending" []]) false :=
  C9_set_unknown_id_no_mutation
    (WorkflowDoc.mk false false [Item.mk "task-a" "task" "Task A" "pending" []])
    "no-such-item" "complete" false (by decide) (by decide)

/-! ### Embedding of `run-research-pass.py`: the research execution scheduler -/

def PASS_RESULT_TOPIC_STATUSES : List String :=
  ["complete", "complete_with_caveats", "needs_followup"]

def PASS_RESULT_CONFIDENCE : List String := ["low", "medium", "high"]

def TOPIC_COMPLETE_STATUSES : List String := ["complete", "complete_with_caveats"]

def TOPIC_ACTIVE_STATUSES : List String := ["pending", "in_progress", "needs_followup"]

/-- Embedding of `coerce_string` (string inputs). -/
def coerceString (value deflt : String) : String :=
  let text := pyStrip value
  if text = "" then deflt else text

/-- Embedding of `coerce_string_list` (list-of-strings inputs): strip each
entry, drop empties, deduplicate keeping first occurrences. -/
def coerceStringList (values : List String) : List String :=
  values.foldl
    (fun items raw =>
      let text := coerceString raw ""
      if text ≠ "" ∧ text ∉ items then items ++ [text] else items)
    []

/-- Embedding of `coerce_positive_int` on an integer input (the
`default` argument only matters for unparseable inputs, which the typed
embedding excludes). -/
def coercePositiveInt (value : Int) (minimum : Nat) : Nat :=
  if value < minimum then minimum else value.toNat

/-- Embedding of `coerce_percent_int` on an integer input. -/
def coercePercentInt (value : Int) (minimum : Nat := 1) (maximum : Nat := 95) : Nat :=
  let number := coercePositiveInt value minimum
  if number > maximum then maximum else number

/-- Code-point comparison of character lists (Python string `<`). -/
def charListLt : List Char → List Char → Bool
  | [], [] => false
  | [], _ :: _ => true
  | _ :: _, [] => false
  | a :: as, b :: bs =>
    if a.toNat < b.toNat then true
    else if b.toNat < a.toNat then false
    else charListLt as bs

/-- Python string `<` (code-point lexicographic). -/
def strLt (a b : String) : Bool := charListLt a.data b.data

/-- Stable insertion sort by a strict comparison, as Python `sorted`. -/
def insertSorted (lt : α → α → Bool) (x : α) : List α → List α
  | [] => [x]
  | y :: ys => if lt x y then x :: y :: ys else y :: insertSorted lt x ys

def sortBy' (lt : α → α → Bool) (l : List α) : List α :=
  l.foldl (fun acc x => insertSorted lt x acc) []

def sortStrings (l : List String) : List String := sortBy' strLt l

/-- First-match association-list lookup (Python `dict.get`). -/
def alGet (m : List (String × α)) (k : String) : Option α :=
  (m.find? (fun p => p.1 == k)).map (·.2)

/-- A normalized agenda topic, as produced by `topic_records`. -/
structure Topic where
  topicId : String
  title : String
  category : String
  priority : String
  whyItMatters : String
  researchQuestions : List String
  keywords : List String
  tags : List String
  relatedEntities : List String
  blockId : String
  blockTitle : String
deriving Repr, DecidableEq

/-- The `{}` default of `topic_map.get(topic_id, {})`. -/
def Topic.empty : Topic :=
  ⟨"", "", "", "", "", [], [], [], [], "", ""⟩

/-- A `topic_status` entry. `passesAttempted` is kept raw (`Int`); the code
clamps it on every read. -/
structure TopicEntry where
  topicId : String
  title : String
  status : String
  passesAttempted : Int
  lastPassId : String
  latestSummary : String
  unresolvedQuestions : List String
  sourceIds : List String
  updatedAt : String
deriving Repr, DecidableEq

/-- A `pass_queue` entry. -/
structure PassEntry where
  passId : String
  round : Int
  status : String
  topicIds : List String
  plannedEffort : Int
  createdAt : String
  startedAt : String
  estimatedTokensIn : Int
deriving Repr, DecidableEq

/-- A per-topic record appended to `pass_history[...].topics`. -/
structure TopicResultRecord where
  topicId : String
  status : String
  confidence : String
  summary : String
  unresolvedQuestionCount : Nat
  sourceIds : List String
deriving Repr, DecidableEq

/-- A `pass_history` entry. -/
structure HistoryEntry where
  passId : String
  round : Int
  completedAt : String
  passSummary : String
  topics : List TopicResultRecord
  sourceIds : List String
  estimatedTokensIn : Nat
  estimatedTokensOut : Nat
deriving Repr, DecidableEq

/-- A `source_registry` entry. -/
structure SourceEntry where
  sourceId : String
  url : String
  title : String
  publisher : String
  publishedAt : String
  notes : String
  topicIds : List String
  passId : String
  capturedAt : String
deriving Repr, DecidableEq

/-- Raw `planning` values as persisted (arbitrary integers). -/
structure Planning where
  targetEffortPerPass : Int
  maxTopicsPerPass : Int
  maxPassesPerTopic : Int
  maxTotalPasses : Int
  maxPassesPerChat : Int
  contextWindowTokens : Int
  handoffContextThresholdPercent : Int
  estimatedFixedTokensPerChat : Int
  estimatedTokensInOverheadPerPass : Int
  estimatedTokensOutOverheadPerPass : Int
  latestRound : Int
deriving Repr, DecidableEq

/-- Clamped planning values, as computed by `planning_config`. -/
structure PlanningConfig where
  targetEffortPerPass : Nat
  maxTopicsPerPass : Nat
  maxPassesPerTopic : Nat
  maxTotalPasses : Nat
  maxPassesPerChat : Nat
  contextWindowTokens : Nat
  handoffContextThresholdPercent : Nat
  estimatedFixedTokensPerChat : Nat
  estimatedTokensInOverheadPerPass : Nat
  estimatedTokensOutOverheadPerPass : Nat
  latestRound : Nat
deriving Repr, DecidableEq

/-- Embedding of `planning_config` (the read side; `planning.update(config)`
is modelled by `coercePlanning` below). -/
def planningConfig (planning : Planning) : PlanningConfig where
  targetEffortPerPass := coercePositiveInt planning.targetEffortPerPass 1
  maxTopicsPerPass := coercePositiveInt planning.maxTopicsPerPass 1
  maxPassesPerTopic := coercePositiveInt planning.maxPassesPerTopic 1
  maxTotalPasses := coercePositiveInt planning.maxTotalPasses 1
  maxPassesPerChat := coercePositiveInt planning.maxPassesPerChat 1
  contextWindowTokens := coercePositiveInt planning.contextWindowTokens 1000
  handoffContextThresholdPercent := coercePercentInt planning.handoffContextThresholdPercent
  estimatedFixedTokensPerChat := coercePositiveInt planning.estimatedFixedTokensPerChat 0
  estimatedTokensInOverheadPerPass := coercePositiveInt planning.estimatedTokensInOverheadPerPass 0
  estimatedTokensOutOverheadPerPass := coercePositiveInt planning.estimatedTokensOutOverheadPerPass 0
  latestRound := coercePositiveInt planning.latestRound 0

/-- The in-place `planning.update(config)` write performed by
`planning_config`. -/
def coercePlanning (planning : Planning) : Planning :=
  let c := planningConfig planning
  ⟨c.targetEffortPerPass, c.maxTopicsPerPass, c.maxPassesPerTopic, c.maxTotalPasses,
    c.maxPassesPerChat, c.contextWindowTokens, c.handoffContextThresholdPercent,
    c.estimatedFixedTokensPerChat, c.estimatedTokensInOverheadPerPass,
    c.estimatedTokensOutOverheadPerPass, c.latestRound⟩

/-- Embedding of `context_threshold_tokens` (exact for the integer ranges the
code produces, where the float floor agrees with integer division). -/
def contextThresholdTokens (config : PlanningConfig) : Nat :=
  max 1 ((config.contextWindowTokens * config.handoffContextThresholdPercent) / 100)

/-- The chat context record. The derived float percentage field is not
modelled; no behaviour reads it back. -/
structure ChatContext where
  sessionIndex : Nat
  passesCompleted : Nat
  estimatedTokensFixed : Nat
  estimatedTokensIn : Nat
  estimatedTokensOut : Nat
  estimatedTokensTotal : Nat
  budgetTokens : Nat
  thresholdTokens : Nat
  thresholdPercent : Nat
  lastResetAt : String
  lastUpdatedAt : String
  lastPassId : String
  lastPassTokensIn : Nat
  lastPassTokensOut : Nat
deriving Repr, DecidableEq

/-- The derived `summary` block of the execution record (context echo fields
are not modelled; nothing reads them back). -/
structure ExecSummary where
  topicTotal : Nat
  topicComplete : Nat
  topicCaveated : Nat
  topicNeedsFollowup : Nat
  topicPending : Nat
  passPending : Nat
  passComplete : Nat
  nextPassId : String
deriving Repr, DecidableEq

/-- The `ideation.research_execution` record. -/
structure Execution where
  status : String
  planning : Planning
  topicStatus : List (String × TopicEntry)
  passQueue : List PassEntry
  passHistory : List HistoryEntry
  sourceRegistry : List SourceEntry
  chatContext : ChatContext
  summary : ExecSummary
  handoffRequired : Bool
  handoffReason : String
  handoffMessage : String
  updatedAt : String
deriving Repr, DecidableEq

/-- Embedding of `topic_effort`. -/
def topicEffort (topic : Topic) : Nat :=
  let priority := pyLower (coerceString topic.priority "medium")
  let priorityWeight : Nat :=
    if priority = "low" then 1
    else if priority = "medium" then 2
    else if priority = "high" then 3
    else 2
  let questionWeight := ((coerceStringList topic.researchQuestions).length + 1) / 2
  let keywordWeight := ((coerceStringList topic.keywords).length + 3) / 4
  let entityWeight := min 2 (coerceStringList topic.relatedEntities).length
  max 1 (1 + priorityWeight + questionWeight + keywordWeight + entityWeight)

/-- Embedding of `unresolved_topics`: sorted ids of active topics. -/
def unresolvedTopics (execution : Execution) : List String :=
  sortStrings
    ((execution.topicStatus.filter
      (fun p => decide (coerceString p.2.status "pending" ∈ TOPIC_ACTIVE_STATUSES))).map (·.1))

/-- The sort key of `sort_topics_for_planning`. -/
def planSortKey (statusMap : List (String × TopicEntry))
    (topicMap : List (String × Topic)) (topicId : String) :
    Nat × Nat × Nat × Int × String :=
  let status :=
    match alGet statusMap topicId with
    | some entry => pyLower (coerceString entry.status "pending")
    | none => "pending"
  let passesAttempted :=
    match alGet statusMap topicId with
    | some entry => coercePositiveInt entry.passesAttempted 0
    | none => 0
  let topic := (alGet topicMap topicId).getD Topic.empty
  let priority := pyLower (coerceString topic.priority "medium")
  let statusRank : Nat :=
    if status = "pending" then 0
    else if status = "in_progress" then 1
    else if status = "needs_followup" then 2
    else 2
  let priorityRank : Nat :=
    if priority = "high" then 0
    else if priority = "medium" then 1
    else if priority = "low" then 2
    else 1
  (statusRank, passesAttempted, priorityRank, -(topicEffort topic : Int), topicId)

/-- Strict lexicographic comparison of plan sort keys. -/
def planKeyLt (a b : Nat × Nat × Nat × Int × String) : Bool :=
  if a.1 ≠ b.1 then a.1 < b.1
  else if a.2.1 ≠ b.2.1 then a.2.1 < b.2.1
  else if a.2.2.1 ≠ b.2.2.1 then a.2.2.1 < b.2.2.1
  else if a.2.2.2.1 ≠ b.2.2.2.1 then a.2.2.2.1 < b.2.2.2.1
  else strLt a.2.2.2.2 b.2.2.2.2

/-- Embedding of `sort_topics_for_planning`. -/
def sortTopicsForPlanning (topicIds : List String) (topicMap : List (String × Topic))
    (execution : Execution) : List String :=
  sortBy'
    (fun a b =>
      planKeyLt (planSortKey execution.topicStatus topicMap a)
        (planSortKey execution.topicStatus topicMap b))
    topicIds

/-- Embedding of `latest_round`. -/
def latestRound (execution : Execution) : Nat :=
  let config := planningConfig execution.planning
  let roundCandidates :=
    config.latestRound ::
      (execution.passQueue.map (fun entry => coercePositiveInt entry.round 0) ++
        execution.passHistory.map (fun entry => coercePositiveInt entry.round 0))
  roundCandidates.foldl max 0

/-- Two-digit zero-padded index, Python `f"{index:02d}"` for nonnegative
values. -/
def pad2 (n : Nat) : String := if n < 10 then "0" ++ natStr n else natStr n

def passIdStr (round index : Nat) : String :=
  "pass-r" ++ natStr round ++ "-" ++ pad2 index

/-- One planned pass entry as built inside `rebuild_pass_queue`. -/
def mkPlannedPass (round index : Nat) (topicIds : List String) (effort : Nat)
    (timestamp : String) : PassEntry where
  passId := passIdStr round index
  round := round
  status := "pending"
  topicIds := topicIds
  plannedEffort := effort
  createdAt := timestamp
  startedAt := ""
  estimatedTokensIn := 0

/-- The greedy packing loop of `rebuild_pass_queue`: accumulate topics into
the current pass, closing it when the next topic would cross either cap. -/
def buildQueue (topicMap : List (String × Topic)) (target maxTopics round : Nat)
    (timestamp : String) :
    List String → List String → Nat → Nat → List PassEntry → List PassEntry
  | [], currentTopics, currentEffort, passIndex, queue =>
    if currentTopics.isEmpty then queue
    else queue ++ [mkPlannedPass round passIndex currentTopics currentEffort timestamp]
  | topicId :: rest, currentTopics, currentEffort, passIndex, queue =>
    let topic := (alGet topicMap topicId).getD Topic.empty
    let effort := topicEffort topic
    let shouldClose :=
      ¬currentTopics.isEmpty ∧
        (maxTopics ≤ currentTopics.length ∨ target < currentEffort + effort)
    if shouldClose then
      buildQueue topicMap target maxTopics round timestamp rest
        [topicId] effort (passIndex + 1)
        (queue ++ [mkPlannedPass round passIndex currentTopics currentEffort timestamp])
    else
      buildQueue topicMap target maxTopics round timestamp rest
        (currentTopics ++ [topicId]) (currentEffort + effort) passIndex queue

/-- Embedding of `rebuild_pass_queue`. -/
def rebuildPassQueue (execution : Execution) (topicMap : List (String × Topic))
    (timestamp : String) : Execution :=
  let topicIds := unresolvedTopics execution
  if topicIds.isEmpty then { execution with passQueue := [] }
  else
    let config := planningConfig execution.planning
    let targetEffort := config.targetEffortPerPass
    let maxTopics := config.maxTopicsPerPass
    let roundNumber := latestRound execution + 1
    let planning := { coercePlanning execution.planning with latestRound := (roundNumber : Int) }
    let orderedTopics := sortTopicsForPlanning topicIds topicMap execution
    let queue := buildQueue topicMap targetEffort maxTopics roundNumber timestamp
      orderedTopics [] 0 1 []
    { execution with planning := planning, passQueue := queue }

/-- Embedding of `append_unique_note`. -/
def appendUniqueNote (items : List String) (note : String) : List String :=
  let normalized := coerceStringList items
  let text := coerceString note ""
  if text ≠ "" ∧ text ∉ normalized then normalized ++ [text] else normalized

/-- Embedding of `mark_topic_complete_with_caveats`. -/
def markTopicCompleteWithCaveats (entry : TopicEntry) (topicId : String)
    (topicMap : List (String × Topic)) (timestamp note : String) : TopicEntry :=
  let summary := coerceString entry.latestSummary ""
  let summary :=
    if summary = "" then
      let title := coerceString ((alGet topicMap topicId).getD Topic.empty).title topicId
      "Accepted with caveats after bounded research for " ++ title ++ "."
    else summary
  { entry with
    status := "complete_with_caveats"
    latestSummary := summary
    unresolvedQuestions := appendUniqueNote entry.unresolvedQuestions note
    updatedAt := timestamp }

/-- Is this `topic_status` entry active (pending / in_progress /
needs_followup) after status coercion? -/
def entryActive (entry : TopicEntry) : Bool :=
  decide (coerceString entry.status "pending" ∈ TOPIC_ACTIVE_STATUSES)

/-- Embedding of `enforce_topic_retry_limits` (the returned id list is unused
by the callers this development models). -/
def enforceTopicRetryLimits (execution : Execution) (topicMap : List (String × Topic))
    (timestamp : String) : Execution :=
  let config := planningConfig execution.planning
  let maxPassesPerTopic := config.maxPassesPerTopic
  let note := "Pass cap reached (" ++ natStr maxPassesPerTopic ++
    "); accepting current findings with caveats."
  let topicStatus := execution.topicStatus.map
    (fun p =>
      (p.1,
        if entryActive p.2 ∧ maxPassesPerTopic ≤ coercePositiveInt p.2.passesAttempted 0 then
          markTopicCompleteWithCaveats p.2 p.1 topicMap timestamp note
        else p.2))
  { execution with topicStatus := topicStatus }

/-- Embedding of `enforce_total_pass_limit`. -/
def enforceTotalPassLimit (execution : Execution) (topicMap : List (String × Topic))
    (timestamp : String) : Execution :=
  let config := planningConfig execution.planning
  let maxTotalPasses := config.maxTotalPasses
  if execution.passHistory.length < maxTotalPasses then execution
  else
    let note := "Total pass cap reached (" ++ natStr maxTotalPasses ++
      "); accepting current findings with caveats."
    let anyCapped := execution.topicStatus.any (fun p => entryActive p.2)
    let topicStatus := execution.topicStatus.map
      (fun p =>
        (p.1,
          if entryActive p.2 then
            markTopicCompleteWithCaveats p.2 p.1 topicMap timestamp note
          else p.2))
    { execution with
      topicStatus := topicStatus
      passQueue := if anyCapped then [] else execution.passQueue }

/-- Embedding of `prune_pass_queue`. -/
def prunePassQueue (execution : Execution) : Execution :=
  let activeTopicIds := (execution.topicStatus.filter (fun p => entryActive p.2)).map (·.1)
  let filteredQueue := execution.passQueue.foldl
    (fun acc entry =>
      let topicIds := (coerceStringList entry.topicIds).filter (· ∈ activeTopicIds)
      if topicIds.isEmpty then acc
      else
        let status := coerceString entry.status "pending"
        let status := if status = "pending" ∨ status = "in_progress" then status else "pending"
        acc ++ [{
          passId := coerceString entry.passId ""
          round := (coercePositiveInt entry.round 0 : Nat)
          status := status
          topicIds := topicIds
          plannedEffort := (coercePositiveInt entry.plannedEffort 0 : Nat)
          createdAt := coerceString entry.createdAt ""
          startedAt := coerceString entry.startedAt ""
          estimatedTokensIn := (coercePositiveInt entry.estimatedTokensIn 0 : Nat) : PassEntry }])
    []
  { execution with passQueue := filteredQueue }

/-- Embedding of `ensure_chat_context`. -/
def ensureChatContext (execution : Execution) (timestamp : String) (reset : Bool) :
    Execution :=
  let config := planningConfig execution.planning
  let raw := execution.chatContext
  let priorSessionIndex := raw.sessionIndex
  let sessionIndex := if reset then priorSessionIndex + 1 else priorSessionIndex
  let fixedTokens :=
    if reset then config.estimatedFixedTokensPerChat else raw.estimatedTokensFixed
  let passesCompleted := if reset then 0 else raw.passesCompleted
  let tokensIn := if reset then 0 else raw.estimatedTokensIn
  let tokensOut := if reset then 0 else raw.estimatedTokensOut
  let budgetTokens := config.contextWindowTokens
  let thresholdPercent := config.handoffContextThresholdPercent
  let thresholdTokens := contextThresholdTokens config
  let tokensTotal := fixedTokens + tokensIn + tokensOut
  { execution with
    chatContext :=
      { sessionIndex := sessionIndex
        passesCompleted := passesCompleted
        estimatedTokensFixed := fixedTokens
        estimatedTokensIn := tokensIn
        estimatedTokensOut := tokensOut
        estimatedTokensTotal := tokensTotal
        budgetTokens := budgetTokens
        thresholdTokens := thresholdTokens
        thresholdPercent := thresholdPercent
        lastResetAt := if reset then timestamp else raw.lastResetAt
        lastUpdatedAt := if reset then timestamp else raw.lastUpdatedAt
        lastPassId := if reset then "" else raw.lastPassId
        lastPassTokensIn := if reset then 0 else raw.lastPassTokensIn
        lastPassTokensOut := if reset then 0 else raw.lastPassTokensOut } }

/-- Embedding of `apply_pass_token_estimate`. -/
def applyPassTokenEstimate (execution : Execution) (passId : String)
    (estimatedTokensIn estimatedTokensOut : Nat) (timestamp : String) : Execution :=
  let ex := ensureChatContext execution timestamp false
  let chat := ex.chatContext
  let tokensIn := chat.estimatedTokensIn + estimatedTokensIn
  let tokensOut := chat.estimatedTokensOut + estimatedTokensOut
  let fixedTokens := chat.estimatedTokensFixed
  let totalTokens := fixedTokens + tokensIn + tokensOut
  { ex with
    chatContext :=
      { chat with
        passesCompleted := chat.passesCompleted + 1
        estimatedTokensIn := tokensIn
        estimatedTokensOut := tokensOut
        estimatedTokensTotal := totalTokens
        lastPassId := passId
        lastPassTokensIn := estimatedTokensIn
        lastPassTokensOut := estimatedTokensOut
        lastUpdatedAt := timestamp } }

/-- Embedding of `handoff_decision`. -/
def handoffDecision (execution : Execution) : Bool × String :=
  let config := planningConfig execution.planning
  let chat := (ensureChatContext execution (coerceString execution.updatedAt "") false).chatContext
  let totalTokens := chat.estimatedTokensTotal
  let thresholdTokens := max 1 chat.thresholdTokens
  if thresholdTokens ≤ totalTokens then (true, "context_budget")
  else if config.maxPassesPerChat ≤ chat.passesCompleted then (true, "pass_cap")
  else (false, "")

/-- Embedding of `recompute_execution_summary` (status and count fields; the
chat-context echo into `summary.context_*` is not re-read anywhere). -/
def recomputeExecutionSummary (execution : Execution) : Execution :=
  let topicStatus := execution.topicStatus
  let queue := execution.passQueue
  let history := execution.passHistory
  let total := topicStatus.length
  let complete := (topicStatus.filter
    (fun p => decide (coerceString p.2.status "pending" ∈ TOPIC_COMPLETE_STATUSES))).length
  let caveated := (topicStatus.filter
    (fun p => coerceString p.2.status "pending" = "complete_with_caveats")).length
  let followup := (topicStatus.filter (fun p => p.2.status = "needs_followup")).length
  let pending := ((total : Int) - complete - followup).toNat
  let inProgress := queue.find? (fun item => coerceString item.status "pending" = "in_progress")
  let pendingItem := queue.find? (fun item => coerceString item.status "pending" = "pending")
  let nextPassId :=
    match inProgress with
    | some item => coerceString item.passId ""
    | none =>
      match pendingItem with
      | some item => coerceString item.passId ""
      | none => ""
  let status :=
    if total = 0 then "pending"
    else if complete = total then "complete"
    else if nextPassId ≠ "" then "in_progress"
    else "pending"
  let handoffRequired := if status = "complete" then false else execution.handoffRequired
  let ex := ensureChatContext execution (coerceString execution.updatedAt "") false
  { ex with
    status := status
    handoffRequired := handoffRequired
    summary :=
      { topicTotal := total
        topicComplete := complete
        topicCaveated := caveated
        topicNeedsFollowup := followup
        topicPending := pending
        passPending := queue.length
        passComplete := history.length
        nextPassId := nextPassId } }

/-- Fueled search loop of `next_source_id` (fuel `|registry| + 1` always
suffices by pigeonhole). -/
def nextSourceIdAux (used : List String) : Nat → Nat → String
  | 0, index => "source-" ++ natStr index
  | fuel + 1, index =>
    let candidate := "source-" ++ natStr index
    if candidate ∈ used then nextSourceIdAux used fuel (index + 1) else candidate

/-- Embedding of `next_source_id`. -/
def nextSourceId (sourceRegistry : List SourceEntry) : String :=
  let usedIds := sourceRegistry.map (fun entry => coerceString entry.sourceId "")
  nextSourceIdAux usedIds (sourceRegistry.length + 1) 1

/-- Replace the first element satisfying `p` (Python mutation of the object
found by a linear search). -/
def replaceFirst (p : α → Bool) (f : α → α) : List α → List α
  | [] => []
  | x :: xs => if p x then f x :: xs else x :: replaceFirst p f xs

/-- A raw source supplied in a pass-result payload. -/
structure SourceInput where
  url : String
  title : String
  publisher : String
  publishedAt : String
  notes : String
deriving Repr, DecidableEq

/-- Embedding of `register_sources`: the registry after processing the given
sources for one topic, together with the sorted deduplicated created ids. -/
def registerSources (registry : List SourceEntry) (passId topicId : String)
    (sourceEntries : List SourceInput) (capturedAt : String) :
    List SourceEntry × List String :=
  let step := fun (st : List SourceEntry × List String) (source : SourceInput) =>
    let (registry, createdIds) := st
    let url := coerceString source.url ""
    if url = "" then (registry, createdIds)
    else
      match registry.find? (fun entry =>
          coerceString entry.url "" == url &&
            decide (topicId ∈ coerceStringList entry.topicIds)) with
      | some existing =>
        let sourceId := coerceString existing.sourceId ""
        let registry :=
          if passId ≠ "" ∧ coerceString existing.passId "" = "" then
            replaceFirst
              (fun entry =>
                coerceString entry.url "" == url &&
                  decide (topicId ∈ coerceStringList entry.topicIds))
              (fun entry => { entry with passId := passId })
              registry
          else registry
        (registry, createdIds ++ [sourceId])
      | none =>
        let sourceId := nextSourceId registry
        (registry ++ [{
            sourceId := sourceId
            url := url
            title := coerceString source.title ""
            publisher := coerceString source.publisher ""
            publishedAt := coerceString source.publishedAt ""
            notes := coerceString source.notes ""
            topicIds := [topicId]
            passId := passId
            capturedAt := capturedAt : SourceEntry }],
          createdIds ++ [sourceId])
  let (registry, createdIds) := sourceEntries.foldl step (registry, [])
  (registry, sortStrings createdIds.eraseDups)

def DEFAULT_RESEARCH_HANDOFF_MESSAGE : String :=
  "Start a new chat and say \"continue research\"."

/-- Insert-or-update of an insertion-ordered dict entry (Python
`d[k] = v`). -/
def updateOrAppend (m : List (String × α)) (k : String) (v : α) : List (String × α) :=
  if (alGet m k).isSome then replaceFirst (fun p => p.1 == k) (fun _ => (k, v)) m
  else m ++ [(k, v)]

/-- Outcome of the `start` command's execution-level core. -/
inductive StartOutcome where
  | blocked (execution : Execution)
  | researchComplete (execution : Execution)
  | noPass (execution : Execution)
  | started (execution : Execution) (passEntry : PassEntry)
deriving Repr, DecidableEq

def StartOutcome.execution : StartOutcome → Execution
  | .blocked ex => ex
  | .researchComplete ex => ex
  | .noPass ex => ex
  | .started ex _ => ex

/-- The tail of `handle_start` shared by the already-in-progress and
freshly-promoted branches. The current pass is the first `in_progress`
entry of the (possibly just promoted) queue. `estTokens` stands for
`estimate_tokens(pass_payload_preview)`, whose JSON serialization is not
modelled; it does not influence any scheduling decision. -/
def startCommon (ex : Execution) (timestamp : String) (estTokens overhead : Nat) :
    StartOutcome :=
  match ex.passQueue.find? (fun e => coerceString e.status "pending" == "in_progress") with
  | none => .noPass ex
  | some currentPass =>
    let passId := coerceString currentPass.passId ""
    let passTopicIds := coerceStringList currentPass.topicIds
    let topicStatus := ex.topicStatus.map (fun p =>
      (p.1,
        if p.1 ∈ passTopicIds ∧
            ¬ decide (coerceString p.2.status "pending" ∈ TOPIC_COMPLETE_STATUSES) then
          let e := p.2
          let e := if e.status ≠ "needs_followup" then { e with status := "in_progress" } else e
          { e with lastPassId := passId, updatedAt := timestamp }
        else p.2))
    let ex := { ex with
      topicStatus := topicStatus
      handoffRequired := false
      handoffReason := ""
      handoffMessage := coerceString ex.handoffMessage DEFAULT_RESEARCH_HANDOFF_MESSAGE }
    let est := coercePositiveInt currentPass.estimatedTokensIn 0
    let ex :=
      if est < 1 then
        { ex with passQueue :=
            (replaceFirst
              (fun e => coerceString e.status "pending" == "in_progress")
              (fun e => { e with estimatedTokensIn := ((estTokens + overhead : Nat) : Int) })
              ex.passQueue) }
      else ex
    let finalEst := if est < 1 then estTokens + overhead else est
    let ex := recomputeExecutionSummary { ex with updatedAt := timestamp }
    let returnedPass :=
      (ex.passQueue.find? (fun e => coerceString e.passId "" == passId)).getD
        { currentPass with estimatedTokensIn := (finalEst : Int) }
    .started ex returnedPass

/-- Embedding of `handle_start`'s execution-level core (route guard, state
file I/O and the workflow-side `research-completed` flag are outside this
record). -/
def startPass (execution : Execution) (topicMap : List (String × Topic))
    (timestamp : String) (ackHandoff : Bool) (estTokens : Nat) : StartOutcome :=
  let config := planningConfig execution.planning
  let pendingHandoff := execution.handoffRequired
  let ex := ensureChatContext execution timestamp false
  if pendingHandoff ∧ ¬ackHandoff then .blocked ex
  else
    let ex :=
      if pendingHandoff ∧ ackHandoff then
        { ensureChatContext ex timestamp true with handoffRequired := false, handoffReason := "" }
      else ex
    let ex := enforceTopicRetryLimits ex topicMap timestamp
    let ex := enforceTotalPassLimit ex topicMap timestamp
    let ex := prunePassQueue ex
    match ex.passQueue.find? (fun e => coerceString e.status "pending" == "in_progress") with
    | some _ => startCommon ex timestamp estTokens config.estimatedTokensInOverheadPerPass
    | none =>
      let ex :=
        if ex.passQueue.isEmpty ∧ ¬(unresolvedTopics ex).isEmpty then
          prunePassQueue (rebuildPassQueue ex topicMap timestamp)
        else ex
      match ex.passQueue.find? (fun e => coerceString e.status "pending" == "pending") with
      | none =>
        let ex := recomputeExecutionSummary { ex with updatedAt := timestamp }
        if ex.status = "complete" then .researchComplete ex else .noPass ex
      | some _ =>
        let ex := { ex with passQueue :=
          (replaceFirst
            (fun e => coerceString e.status "pending" == "pending")
            (fun e => { e with status := "in_progress", startedAt := timestamp })
            ex.passQueue) }
        startCommon ex timestamp estTokens config.estimatedTokensInOverheadPerPass

/-- A raw per-topic result supplied to the `complete` command. -/
structure TopicResult where
  topicId : String
  status : String
  summary : String
  confidence : String
  unresolvedQuestions : List String
  sources : List SourceInput
deriving Repr, DecidableEq

/-- The `{}` default of `topic_results_index.get(topic_id, {})`. -/
def TopicResult.empty : TopicResult := ⟨"", "", "", "", [], []⟩

/-- Validation loop building `topic_results_index`. -/
def buildResultIndex (passTopicIds : List String) :
    List TopicResult → List (String × TopicResult) →
    Except String (List (String × TopicResult))
  | [], index => .ok index
  | r :: rest, index =>
    if coerceString r.topicId "" = "" then buildResultIndex passTopicIds rest index
    else if coerceString r.topicId "" ∉ passTopicIds then
      .error ("PASS_RESULT_TOPIC_NOT_IN_PASS: " ++ coerceString r.topicId "")
    else if (alGet index (coerceString r.topicId "")).isSome then
      .error ("PASS_RESULT_TOPIC_DUPLICATE: " ++ coerceString r.topicId "")
    else buildResultIndex passTopicIds rest (index ++ [(coerceString r.topicId "", r)])

/-- The fresh `topic_status` entry created for a topic first seen at
completion time. -/
def newTopicEntry (topicMap : List (String × Topic)) (topicId : String) : TopicEntry where
  topicId := topicId
  title :=
    match alGet topicMap topicId with
    | some topic => topic.title
    | none => topicId
  status := "pending"
  passesAttempted := 0
  lastPassId := ""
  latestSummary := ""
  unresolvedQuestions := []
  sourceIds := []
  updatedAt := ""

/-- The status persisted for one topic of a completing pass: the reported
status coerced into `PASS_RESULT_TOPIC_STATUSES` (anything else becomes
`needs_followup`), and `complete` downgraded to `complete_with_caveats`
when unresolved questions accompany it. -/
def resultStatus (index : List (String × TopicResult)) (topicId : String) : String :=
  let result := (alGet index topicId).getD TopicResult.empty
  let rawStatus := pyLower (coerceString result.status "needs_followup")
  let status :=
    if rawStatus ∈ PASS_RESULT_TOPIC_STATUSES then rawStatus else "needs_followup"
  let unresolved := coerceStringList result.unresolvedQuestions
  if status = "complete" ∧ ¬unresolved.isEmpty then "complete_with_caveats" else status

/-- The per-topic persistence loop of `handle_complete`, over the pass's
topic ids in order. Returns the updated source registry and topic statuses,
the accumulated pass source ids and the per-topic history records. -/
def processTopicResults (topicMap : List (String × Topic)) (passId timestamp : String)
    (index : List (String × TopicResult)) :
    List String → List SourceEntry → List (String × TopicEntry) → List String →
    List TopicResultRecord →
    List SourceEntry × List (String × TopicEntry) × List String × List TopicResultRecord
  | [], registry, topicStatus, passSources, records =>
    (registry, topicStatus, passSources, records)
  | topicId :: rest, registry, topicStatus, passSources, records =>
    let result := (alGet index topicId).getD TopicResult.empty
    let status := resultStatus index topicId
    let unresolved := coerceStringList result.unresolvedQuestions
    let summary := coerceString result.summary ""
    let confidence := pyLower (coerceString result.confidence "medium")
    let confidence := if confidence ∈ PASS_RESULT_CONFIDENCE then confidence else "medium"
    let regOut := registerSources registry passId topicId result.sources timestamp
    let entry := (alGet topicStatus topicId).getD (newTopicEntry topicMap topicId)
    let passesAttempted := coercePositiveInt entry.passesAttempted 0
    let entry := { entry with
      passesAttempted := ((passesAttempted + 1 : Nat) : Int)
      status := status
      lastPassId := passId
      latestSummary := summary
      unresolvedQuestions := unresolved
      sourceIds := sortStrings ((coerceStringList entry.sourceIds) ++ regOut.2).eraseDups
      updatedAt := timestamp }
    processTopicResults topicMap passId timestamp index rest regOut.1
      (updateOrAppend topicStatus topicId entry)
      (passSources ++ regOut.2)
      (records ++ [{
        topicId := topicId
        status := status
        confidence := confidence
        summary := summary
        unresolvedQuestionCount := unresolved.length
        sourceIds := regOut.2 : TopicResultRecord }])

/-- The stale-state normalization step of `handle_complete`: every topic
outside the completed pass whose (coerced) status is `in_progress` is reset
to `pending`. -/
def staleInProgressReset (passTopicIds : List String) (timestamp : String)
    (topicStatus : List (String × TopicEntry)) : List (String × TopicEntry) :=
  topicStatus.map (fun p =>
    (p.1,
      if p.1 ∉ passTopicIds ∧ coerceString p.2.status "pending" = "in_progress" then
        { p.2 with status := "pending", updatedAt := timestamp }
      else p.2))

/-- The persistence stage of `handle_complete`: updated topic statuses and
source registry, stale-state reset, history append and queue removal. -/
def completeApply (execution : Execution) (topicMap : List (String × Topic))
    (passId : String) (passTopicIds : List String)
    (index : List (String × TopicResult)) (passSummaryRaw : String)
    (estimatedTokensIn estimatedTokensOut : Nat) (passEntry : PassEntry)
    (timestamp : String) : Execution :=
  let processed := processTopicResults topicMap passId timestamp index passTopicIds
    execution.sourceRegistry execution.topicStatus [] []
  let registry := processed.1
  let topicStatus := processed.2.1
  let passSources := processed.2.2.1
  let passTopicResults := processed.2.2.2
  let topicStatus := staleInProgressReset passTopicIds timestamp topicStatus
  let passSummary := coerceString passSummaryRaw ""
  let historyEntry : HistoryEntry :=
    { passId := passId
      round := passEntry.round
      completedAt := timestamp
      passSummary := passSummary
      topics := passTopicResults
      sourceIds := sortStrings passSources.eraseDups
      estimatedTokensIn := estimatedTokensIn
      estimatedTokensOut := estimatedTokensOut }
  { execution with
    topicStatus := topicStatus
    sourceRegistry := registry
    passHistory := execution.passHistory ++ [historyEntry]
    passQueue := execution.passQueue.filter
      (fun e => ¬(coerceString e.passId "" == passId)) }

/-- The cap-enforcement stage of `handle_complete`: retry and total caps,
queue pruning, and a replan when the round's queue has drained. -/
def completeCaps (ex : Execution) (topicMap : List (String × Topic))
    (timestamp : String) : Execution :=
  let ex := enforceTopicRetryLimits ex topicMap timestamp
  let ex := enforceTotalPassLimit ex topicMap timestamp
  let ex := prunePassQueue ex
  if ex.passQueue.isEmpty ∧ ¬(unresolvedTopics ex).isEmpty then
    rebuildPassQueue ex topicMap timestamp
  else ex

/-- The bookkeeping tail of `handle_complete`: token accounting, summary
recomputation and the completion / handoff decision. -/
def completeFinalize (ex : Execution) (passId : String)
    (estimatedTokensIn estimatedTokensOut : Nat) (timestamp : String) :
    Execution × Bool :=
  let ex := { ex with updatedAt := timestamp }
  let ex := applyPassTokenEstimate ex passId estimatedTokensIn estimatedTokensOut timestamp
  let ex := recomputeExecutionSummary ex
  let researchCompleted := 0 < ex.summary.topicTotal ∧
    ex.summary.topicComplete = ex.summary.topicTotal
  let ex :=
    if researchCompleted then
      { ex with status := "complete", handoffRequired := false, handoffReason := "" }
    else
      let ex := { ex with status := "in_progress" }
      let decision := handoffDecision ex
      { ex with
        handoffRequired := decision.1
        handoffReason := decision.2
        handoffMessage := coerceString ex.handoffMessage DEFAULT_RESEARCH_HANDOFF_MESSAGE }
  let ex := recomputeExecutionSummary ex
  (ex, researchCompleted)

/-- Embedding of `handle_complete`'s execution-level core.

`payloadTokens` stands for `estimate_tokens(payload_raw)` and
`fallbackTokensIn` for the `estimate_tokens({...})` fallback; both depend on
JSON serialization, which is not modelled, and influence only the
chat-context token accounting. Returns the updated execution record and the
`research-completed` flag. -/
def completePass (execution : Execution) (topicMap : List (String × Topic))
    (passIdArg : String) (results : List TopicResult) (passSummaryRaw : String)
    (payloadTokens fallbackTokensIn : Nat) (timestamp : String) :
    Except String (Execution × Bool) :=
  let config := planningConfig execution.planning
  let passId := coerceString passIdArg ""
  match execution.passQueue.find? (fun e =>
      coerceString e.passId "" == passId && coerceString e.status "pending" == "in_progress") with
  | none => .error ("IN_PROGRESS_PASS_NOT_FOUND: " ++ passId)
  | some passEntry =>
    let passTopicIds := coerceStringList passEntry.topicIds
    match buildResultIndex passTopicIds results [] with
    | .error e => .error e
    | .ok index =>
      let missingTopicIds := passTopicIds.filter (fun tid => (alGet index tid).isNone)
      if ¬missingTopicIds.isEmpty then
        .error ("PASS_RESULT_MISSING_TOPICS: " ++ String.intercalate ", " missingTopicIds)
      else
        let estimatedTokensIn := coercePositiveInt passEntry.estimatedTokensIn 0
        let estimatedTokensIn :=
          if estimatedTokensIn < 1 then
            fallbackTokensIn + config.estimatedTokensInOverheadPerPass
          else estimatedTokensIn
        let estimatedTokensOut := payloadTokens + config.estimatedTokensOutOverheadPerPass
        .ok (completeFinalize
          (completeCaps
            (completeApply execution topicMap passId passTopicIds index passSummaryRaw
              estimatedTokensIn estimatedTokensOut passEntry timestamp)
            topicMap timestamp)
          passId estimatedTokensIn estimatedTokensOut timestamp)

/-! ### Embedding of `ideation_research.py`: execution-record normalization -/

/-- `ideation_research.RESEARCH_TOPIC_STATUSES` — note that
`complete_with_caveats` is absent from this set. -/
def RESEARCH_TOPIC_STATUSES : List String :=
  ["pending", "in_progress", "needs_followup", "complete"]

/-- Embedding of `ideation_research._coerce_research_topic_status`. -/
def coerceResearchTopicStatus (value : String) : String :=
  let status := pyLower (coerceString value "pending")
  if status ∈ RESEARCH_TOPIC_STATUSES then status else "pending"

/-- The `topic_status` normalization loop of
`ideation_research._normalize_research_execution`: one entry per agenda
topic, re-coercing any persisted entry. -/
def normalizeResearchTopicStatus (topicIndex : List (String × Topic))
    (rawTopicStatus : List (String × TopicEntry)) : List (String × TopicEntry) :=
  topicIndex.map (fun p =>
    let existing := (alGet rawTopicStatus p.1).getD ⟨p.1, "", "", 0, "", "", [], [], ""⟩
    (p.1,
      { topicId := p.1
        title := p.2.title
        status := coerceResearchTopicStatus existing.status
        passesAttempted := ((coercePositiveInt existing.passesAttempted 0 : Nat) : Int)
        lastPassId := coerceString existing.lastPassId ""
        latestSummary := coerceString existing.latestSummary ""
        unresolvedQuestions := coerceStringList existing.unresolvedQuestions
        sourceIds := coerceStringList existing.sourceIds
        updatedAt := coerceString existing.updatedAt "" }))

/-- C2 (code bug evaluation): the claim — backed by the spec's status
enumeration and by `test_ideation_research.py`'s
`test_execution_normalization_supports_caveated_completion_and_planning_caps`
— says a persisted `complete_with_caveats` topic status survives re-loading
and never reverts to an active status. The code's
`_coerce_research_topic_status` whitelist omits `complete_with_caveats`, so
normalization rewrites it to `pending`, an active status: re-loading the
fixture of the repo's own test yields `pending`, not
`complete_with_caveats`. -/
theorem C2_caveated_status_reverts_to_pending_on_normalize :
    coerceResearchTopicStatus "complete_with_caveats" = "pending" ∧
    "pending" ∈ TOPIC_ACTIVE_STATUSES ∧
    (alGet
      (normalizeResearchTopicStatus
        [("topic-a1",
          { topicId := "topic-a1", title := "Topic A1", category := "general",
            priority := "high", whyItMatters := "", researchQuestions := ["q"],
            keywords := [], tags := [], relatedEntities := [],
            blockId := "block-a", blockTitle := "Block A" })]
        [("topic-a1",
          { topicId := "topic-a1", title := "Topic A1",
            status := "complete_with_caveats", passesAttempted := 3,
            lastPassId := "", latestSummary := "Accepted with caveats.",
            unresolvedQuestions := [], sourceIds := [], updatedAt := "" })])
      "topic-a1").map TopicEntry.status = some "pending" := by
  refine ⟨by decide, by decide, ?_⟩
  rfl

/-! ### Association-list lemmas -/

theorem alGet_cons (k : String) (v : α) (m : List (String × α)) (t : String) :
    alGet ((k, v) :: m) t = if k == t then some v else alGet m t := by
  unfold alGet
  cases h : (k == t) <;> simp [List.find?, h]

theorem alGet_append_some {m₁ : List (String × α)} {t : String} {v : α}
    (h : alGet m₁ t = some v) (m₂ : List (String × α)) :
    alGet (m₁ ++ m₂) t = some v := by
  induction m₁ with
  | nil => simp [alGet] at h
  | cons p ps ih =>
    rw [List.cons_append, show p = (p.1, p.2) from rfl, alGet_cons]
    rw [show p = (p.1, p.2) from rfl, alGet_cons] at h
    by_cases hk : (p.1 == t) = true
    · simpa [hk] using h
    · simp only [hk, Bool.false_eq_true, if_false] at h ⊢
      exact ih h

theorem alGet_append_none {m₁ : List (String × α)} {t : String}
    (h : alGet m₁ t = none) (m₂ : List (String × α)) :
    alGet (m₁ ++ m₂) t = alGet m₂ t := by
  induction m₁ with
  | nil => rfl
  | cons p ps ih =>
    rw [List.cons_append, show p = (p.1, p.2) from rfl, alGet_cons]
    rw [show p = (p.1, p.2) from rfl, alGet_cons] at h
    by_cases hk : (p.1 == t) = true
    · simp [hk] at h
    · simp only [hk, Bool.false_eq_true, if_false] at h ⊢
      exact ih h

theorem alGet_mapVal (g : String × α → β) (m : List (String × α)) (t : String) :
    alGet (m.map (fun p => (p.1, g p))) t = (m.find? (fun p => p.1 == t)).map g := by
  induction m with
  | nil => rfl
  | cons p ps ih =>
    rw [List.map_cons, alGet_cons]
    by_cases hk : (p.1 == t) = true
    · simp [List.find?, hk]
    · simp only [hk, Bool.false_eq_true, if_false]
      rw [ih]
      simp [List.find?, hk]

theorem alGet_eq_find (m : List (String × α)) (t : String) :
    alGet m t = (m.find? (fun p => p.1 == t)).map (·.2) := rfl

theorem find_key_eq {m : List (String × α)} {t : String} {p : String × α}
    (h : m.find? (fun p => p.1 == t) = some p) : p.1 = t := by
  have := List.find?_some h
  simpa using this

theorem alGet_replaceFirst_self {m : List (String × α)} {k : String} {v₀ : α}
    (h : alGet m k = some v₀) (v : α) :
    alGet (replaceFirst (fun p => p.1 == k) (fun _ => (k, v)) m) k = some v := by
  induction m with
  | nil => simp [alGet] at h
  | cons p ps ih =>
    rw [show p = (p.1, p.2) from rfl, alGet_cons] at h
    by_cases hk : (p.1 == k) = true
    · rw [replaceFirst, if_pos (by simpa using hk)]
      rw [alGet_cons, if_pos (by simp)]
    · simp only [hk, Bool.false_eq_true, if_false] at h
      rw [replaceFirst, if_neg (by simpa using hk)]
      rw [show p = (p.1, p.2) from rfl, alGet_cons]
      simp only [hk, Bool.false_eq_true, if_false]
      exact ih h

theorem alGet_replaceFirst_ne {m : List (String × α)} {k t : String} (hne : t ≠ k) (v : α) :
    alGet (replaceFirst (fun p => p.1 == k) (fun _ => (k, v)) m) t = alGet m t := by
  induction m with
  | nil => rfl
  | cons p ps ih =>
    by_cases hk : (p.1 == k) = true
    · rw [replaceFirst, if_pos (by simpa using hk)]
      rw [alGet_cons, show p = (p.1, p.2) from rfl, alGet_cons]
      have hpk : p.1 = k := by simpa using hk
      have h1 : (k == t) = false := by
        simp only [beq_eq_false_iff_ne, ne_eq]
        exact fun hh => hne hh.symm
      have h2 : (p.1 == t) = false := by rw [hpk]; exact h1
      simp [h1, h2]
    · rw [replaceFirst, if_neg (by simpa using hk)]
      rw [alGet_cons, show p = (p.1, p.2) from rfl, alGet_cons]
      by_cases ht : (p.1 == t) = true
      · simp [ht]
      · simp only [ht, Bool.false_eq_true, if_false]
        exact ih

theorem alGet_updateOrAppend_self (m : List (String × α)) (k : String) (v : α) :
    alGet (updateOrAppend m k v) k = some v := by
  unfold updateOrAppend
  by_cases h : (alGet m k).isSome
  · rw [if_pos h]
    obtain ⟨v₀, hv₀⟩ := Option.isSome_iff_exists.mp h
    exact alGet_replaceFirst_self hv₀ v
  · rw [if_neg h]
    have hnone : alGet m k = none := Option.not_isSome_iff_eq_none.mp h
    rw [alGet_append_none hnone, alGet_cons, if_pos (by simp)]

theorem alGet_updateOrAppend_ne (m : List (String × α)) {k t : String} (hne : t ≠ k) (v : α) :
    alGet (updateOrAppend m k v) t = alGet m t := by
  unfold updateOrAppend
  by_cases h : (alGet m k).isSome
  · rw [if_pos h]
    exact alGet_replaceFirst_ne hne v
  · rw [if_neg h]
    by_cases ht : (alGet m t).isSome
    · obtain ⟨v₀, hv₀⟩ := Option.isSome_iff_exists.mp ht
      rw [alGet_append_some hv₀, hv₀]
    · have hnone : alGet m t = none := Option.not_isSome_iff_eq_none.mp ht
      rw [alGet_append_none hnone, hnone, alGet_cons]
      rw [if_neg (by simp only [beq_iff_eq]; exact fun hh => hne hh.symm)]
      rfl

theorem alGet_append_none_left {m₁ m₂ : List (String × α)} {t : String}
    (h : alGet (m₁ ++ m₂) t = none) : alGet m₁ t = none := by
  by_cases hs : (alGet m₁ t).isSome
  · obtain ⟨v, hv⟩ := Option.isSome_iff_exists.mp hs
    rw [alGet_append_some hv] at h
    cases h
  · exact Option.not_isSome_iff_eq_none.mp hs

theorem buildResultIndex_extends (passTopicIds : List String) :
    ∀ (rs : List TopicResult) (acc index : List (String × TopicResult)),
      buildResultIndex passTopicIds rs acc = .ok index →
      ∀ t v, alGet acc t = some v → alGet index t = some v := by
  intro rs
  induction rs with
  | nil =>
    intro acc index hok t v hv
    cases hok
    exact hv
  | cons r rest ih =>
    intro acc index hok t v hv
    rw [buildResultIndex] at hok
    by_cases h1 : coerceString r.topicId "" = ""
    · rw [if_pos h1] at hok
      exact ih acc index hok t v hv
    · rw [if_neg h1] at hok
      by_cases h2 : coerceString r.topicId "" ∉ passTopicIds
      · rw [if_pos h2] at hok
        cases hok
      · rw [if_neg h2] at hok
        by_cases h3 : (alGet acc (coerceString r.topicId "")).isSome
        · rw [if_pos h3] at hok
          cases hok
        · rw [if_neg h3] at hok
          exact ih _ index hok t v (alGet_append_some hv _)

theorem buildResultIndex_not_bound (passTopicIds : List String) :
    ∀ (rs : List TopicResult) (acc index : List (String × TopicResult)),
      buildResultIndex passTopicIds rs acc = .ok index →
      ∀ r ∈ rs, ∀ t, coerceString r.topicId "" = t → t ≠ "" → alGet acc t = none := by
  intro rs
  induction rs with
  | nil =>
    intro acc index _ r hr
    cases hr
  | cons r0 rest ih =>
    intro acc index hok r hr t hct htne
    rw [buildResultIndex] at hok
    by_cases h1 : coerceString r0.topicId "" = ""
    · rw [if_pos h1] at hok
      rcases List.mem_cons.mp hr with heq | htail
      · subst heq
        rw [hct] at h1
        exact absurd h1 htne
      · exact ih acc index hok r htail t hct htne
    · rw [if_neg h1] at hok
      by_cases h2 : coerceString r0.topicId "" ∉ passTopicIds
      · rw [if_pos h2] at hok
        cases hok
      · rw [if_neg h2] at hok
        by_cases h3 : (alGet acc (coerceString r0.topicId "")).isSome
        · rw [if_pos h3] at hok
          cases hok
        · rw [if_neg h3] at hok
          rcases List.mem_cons.mp hr with heq | htail
          · subst heq
            rw [hct] at h3
            exact Option.not_isSome_iff_eq_none.mp h3
          · exact alGet_append_none_left (ih _ index hok r htail t hct htne)

theorem buildResultIndex_mem (passTopicIds : List String) :
    ∀ (rs : List TopicResult) (acc index : List (String × TopicResult)),
      buildResultIndex passTopicIds rs acc = .ok index →
      ∀ r ∈ rs, ∀ t, coerceString r.topicId "" = t → t ≠ "" →
      alGet acc t = none → alGet index t = some r := by
  intro rs
  induction rs with
  | nil =>
    intro acc index _ r hr
    cases hr
  | cons r0 rest ih =>
    intro acc index hok r hr t hct htne haccnone
    rw [buildResultIndex] at hok
    by_cases h1 : coerceString r0.topicId "" = ""
    · rw [if_pos h1] at hok
      rcases List.mem_cons.mp hr with heq | htail
      · subst heq
        rw [hct] at h1
        exact absurd h1 htne
      · exact ih acc index hok r htail t hct htne haccnone
    · rw [if_neg h1] at hok
      by_cases h2 : coerceString r0.topicId "" ∉ passTopicIds
      · rw [if_pos h2] at hok
        cases hok
      · rw [if_neg h2] at hok
        by_cases h3 : (alGet acc (coerceString r0.topicId "")).isSome
        · rw [if_pos h3] at hok
          cases hok
        · rw [if_neg h3] at hok
          rcases List.mem_cons.mp hr with heq | htail
          · subst heq
            have hacc' : alGet (acc ++ [(coerceString r.topicId "", r)]) t = some r := by
              rw [alGet_append_none haccnone, hct, alGet_cons, if_pos (by simp)]
            exact buildResultIndex_extends passTopicIds rest _ index hok t r hacc'
          · by_cases heqt : t = coerceString r0.topicId ""
            · have hbound := buildResultIndex_not_bound passTopicIds rest _ index hok r htail t hct htne
              have hacc' : alGet (acc ++ [(coerceString r0.topicId "", r0)]) t = some r0 := by
                rw [alGet_append_none haccnone, heqt, alGet_cons, if_pos (by simp)]
              rw [hacc'] at hbound
              cases hbound
            · have hacc' : alGet (acc ++ [(coerceString r0.topicId "", r0)]) t = none := by
                rw [alGet_append_none haccnone, alGet_cons,
                  if_neg (by simp only [beq_iff_eq]; exact fun hh => heqt hh.symm)]
                rfl
              exact ih _ index hok r htail t hct htne hacc'

theorem processTopicResults_untouched (topicMap : List (String × Topic))
    (passId timestamp : String) (index : List (String × TopicResult)) :
    ∀ (tids : List String) (registry : List SourceEntry)
      (ts : List (String × TopicEntry)) (srcs : List String)
      (recs : List TopicResultRecord) (t : String), t ∉ tids →
      alGet (processTopicResults topicMap passId timestamp index tids registry ts srcs recs).2.1 t =
        alGet ts t := by
  intro tids
  induction tids with
  | nil =>
    intro registry ts srcs recs t _
    rfl
  | cons t0 rest ih =>
    intro registry ts srcs recs t hmem
    have hne : t ≠ t0 := fun hh => hmem (hh ▸ List.mem_cons_self _ _)
    have htail : t ∉ rest := fun hh => hmem (List.mem_cons_of_mem _ hh)
    rw [processTopicResults]
    rw [ih _ _ _ _ t htail]
    exact alGet_updateOrAppend_ne _ hne _

theorem processTopicResults_status (topicMap : List (String × Topic))
    (passId timestamp : String) (index : List (String × TopicResult)) :
    ∀ (tids : List String) (registry : List SourceEntry)
      (ts : List (String × TopicEntry)) (srcs : List String)
      (recs : List TopicResultRecord) (t : String), t ∈ tids → tids.Nodup →
      ∃ e, alGet (processTopicResults topicMap passId timestamp index
          tids registry ts srcs recs).2.1 t = some e ∧
        e.status = resultStatus index t := by
  intro tids
  induction tids with
  | nil =>
    intro registry ts srcs recs t hmem
    cases hmem
  | cons t0 rest ih =>
    intro registry ts srcs recs t hmem hnodup
    have hnd := List.nodup_cons.mp hnodup
    rcases List.mem_cons.mp hmem with heq | htail
    · subst heq
      rw [processTopicResults]
      rw [processTopicResults_untouched topicMap passId timestamp index rest _ _ _ _ t hnd.1]
      refine ⟨_, alGet_updateOrAppend_self _ _ _, ?_⟩
      rfl
    · rw [processTopicResults]
      exact ih _ _ _ _ t htail hnd.2

theorem alGet_mapVal_some {g : String × α → β} {m : List (String × α)} {t : String} {e : α}
    (h : alGet m t = some e) :
    alGet (m.map (fun p => (p.1, g p))) t = some (g (t, e)) := by
  rw [alGet_mapVal]
  rw [alGet_eq_find] at h
  cases hf : m.find? (fun p => p.1 == t) with
  | none =>
    rw [hf] at h
    cases h
  | some p =>
    rw [hf] at h
    simp only [Option.map_some'] at h ⊢
    have hk := find_key_eq hf
    cases p with
    | mk a v =>
      simp only at hk h
      rw [Option.some_inj] at h
      rw [hk, h]

theorem alGet_mapVal_none {g : String × α → β} {m : List (String × α)} {t : String}
    (h : alGet m t = none) :
    alGet (m.map (fun p => (p.1, g p))) t = none := by
  rw [alGet_mapVal]
  rw [alGet_eq_find] at h
  cases hf : m.find? (fun p => p.1 == t) with
  | none => simp
  | some p =>
    rw [hf] at h
    cases h

theorem markTopicCompleteWithCaveats_status (entry : TopicEntry) (topicId : String)
    (topicMap : List (String × Topic)) (timestamp note : String) :
    (markTopicCompleteWithCaveats entry topicId topicMap timestamp note).status =
      "complete_with_caveats" := rfl

theorem entryActive_caveats {e : TopicEntry} (h : e.status = "complete_with_caveats") :
    entryActive e = false := by
  unfold entryActive
  rw [h]
  decide

/-- Stage fact: `staleInProgressReset` transforms the entry found at `t`. -/
theorem staleInProgressReset_get (passTopicIds : List String) (timestamp : String)
    {ts : List (String × TopicEntry)} {t : String} {e : TopicEntry}
    (h : alGet ts t = some e) :
    alGet (staleInProgressReset passTopicIds timestamp ts) t =
      some (if t ∉ passTopicIds ∧ coerceString e.status "pending" = "in_progress" then
        { e with status := "pending", updatedAt := timestamp } else e) :=
  alGet_mapVal_some h

theorem staleInProgressReset_get_none (passTopicIds : List String) (timestamp : String)
    {ts : List (String × TopicEntry)} {t : String} (h : alGet ts t = none) :
    alGet (staleInProgressReset passTopicIds timestamp ts) t = none :=
  alGet_mapVal_none h

theorem enforceTopicRetryLimits_get {ex : Execution} (topicMap : List (String × Topic))
    (timestamp : String) {t : String} {e : TopicEntry}
    (h : alGet ex.topicStatus t = some e) :
    ∃ e', alGet (enforceTopicRetryLimits ex topicMap timestamp).topicStatus t = some e' ∧
      (e' = e ∨ e'.status = "complete_with_caveats") := by
  refine ⟨_, alGet_mapVal_some h, ?_⟩
  by_cases hc : entryActive e ∧
      (planningConfig ex.planning).maxPassesPerTopic ≤ coercePositiveInt e.passesAttempted 0
  · right
    simp only [hc, if_true]
    rfl
  · left
    simp only [hc, if_false]

theorem enforceTopicRetryLimits_get_none {ex : Execution} (topicMap : List (String × Topic))
    (timestamp : String) {t : String} (h : alGet ex.topicStatus t = none) :
    alGet (enforceTopicRetryLimits ex topicMap timestamp).topicStatus t = none :=
  alGet_mapVal_none h

theorem enforceTopicRetryLimits_get_inactive {ex : Execution} (topicMap : List (String × Topic))
    (timestamp : String) {t : String} {e : TopicEntry}
    (h : alGet ex.topicStatus t = some e) (hact : entryActive e = false) :
    alGet (enforceTopicRetryLimits ex topicMap timestamp).topicStatus t = some e := by
  have h1 := alGet_mapVal_some
    (g := fun p =>
      if entryActive p.2 ∧
          (planningConfig ex.planning).maxPassesPerTopic ≤ coercePositiveInt p.2.passesAttempted 0 then
        markTopicCompleteWithCaveats p.2 p.1 topicMap timestamp
          ("Pass cap reached (" ++ natStr (planningConfig ex.planning).maxPassesPerTopic ++
            "); accepting current findings with caveats.")
      else p.2) h
  dsimp only at h1
  rw [if_neg (by rw [hact]; simp)] at h1
  exact h1

theorem enforceTotalPassLimit_get {ex : Execution} (topicMap : List (String × Topic))
    (timestamp : String) {t : String} {e : TopicEntry}
    (h : alGet ex.topicStatus t = some e) :
    ∃ e', alGet (enforceTotalPassLimit ex topicMap timestamp).topicStatus t = some e' ∧
      (e' = e ∨ e'.status = "complete_with_caveats") := by
  unfold enforceTotalPassLimit
  by_cases hlen : ex.passHistory.length < (planningConfig ex.planning).maxTotalPasses
  · rw [if_pos hlen]
    exact ⟨e, h, Or.inl rfl⟩
  · rw [if_neg hlen]
    refine ⟨_, alGet_mapVal_some h, ?_⟩
    by_cases hc : entryActive e
    · right
      simp only [hc, if_true]
      rfl
    · left
      simp only [hc, Bool.false_eq_true, if_false]

theorem enforceTotalPassLimit_get_none {ex : Execution} (topicMap : List (String × Topic))
    (timestamp : String) {t : String} (h : alGet ex.topicStatus t = none) :
    alGet (enforceTotalPassLimit ex topicMap timestamp).topicStatus t = none := by
  unfold enforceTotalPassLimit
  by_cases hlen : ex.passHistory.length < (planningConfig ex.planning).maxTotalPasses
  · rw [if_pos hlen]
    exact h
  · rw [if_neg hlen]
    exact alGet_mapVal_none h

theorem enforceTotalPassLimit_get_inactive {ex : Execution} (topicMap : List (String × Topic))
    (timestamp : String) {t : String} {e : TopicEntry}
    (h : alGet ex.topicStatus t = some e) (hact : entryActive e = false) :
    alGet (enforceTotalPassLimit ex topicMap timestamp).topicStatus t = some e := by
  unfold enforceTotalPassLimit
  by_cases hlen : ex.passHistory.length < (planningConfig ex.planning).maxTotalPasses
  · rw [if_pos hlen]
    exact h
  · rw [if_neg hlen]
    have h1 := alGet_mapVal_some
      (g := fun p =>
        if entryActive p.2 then
          markTopicCompleteWithCaveats p.2 p.1 topicMap timestamp
            ("Total pass cap reached (" ++ natStr (planningConfig ex.planning).maxTotalPasses ++
              "); accepting current findings with caveats.")
        else p.2) h
    dsimp only at h1
    rw [if_neg (by rw [hact]; simp)] at h1
    exact h1

theorem prunePassQueue_topicStatus (ex : Execution) :
    (prunePassQueue ex).topicStatus = ex.topicStatus := rfl

theorem rebuildPassQueue_topicStatus (ex : Execution) (topicMap : List (String × Topic))
    (timestamp : String) :
    (rebuildPassQueue ex topicMap timestamp).topicStatus = ex.topicStatus := by
  unfold rebuildPassQueue
  dsimp only
  split <;> rfl

theorem completeCaps_topicStatus_get {ex : Execution} (topicMap : List (String × Topic))
    (timestamp : String) {t : String} {e : TopicEntry}
    (h : alGet ex.topicStatus t = some e) :
    ∃ e', alGet (completeCaps ex topicMap timestamp).topicStatus t = some e' ∧
      (e' = e ∨ e'.status = "complete_with_caveats") := by
  obtain ⟨e1, he1, hd1⟩ := enforceTopicRetryLimits_get topicMap
    timestamp h
  obtain ⟨e2, he2, hd2⟩ := enforceTotalPassLimit_get topicMap
    timestamp he1
  refine ⟨e2, ?_, ?_⟩
  · unfold completeCaps
    dsimp only
    split
    · rw [rebuildPassQueue_topicStatus, prunePassQueue_topicStatus]
      exact he2
    · rw [prunePassQueue_topicStatus]
      exact he2
  · rcases hd2 with h2 | h2
    · subst h2
      exact hd1
    · exact Or.inr h2

theorem completeCaps_topicStatus_inactive {ex : Execution} (topicMap : List (String × Topic))
    (timestamp : String) {t : String} {e : TopicEntry}
    (h : alGet ex.topicStatus t = some e) (hact : entryActive e = false) :
    alGet (completeCaps ex topicMap timestamp).topicStatus t = some e := by
  have he1 := enforceTopicRetryLimits_get_inactive topicMap
    timestamp h hact
  have he2 := enforceTotalPassLimit_get_inactive topicMap
    timestamp he1 hact
  unfold completeCaps
  dsimp only
  split
  · rw [rebuildPassQueue_topicStatus, prunePassQueue_topicStatus]
    exact he2
  · rw [prunePassQueue_topicStatus]
    exact he2

theorem completeFinalize_topicStatus (ex : Execution) (passId : String)
    (estimatedTokensIn estimatedTokensOut : Nat) (timestamp : String) :
    (completeFinalize ex passId estimatedTokensIn estimatedTokensOut timestamp).1.topicStatus =
      ex.topicStatus := by
  unfold completeFinalize
  dsimp only
  split <;> rfl

theorem completeApply_topicStatus (execution : Execution) (topicMap : List (String × Topic))
    (passId : String) (passTopicIds : List String) (index : List (String × TopicResult))
    (passSummaryRaw : String) (estimatedTokensIn estimatedTokensOut : Nat)
    (passEntry : PassEntry) (timestamp : String) :
    (completeApply execution topicMap passId passTopicIds index passSummaryRaw
      estimatedTokensIn estimatedTokensOut passEntry timestamp).topicStatus =
      staleInProgressReset passTopicIds timestamp
        (processTopicResults topicMap passId timestamp index passTopicIds
          execution.sourceRegistry execution.topicStatus [] []).2.1 := rfl

theorem coerceStringList_foldl_nodup :
    ∀ (values items : List String), items.Nodup →
      (values.foldl
        (fun items raw =>
          let text := coerceString raw ""
          if text ≠ "" ∧ text ∉ items then items ++ [text] else items)
        items).Nodup := by
  intro values
  induction values with
  | nil =>
    intro items h
    exact h
  | cons v rest ih =>
    intro items h
    rw [List.foldl_cons]
    dsimp only
    by_cases hc : coerceString v "" ≠ "" ∧ coerceString v "" ∉ items
    · rw [if_pos hc]
      refine ih _ ?_
      rw [List.nodup_append]
      exact ⟨h, List.nodup_singleton _,
        fun a ha hmem => hc.2 (List.mem_singleton.mp hmem ▸ ha)⟩
    · rw [if_neg hc]
      exact ih _ h

theorem coerceStringList_nodup (values : List String) : (coerceStringList values).Nodup := by
  unfold coerceStringList
  exact coerceStringList_foldl_nodup values [] List.nodup_nil

theorem buildResultIndex_in_pass (passTopicIds : List String) :
    ∀ (rs : List TopicResult) (acc index : List (String × TopicResult)),
      buildResultIndex passTopicIds rs acc = .ok index →
      ∀ r ∈ rs, ∀ t, coerceString r.topicId "" = t → t ≠ "" → t ∈ passTopicIds := by
  intro rs
  induction rs with
  | nil =>
    intro acc index _ r hr
    cases hr
  | cons r0 rest ih =>
    intro acc index hok r hr t hct htne
    rw [buildResultIndex] at hok
    by_cases h1 : coerceString r0.topicId "" = ""
    · rw [if_pos h1] at hok
      rcases List.mem_cons.mp hr with heq | htail
      · subst heq
        rw [hct] at h1
        exact absurd h1 htne
      · exact ih acc index hok r htail t hct htne
    · rw [if_neg h1] at hok
      by_cases h2 : coerceString r0.topicId "" ∉ passTopicIds
      · rw [if_pos h2] at hok
        cases hok
      · rw [if_neg h2] at hok
        by_cases h3 : (alGet acc (coerceString r0.topicId "")).isSome
        · rw [if_pos h3] at hok
          cases hok
        · rw [if_neg h3] at hok
          rcases List.mem_cons.mp hr with heq | htail
          · subst heq
            rw [hct] at h2
            exact not_not.mp h2
          · exact ih _ index hok r htail t hct htne

theorem resultStatus_complete_caveats {index : List (String × TopicResult)} {t : String}
    {r : TopicResult} (h : alGet index t = some r) (hst : r.status = "complete")
    (hunres : (coerceStringList r.unresolvedQuestions).isEmpty = false) :
    resultStatus index t = "complete_with_caveats" := by
  unfold resultStatus
  rw [h]
  dsimp only [Option.getD_some]
  rw [hst]
  have hraw : pyLower (coerceString "complete" "needs_followup") = "complete" := by decide
  rw [hraw]
  rw [if_pos (show "complete" ∈ PASS_RESULT_TOPIC_STATUSES by decide)]
  rw [if_pos ⟨rfl, by rw [hunres]; exact Bool.false_ne_true⟩]

/-- C6: when `handle_complete` succeeds, every topic of the completed pass
whose result reports status `complete` together with a non-empty (after
string-list coercion) list of unresolved questions is persisted with status
`complete_with_caveats`, not `complete`. -/
theorem C6_complete_with_unresolved_downgrades_to_caveats
    {execution : Execution} {topicMap : List (String × Topic)} {passIdArg : String}
    {results : List TopicResult} {passSummaryRaw : String}
    {payloadTokens fallbackTokensIn : Nat} {timestamp : String}
    {out : Execution × Bool} {r : TopicResult} {t : String}
    (hok : completePass execution topicMap passIdArg results passSummaryRaw
      payloadTokens fallbackTokensIn timestamp = .ok out)
    (hr : r ∈ results) (ht : coerceString r.topicId "" = t) (htne : t ≠ "")
    (hst : r.status = "complete")
    (hunres : (coerceStringList r.unresolvedQuestions).isEmpty = false) :
    ∃ e, alGet out.1.topicStatus t = some e ∧ e.status = "complete_with_caveats" := by
  unfold completePass at hok
  dsimp only at hok
  split at hok
  · cases hok
  · rename_i passEntry hfind
    split at hok
    · cases hok
    · rename_i index hidx
      split at hok
      · cases hok
      · injection hok with hout
        subst hout
        have htpass : t ∈ coerceStringList passEntry.topicIds :=
          buildResultIndex_in_pass _ results [] index hidx r hr t ht htne
        have hidxget : alGet index t = some r :=
          buildResultIndex_mem _ results [] index hidx r hr t ht htne rfl
        have hres : resultStatus index t = "complete_with_caveats" :=
          resultStatus_complete_caveats hidxget hst hunres
        obtain ⟨e0, he0, he0s⟩ := processTopicResults_status topicMap
          (coerceString passIdArg "") timestamp index (coerceStringList passEntry.topicIds)
          execution.sourceRegistry execution.topicStatus [] [] t htpass
          (coerceStringList_nodup passEntry.topicIds)
        have he0s' : e0.status = "complete_with_caveats" := he0s.trans hres
        have hstale := staleInProgressReset_get
          (coerceStringList passEntry.topicIds) timestamp he0
        rw [if_neg (fun hc => hc.1 htpass)] at hstale
        refine ⟨e0, ?_, he0s'⟩
        rw [completeFinalize_topicStatus]
        exact completeCaps_topicStatus_inactive topicMap timestamp
          (by rw [completeApply_topicStatus]; exact hstale)
          (entryActive_caveats he0s')

/-- Concrete planning block for the completion fixtures. -/
def planningC6 : Planning := ⟨6, 3, 3, 6, 2, 180000, 70, 12000, 9000, 7000, 1⟩

/-- Concrete chat context for the completion fixtures. -/
def chatContextC6 : ChatContext :=
  ⟨1, 0, 12000, 0, 0, 12000, 180000, 126000, 70, "t0", "t0", "", 0, 0⟩

/-- Concrete empty summary block for the completion fixtures. -/
def summaryC6 : ExecSummary := ⟨0, 0, 0, 0, 0, 0, 0, ""⟩

/-- An in-progress single-topic pass. -/
def passEntryC6 : PassEntry := ⟨"pass-r1-01", 1, "in_progress", ["topic-one"], 5, "t0", "t0", 0⟩

/-- An execution record holding the in-progress pass. -/
def executionC6 : Execution :=
  ⟨"in_progress", planningC6, [], [passEntryC6], [], [], chatContextC6, summaryC6,
    false, "", "", "t0"⟩

/-- A pass result reporting `topic-one` complete with one unresolved question. -/
def resultC6 : TopicResult :=
  ⟨"topic-one", "complete", "Found the answer.", "high", ["What about edge cases?"], []⟩

/-- C6 witness: completing `pass-r1-01` with `topic-one` reported `complete`
alongside one unresolved question persists `topic-one` with status
`complete_with_caveats`. -/
theorem C6_complete_with_unresolved_downgrades_to_caveats_witness :
    ((completePass executionC6 [] "pass-r1-01" [resultC6] "All done." 500 400 "t1").toOption.map
        (fun out => (alGet out.1.topicStatus "topic-one").map TopicEntry.status)) =
      some (some "complete_with_caveats") := by
  have hsome : (completePass executionC6 [] "pass-r1-01" [resultC6] "All done." 500 400
      "t1").toOption.isSome = true := by decide
  cases hok : completePass executionC6 [] "pass-r1-01" [resultC6] "All done." 500 400 "t1" with
  | error e =>
    rw [hok] at hsome
    simp [Except.toOption] at hsome
  | ok out =>
    obtain ⟨e, he, hes⟩ := C6_complete_with_unresolved_downgrades_to_caveats
      (t := "topic-one") hok (List.mem_cons_self _ _) (by decide) (by decide) rfl (by decide)
    simp only [Except.toOption, Option.map_some']
    rw [he, Option.map_some', hes]

theorem resultStatus_mem (index : List (String × TopicResult)) (t : String) :
    resultStatus index t ∈ PASS_RESULT_TOPIC_STATUSES := by
  unfold resultStatus
  dsimp only
  by_cases h1 : pyLower
      (coerceString ((alGet index t).getD TopicResult.empty).status "needs_followup") ∈
      PASS_RESULT_TOPIC_STATUSES
  · rw [if_pos h1]
    split
    · decide
    · exact h1
  · rw [if_neg h1]
    split
    · decide
    · decide

theorem pass_result_status_not_in_progress {s : String}
    (h : s ∈ PASS_RESULT_TOPIC_STATUSES) : coerceString s "pending" ≠ "in_progress" := by
  rw [show PASS_RESULT_TOPIC_STATUSES =
    ["complete", "complete_with_caveats", "needs_followup"] from rfl] at h
  rcases List.mem_cons.mp h with rfl | h
  · decide
  rcases List.mem_cons.mp h with rfl | h
  · decide
  rcases List.mem_cons.mp h with rfl | h
  · decide
  cases h

theorem completeCaps_topicStatus_none {ex : Execution} (topicMap : List (String × Topic))
    (timestamp : String) {t : String} (h : alGet ex.topicStatus t = none) :
    alGet (completeCaps ex topicMap timestamp).topicStatus t = none := by
  have he1 := enforceTopicRetryLimits_get_none topicMap
    timestamp h
  have he2 := enforceTotalPassLimit_get_none topicMap
    timestamp he1
  unfold completeCaps
  dsimp only
  split
  · rw [rebuildPassQueue_topicStatus, prunePassQueue_topicStatus]
    exact he2
  · rw [prunePassQueue_topicStatus]
    exact he2

theorem completeStages_no_in_progress
    (execution : Execution) (topicMap : List (String × Topic)) (passId : String)
    (index : List (String × TopicResult)) (passSummaryRaw : String) (eIn eOut : Nat)
    (passEntry : PassEntry) (timestamp : String) :
    (∀ t, t ∈ coerceStringList passEntry.topicIds →
        ∃ e, alGet (completeFinalize (completeCaps (completeApply execution topicMap passId
            (coerceStringList passEntry.topicIds) index passSummaryRaw eIn eOut passEntry
            timestamp) topicMap timestamp) passId eIn eOut timestamp).1.topicStatus t =
          some e ∧ e.status ∈ PASS_RESULT_TOPIC_STATUSES) ∧
    (∀ t e, alGet execution.topicStatus t = some e →
        t ∉ coerceStringList passEntry.topicIds →
        coerceString e.status "pending" = "in_progress" →
        ∃ e', alGet (completeFinalize (completeCaps (completeApply execution topicMap passId
            (coerceStringList passEntry.topicIds) index passSummaryRaw eIn eOut passEntry
            timestamp) topicMap timestamp) passId eIn eOut timestamp).1.topicStatus t =
          some e' ∧ (e'.status = "pending" ∨ e'.status = "complete_with_caveats")) ∧
    (∀ t e, alGet (completeFinalize (completeCaps (completeApply execution topicMap passId
          (coerceStringList passEntry.topicIds) index passSummaryRaw eIn eOut passEntry
          timestamp) topicMap timestamp) passId eIn eOut timestamp).1.topicStatus t =
        some e →
        coerceString e.status "pending" ≠ "in_progress") := by
  refine ⟨?_, ?_, ?_⟩
  · intro t ht
    obtain ⟨e0, he0, he0s⟩ := processTopicResults_status topicMap passId timestamp index
      (coerceStringList passEntry.topicIds) execution.sourceRegistry execution.topicStatus
      [] [] t ht (coerceStringList_nodup _)
    have hstale := staleInProgressReset_get
      (coerceStringList passEntry.topicIds) timestamp he0
    rw [if_neg (fun hc => hc.1 ht)] at hstale
    have happ : alGet (completeApply execution topicMap passId
        (coerceStringList passEntry.topicIds) index passSummaryRaw eIn eOut passEntry
        timestamp).topicStatus t = some e0 := by
      rw [completeApply_topicStatus]
      exact hstale
    obtain ⟨e1, he1, hd⟩ := completeCaps_topicStatus_get topicMap
      timestamp happ
    refine ⟨e1, ?_, ?_⟩
    · rw [completeFinalize_topicStatus]
      exact he1
    · rcases hd with rfl | hcv
      · rw [he0s]
        exact resultStatus_mem index t
      · rw [hcv]
        decide
  · intro t e hget hnotin hip
    have hunt : alGet (processTopicResults topicMap passId timestamp index
        (coerceStringList passEntry.topicIds) execution.sourceRegistry execution.topicStatus
        [] []).2.1 t = some e := by
      rw [processTopicResults_untouched topicMap passId timestamp index _ _ _ _ _ t hnotin]
      exact hget
    have hstale := staleInProgressReset_get
      (coerceStringList passEntry.topicIds) timestamp hunt
    rw [if_pos ⟨hnotin, hip⟩] at hstale
    have happ : alGet (completeApply execution topicMap passId
        (coerceStringList passEntry.topicIds) index passSummaryRaw eIn eOut passEntry
        timestamp).topicStatus t =
        some { e with status := "pending", updatedAt := timestamp } := by
      rw [completeApply_topicStatus]
      exact hstale
    obtain ⟨e1, he1, hd⟩ := completeCaps_topicStatus_get topicMap
      timestamp happ
    refine ⟨e1, ?_, ?_⟩
    · rw [completeFinalize_topicStatus]
      exact he1
    · rcases hd with rfl | hcv
      · exact Or.inl rfl
      · exact Or.inr hcv
  · intro t e hget
    rw [completeFinalize_topicStatus] at hget
    by_cases ht : t ∈ coerceStringList passEntry.topicIds
    · obtain ⟨e0, he0, he0s⟩ := processTopicResults_status topicMap passId timestamp index
        (coerceStringList passEntry.topicIds) execution.sourceRegistry execution.topicStatus
        [] [] t ht (coerceStringList_nodup _)
      have hstale := staleInProgressReset_get
        (coerceStringList passEntry.topicIds) timestamp he0
      rw [if_neg (fun hc => hc.1 ht)] at hstale
      have happ : alGet (completeApply execution topicMap passId
          (coerceStringList passEntry.topicIds) index passSummaryRaw eIn eOut passEntry
          timestamp).topicStatus t = some e0 := by
        rw [completeApply_topicStatus]
        exact hstale
      obtain ⟨e1, he1, hd⟩ := completeCaps_topicStatus_get topicMap
        timestamp happ
      rw [hget] at he1
      injection he1 with h1e
      subst h1e
      rcases hd with rfl | hcv
      · rw [he0s]
        exact pass_result_status_not_in_progress (resultStatus_mem index t)
      · rw [hcv]
        decide
    · cases hstat : alGet execution.topicStatus t with
      | none =>
        have hunt : alGet (processTopicResults topicMap passId timestamp index
            (coerceStringList passEntry.topicIds) execution.sourceRegistry
            execution.topicStatus [] []).2.1 t = none := by
          rw [processTopicResults_untouched topicMap passId timestamp index _ _ _ _ _ t ht]
          exact hstat
        have hst0 := staleInProgressReset_get_none
          (coerceStringList passEntry.topicIds) timestamp hunt
        have happ : alGet (completeApply execution topicMap passId
            (coerceStringList passEntry.topicIds) index passSummaryRaw eIn eOut passEntry
            timestamp).topicStatus t = none := by
          rw [completeApply_topicStatus]
          exact hst0
        have hnone := completeCaps_topicStatus_none topicMap
          timestamp happ
        rw [hnone] at hget
        cases hget
      | some e0 =>
        have hunt : alGet (processTopicResults topicMap passId timestamp index
            (coerceStringList passEntry.topicIds) execution.sourceRegistry
            execution.topicStatus [] []).2.1 t = some e0 := by
          rw [processTopicResults_untouched topicMap passId timestamp index _ _ _ _ _ t ht]
          exact hstat
        have hstale := staleInProgressReset_get
          (coerceStringList passEntry.topicIds) timestamp hunt
        by_cases hip : coerceString e0.status "pending" = "in_progress"
        · rw [if_pos ⟨ht, hip⟩] at hstale
          have happ : alGet (completeApply execution topicMap passId
              (coerceStringList passEntry.topicIds) index passSummaryRaw eIn eOut passEntry
              timestamp).topicStatus t =
              some { e0 with status := "pending", updatedAt := timestamp } := by
            rw [completeApply_topicStatus]
            exact hstale
          obtain ⟨e1, he1, hd⟩ := completeCaps_topicStatus_get topicMap
            timestamp happ
          rw [hget] at he1
          injection he1 with h1e
          subst h1e
          rcases hd with rfl | hcv
          · exact (by decide : coerceString "pending" "pending" ≠ "in_progress")
          · rw [hcv]
            decide
        · rw [if_neg (fun hc => hip hc.2)] at hstale
          have happ : alGet (completeApply execution topicMap passId
              (coerceStringList passEntry.topicIds) index passSummaryRaw eIn eOut passEntry
              timestamp).topicStatus t = some e0 := by
            rw [completeApply_topicStatus]
            exact hstale
          obtain ⟨e1, he1, hd⟩ := completeCaps_topicStatus_get topicMap
            timestamp happ
          rw [hget] at he1
          injection he1 with h1e
          subst h1e
          rcases hd with rfl | hcv
          · exact hip
          · rw [hcv]
            decide

/-- A stale in-progress topic outside the pass, already at the per-topic
retry cap of `planningC6` (3 passes attempted). -/
def entryC10 : TopicEntry :=
  ⟨"topic-two", "Topic Two", "in_progress", 3, "pass-r0-01", "Earlier summary.", [], [], "t0"⟩

/-- Execution holding the in-progress pass plus the capped stale topic. -/
def executionC10 : Execution :=
  ⟨"in_progress", planningC6, [("topic-two", entryC10)], [passEntryC6], [], [],
    chatContextC6, summaryC6, false, "", "", "t0"⟩

/-- C10 counterexample: `topic-two` sits outside the completed pass with
status `in_progress`, yet after a successful complete its persisted status is
`complete_with_caveats`, not `pending` — the stale reset to `pending` is
immediately overridden by the per-topic retry cap (its `passes_attempted`
already equals `max_passes_per_topic`), so the claim's "is reset to pending"
does not describe the final record. -/
theorem C10_counterexample_stale_topic_force_caveated :
    coerceString entryC10.status "pending" = "in_progress" ∧
    "topic-two" ∉ coerceStringList passEntryC6.topicIds ∧
    ((completePass executionC10 [] "pass-r1-01" [resultC6] "Pass done." 500 400
        "t1").toOption.map
      (fun out => (alGet out.1.topicStatus "topic-two").map TopicEntry.status)) =
      some (some "complete_with_caveats") :=
  ⟨by decide, by decide, by decide⟩

/-- C10 (amended): after a successful complete of the pass found in the
queue, (a) every topic of the pass is persisted with a status from
`PASS_RESULT_TOPIC_STATUSES` = {complete, complete_with_caveats,
needs_followup}; (b) every topic outside the pass whose coerced status was
`in_progress` ends `pending` — or `complete_with_caveats` when a retry /
total-pass cap fires on the freshly reset entry; and (c) no persisted topic
entry has coerced status `in_progress`. -/
theorem C10_no_in_progress_after_complete
    {execution : Execution} {topicMap : List (String × Topic)} {passIdArg : String}
    {results : List TopicResult} {passSummaryRaw : String}
    {payloadTokens fallbackTokensIn : Nat} {timestamp : String}
    {out : Execution × Bool} (passEntry : PassEntry)
    (hok : completePass execution topicMap passIdArg results passSummaryRaw
      payloadTokens fallbackTokensIn timestamp = .ok out)
    (hfind : execution.passQueue.find? (fun e =>
        coerceString e.passId "" == coerceString passIdArg "" &&
        coerceString e.status "pending" == "in_progress") = some passEntry) :
    (∀ t, t ∈ coerceStringList passEntry.topicIds →
        ∃ e, alGet out.1.topicStatus t = some e ∧
          e.status ∈ PASS_RESULT_TOPIC_STATUSES) ∧
    (∀ t e, alGet execution.topicStatus t = some e →
        t ∉ coerceStringList passEntry.topicIds →
        coerceString e.status "pending" = "in_progress" →
        ∃ e', alGet out.1.topicStatus t = some e' ∧
          (e'.status = "pending" ∨ e'.status = "complete_with_caveats")) ∧
    (∀ t e, alGet out.1.topicStatus t = some e →
        coerceString e.status "pending" ≠ "in_progress") := by
  unfold completePass at hok
  dsimp only at hok
  split at hok
  · cases hok
  · rename_i passEntry' hfind'
    rw [hfind] at hfind'
    obtain rfl := Option.some.inj hfind'
    split at hok
    · cases hok
    · rename_i index hidx
      split at hok
      · cases hok
      · injection hok with hout
        subst hout
        exact completeStages_no_in_progress execution topicMap (coerceString passIdArg "")
          index passSummaryRaw _ _ passEntry timestamp

/-- A stale in-progress topic outside the pass, far from any cap. -/
def entryC10w : TopicEntry :=
  ⟨"topic-two", "Topic Two", "in_progress", 1, "pass-r0-01", "Earlier summary.", [], [], "t0"⟩

/-- Execution holding the in-progress pass plus the uncapped stale topic. -/
def executionC10w : Execution :=
  ⟨"in_progress", planningC6, [("topic-two", entryC10w)], [passEntryC6], [], [],
    chatContextC6, summaryC6, false, "", "", "t0"⟩

/-- C10 witness: after completing `pass-r1-01`, the stale out-of-pass topic
`topic-two` no longer has coerced status `in_progress`. -/
theorem C10_no_in_progress_after_complete_witness :
    ((completePass executionC10w [] "pass-r1-01" [resultC6] "Pass done." 500 400
        "t1").toOption.map
      (fun out => (alGet out.1.topicStatus "topic-two").map
        (fun e => coerceString e.status "pending" == "in_progress"))) =
      some (some false) := by
  have hsome : (completePass executionC10w [] "pass-r1-01" [resultC6] "Pass done." 500 400
      "t1").toOption.isSome = true := by decide
  cases hok : completePass executionC10w [] "pass-r1-01" [resultC6] "Pass done." 500 400
      "t1" with
  | error e =>
    rw [hok] at hsome
    simp [Except.toOption] at hsome
  | ok out =>
    obtain ⟨h1, h2, h3⟩ := C10_no_in_progress_after_complete passEntryC6 hok
      (by decide)
    obtain ⟨e', he', _⟩ := h2 "topic-two" entryC10w (by decide) (by decide) (by decide)
    have hne := h3 "topic-two" e' he'
    simp only [Except.toOption, Option.map_some']
    rw [he', Option.map_some']
    rw [beq_eq_false_iff_ne.mpr hne]

theorem replaceFirst_mem {p : α → Bool} {f : α → α} :
    ∀ {l : List α} {x : α}, x ∈ replaceFirst p f l → x ∈ l ∨ ∃ y ∈ l, x = f y := by
  intro l
  induction l with
  | nil =>
    intro x hx
    cases hx
  | cons a as ih =>
    intro x hx
    rw [replaceFirst] at hx
    by_cases hp : p a = true
    · rw [if_pos hp] at hx
      rcases List.mem_cons.mp hx with rfl | h
      · exact Or.inr ⟨a, List.mem_cons_self _ _, rfl⟩
      · exact Or.inl (List.mem_cons_of_mem _ h)
    · rw [if_neg hp] at hx
      rcases List.mem_cons.mp hx with rfl | h
      · exact Or.inl (List.mem_cons_self _ _)
      · rcases ih h with h1 | ⟨y, hy, hxy⟩
        · exact Or.inl (List.mem_cons_of_mem _ h1)
        · exact Or.inr ⟨y, List.mem_cons_of_mem _ hy, hxy⟩

theorem replaceFirst_length {p : α → Bool} {f : α → α} :
    ∀ (l : List α), (replaceFirst p f l).length = l.length := by
  intro l
  induction l with
  | nil => rfl
  | cons a as ih =>
    rw [replaceFirst]
    by_cases hp : p a = true
    · rw [if_pos hp]
      rfl
    · rw [if_neg hp]
      simp only [List.length_cons, ih]

theorem updateOrAppend_mem {m : List (String × α)} {k : String} {v : α} {q : String × α}
    (h : q ∈ updateOrAppend m k v) : q ∈ m ∨ q.2 = v := by
  unfold updateOrAppend at h
  split at h
  · rcases replaceFirst_mem h with h1 | ⟨y, _, rfl⟩
    · exact Or.inl h1
    · exact Or.inr rfl
  · rcases List.mem_append.mp h with h1 | h2
    · exact Or.inl h1
    · rw [List.mem_singleton] at h2
      subst h2
      exact Or.inr rfl

theorem updateOrAppend_length_ge (m : List (String × α)) (k : String) (v : α) :
    m.length ≤ (updateOrAppend m k v).length := by
  unfold updateOrAppend
  split
  · rw [replaceFirst_length]
  · rw [List.length_append]
    exact Nat.le_add_right _ _

theorem processTopicResults_mem_status (topicMap : List (String × Topic))
    (passId timestamp : String) (index : List (String × TopicResult)) :
    ∀ (tids : List String) (registry : List SourceEntry)
      (ts : List (String × TopicEntry)) (srcs : List String)
      (recs : List TopicResultRecord),
      ∀ q ∈ (processTopicResults topicMap passId timestamp index tids registry ts srcs
          recs).2.1,
        q ∈ ts ∨ q.2.status ∈ PASS_RESULT_TOPIC_STATUSES := by
  intro tids
  induction tids with
  | nil =>
    intro registry ts srcs recs q hq
    exact Or.inl hq
  | cons t0 rest ih =>
    intro registry ts srcs recs q hq
    rw [processTopicResults] at hq
    rcases ih _ _ _ _ q hq with h1 | h2
    · rcases updateOrAppend_mem h1 with h3 | h4
      · exact Or.inl h3
      · right
        rw [h4]
        exact resultStatus_mem index t0
    · exact Or.inr h2

theorem processTopicResults_length_ge (topicMap : List (String × Topic))
    (passId timestamp : String) (index : List (String × TopicResult)) :
    ∀ (tids : List String) (registry : List SourceEntry)
      (ts : List (String × TopicEntry)) (srcs : List String)
      (recs : List TopicResultRecord),
      ts.length ≤ (processTopicResults topicMap passId timestamp index tids registry ts srcs
        recs).2.1.length := by
  intro tids
  induction tids with
  | nil =>
    intro registry ts srcs recs
    exact Nat.le_refl _
  | cons t0 rest ih =>
    intro registry ts srcs recs
    rw [processTopicResults]
    exact Nat.le_trans (updateOrAppend_length_ge ts t0 _) (ih _ _ _ _)

theorem staleInProgressReset_mem {passTopicIds : List String} {timestamp : String}
    {ts : List (String × TopicEntry)} {q : String × TopicEntry}
    (h : q ∈ staleInProgressReset passTopicIds timestamp ts) :
    (∃ p ∈ ts, q.2 = p.2) ∨ q.2.status = "pending" := by
  unfold staleInProgressReset at h
  rcases List.mem_map.mp h with ⟨p, hp, rfl⟩
  dsimp only
  split
  · exact Or.inr rfl
  · exact Or.inl ⟨p, hp, rfl⟩

theorem staleInProgressReset_length (passTopicIds : List String) (timestamp : String)
    (ts : List (String × TopicEntry)) :
    (staleInProgressReset passTopicIds timestamp ts).length = ts.length := by
  unfold staleInProgressReset
  rw [List.length_map]

theorem enforceTopicRetryLimits_mem {ex : Execution} {topicMap : List (String × Topic)}
    {timestamp : String} {q : String × TopicEntry}
    (h : q ∈ (enforceTopicRetryLimits ex topicMap timestamp).topicStatus) :
    (∃ p ∈ ex.topicStatus, q.2 = p.2) ∨ q.2.status = "complete_with_caveats" := by
  unfold enforceTopicRetryLimits at h
  dsimp only at h
  rcases List.mem_map.mp h with ⟨p, hp, rfl⟩
  dsimp only
  split
  · exact Or.inr (markTopicCompleteWithCaveats_status _ _ _ _ _)
  · exact Or.inl ⟨p, hp, rfl⟩

theorem enforceTopicRetryLimits_length (ex : Execution) (topicMap : List (String × Topic))
    (timestamp : String) :
    (enforceTopicRetryLimits ex topicMap timestamp).topicStatus.length =
      ex.topicStatus.length := by
  unfold enforceTopicRetryLimits
  dsimp only
  rw [List.length_map]

theorem enforceTotalPassLimit_mem {ex : Execution} {topicMap : List (String × Topic)}
    {timestamp : String} {q : String × TopicEntry}
    (h : q ∈ (enforceTotalPassLimit ex topicMap timestamp).topicStatus) :
    (∃ p ∈ ex.topicStatus, q.2 = p.2) ∨ q.2.status = "complete_with_caveats" := by
  unfold enforceTotalPassLimit at h
  dsimp only at h
  split at h
  · exact Or.inl ⟨q, h, rfl⟩
  · rcases List.mem_map.mp h with ⟨p, hp, rfl⟩
    dsimp only
    split
    · exact Or.inr (markTopicCompleteWithCaveats_status _ _ _ _ _)
    · exact Or.inl ⟨p, hp, rfl⟩

theorem enforceTotalPassLimit_length (ex : Execution) (topicMap : List (String × Topic))
    (timestamp : String) :
    (enforceTotalPassLimit ex topicMap timestamp).topicStatus.length =
      ex.topicStatus.length := by
  unfold enforceTotalPassLimit
  dsimp only
  split
  · rfl
  · rw [List.length_map]

theorem enforceTotalPassLimit_all_inactive {ex : Execution}
    (topicMap : List (String × Topic)) (timestamp : String)
    (hcap : ¬ ex.passHistory.length < (planningConfig ex.planning).maxTotalPasses) :
    ∀ p ∈ (enforceTotalPassLimit ex topicMap timestamp).topicStatus,
      entryActive p.2 = false := by
  intro p hp
  unfold enforceTotalPassLimit at hp
  dsimp only at hp
  rw [if_neg hcap] at hp
  rcases List.mem_map.mp hp with ⟨q, _, rfl⟩
  dsimp only
  split
  · exact entryActive_caveats (markTopicCompleteWithCaveats_status _ _ _ _ _)
  · rename_i hact
    exact Bool.not_eq_true _ ▸ hact

theorem filter_mem_nil (l : List String) :
    (l.filter fun x => decide (x ∈ ([] : List String))) = [] := by
  rw [List.filter_eq_nil]
  intro a _
  simp

theorem foldl_const_acc : ∀ (l : List PassEntry) (acc : List PassEntry),
    l.foldl (fun acc _ => acc) acc = acc := by
  intro l
  induction l with
  | nil =>
    intro acc
    rfl
  | cons a as ih =>
    intro acc
    rw [List.foldl_cons]
    exact ih acc

theorem prunePassQueue_queue_of_inactive {ex : Execution}
    (h : ∀ p ∈ ex.topicStatus, entryActive p.2 = false) :
    (prunePassQueue ex).passQueue = [] := by
  have hfil : ex.topicStatus.filter (fun p => entryActive p.2) = [] := by
    rw [List.filter_eq_nil]
    intro a ha
    rw [h a ha]
    exact Bool.false_ne_true
  unfold prunePassQueue
  dsimp only
  rw [hfil, List.map_nil]
  simp only [filter_mem_nil, List.isEmpty_nil, if_true]
  exact foldl_const_acc ex.passQueue []

theorem unresolvedTopics_nil_of_inactive {ex : Execution}
    (h : ∀ p ∈ ex.topicStatus, entryActive p.2 = false) :
    unresolvedTopics ex = [] := by
  unfold unresolvedTopics
  have hfil : ex.topicStatus.filter
      (fun p => decide (coerceString p.2.status "pending" ∈ TOPIC_ACTIVE_STATUSES)) = [] := by
    rw [List.filter_eq_nil]
    intro a ha
    have ha2 := h a ha
    unfold entryActive at ha2
    rw [ha2]
    exact Bool.false_ne_true
  rw [hfil]
  rfl

theorem completeCaps_topicStatus_list (ex : Execution) (topicMap : List (String × Topic))
    (timestamp : String) :
    (completeCaps ex topicMap timestamp).topicStatus =
      (enforceTotalPassLimit (enforceTopicRetryLimits ex topicMap timestamp) topicMap
        timestamp).topicStatus := by
  unfold completeCaps
  dsimp only
  split
  · rw [rebuildPassQueue_topicStatus, prunePassQueue_topicStatus]
  · rw [prunePassQueue_topicStatus]

theorem completeCaps_cap {ex : Execution} {topicMap : List (String × Topic)}
    {timestamp : String}
    (hcap : ¬ ex.passHistory.length < (planningConfig ex.planning).maxTotalPasses) :
    (∀ p ∈ (completeCaps ex topicMap timestamp).topicStatus, entryActive p.2 = false) ∧
    (completeCaps ex topicMap timestamp).passQueue = [] := by
  have hcap1 : ¬ (enforceTopicRetryLimits ex topicMap timestamp).passHistory.length <
      (planningConfig (enforceTopicRetryLimits ex topicMap
        timestamp).planning).maxTotalPasses := hcap
  have hall := enforceTotalPassLimit_all_inactive topicMap
    timestamp hcap1
  have hallP : ∀ p ∈ (prunePassQueue (enforceTotalPassLimit
      (enforceTopicRetryLimits ex topicMap timestamp) topicMap timestamp)).topicStatus,
      entryActive p.2 = false := by
    rw [prunePassQueue_topicStatus]
    exact hall
  have hprune := prunePassQueue_queue_of_inactive hall
  have hunres := unresolvedTopics_nil_of_inactive hallP
  constructor
  · rw [completeCaps_topicStatus_list]
    exact hall
  · unfold completeCaps
    dsimp only
    rw [if_neg (fun hc => hc.2 (by rw [hunres]; rfl))]
    exact hprune

theorem recomputeExecutionSummary_status_complete {ex : Execution}
    (hne : ex.topicStatus ≠ [])
    (h : ∀ p ∈ ex.topicStatus,
      coerceString p.2.status "pending" ∈ TOPIC_COMPLETE_STATUSES) :
    (recomputeExecutionSummary ex).status = "complete" := by
  unfold recomputeExecutionSummary
  dsimp only
  have hfil : ex.topicStatus.filter
      (fun p => decide (coerceString p.2.status "pending" ∈ TOPIC_COMPLETE_STATUSES)) =
      ex.topicStatus :=
    List.filter_eq_self.mpr (fun a ha => decide_eq_true (h a ha))
  rw [hfil]
  rw [if_neg (fun h0 => hne (List.length_eq_zero.mp h0))]
  rw [if_pos rfl]

theorem completeFinalize_passQueue (ex : Execution) (passId : String)
    (a b : Nat) (timestamp : String) :
    (completeFinalize ex passId a b timestamp).1.passQueue = ex.passQueue := by
  unfold completeFinalize
  dsimp only
  split <;> rfl

theorem completeFinalize_status_complete {ex : Execution} {passId : String}
    {a b : Nat} {timestamp : String}
    (hne : ex.topicStatus ≠ [])
    (h : ∀ p ∈ ex.topicStatus,
      coerceString p.2.status "pending" ∈ TOPIC_COMPLETE_STATUSES) :
    (completeFinalize ex passId a b timestamp).1.status = "complete" := by
  unfold completeFinalize
  dsimp only
  split
  · exact recomputeExecutionSummary_status_complete hne h
  · exact recomputeExecutionSummary_status_complete hne h

theorem enforceTopicRetryLimits_get_below {ex : Execution}
    (topicMap : List (String × Topic)) (timestamp : String) {t : String} {e : TopicEntry}
    (h : alGet ex.topicStatus t = some e)
    (hbelow : coercePositiveInt e.passesAttempted 0 <
      (planningConfig ex.planning).maxPassesPerTopic) :
    alGet (enforceTopicRetryLimits ex topicMap timestamp).topicStatus t = some e := by
  have h1 := alGet_mapVal_some
    (g := fun p =>
      if entryActive p.2 ∧
          (planningConfig ex.planning).maxPassesPerTopic ≤ coercePositiveInt p.2.passesAttempted 0 then
        markTopicCompleteWithCaveats p.2 p.1 topicMap timestamp
          ("Pass cap reached (" ++ natStr (planningConfig ex.planning).maxPassesPerTopic ++
            "); accepting current findings with caveats.")
      else p.2) h
  dsimp only at h1
  rw [if_neg (fun hc => absurd hbelow (not_lt.mpr hc.2))] at h1
  exact h1

theorem enforceTotalPassLimit_get_capped {ex : Execution}
    (topicMap : List (String × Topic)) (timestamp : String) {t : String} {e : TopicEntry}
    (hcap : ¬ ex.passHistory.length < (planningConfig ex.planning).maxTotalPasses)
    (h : alGet ex.topicStatus t = some e) (hact : entryActive e = true) :
    alGet (enforceTotalPassLimit ex topicMap timestamp).topicStatus t =
      some (markTopicCompleteWithCaveats e t topicMap timestamp
        ("Total pass cap reached (" ++ natStr (planningConfig ex.planning).maxTotalPasses ++
          "); accepting current findings with caveats.")) := by
  unfold enforceTotalPassLimit
  dsimp only
  rw [if_neg hcap]
  have h1 := alGet_mapVal_some
    (g := fun p =>
      if entryActive p.2 then
        markTopicCompleteWithCaveats p.2 p.1 topicMap timestamp
          ("Total pass cap reached (" ++ natStr (planningConfig ex.planning).maxTotalPasses ++
            "); accepting current findings with caveats.")
      else p.2) h
  dsimp only at h1
  rw [if_pos hact] at h1
  exact h1

theorem completeApply_passHistory_length (execution : Execution)
    (topicMap : List (String × Topic)) (passId : String) (passTopicIds : List String)
    (index : List (String × TopicResult)) (passSummaryRaw : String)
    (estimatedTokensIn estimatedTokensOut : Nat) (passEntry : PassEntry)
    (timestamp : String) :
    (completeApply execution topicMap passId passTopicIds index passSummaryRaw
      estimatedTokensIn estimatedTokensOut passEntry timestamp).passHistory.length =
      execution.passHistory.length + 1 := by
  unfold completeApply
  dsimp only
  rw [List.length_append]
  rfl

theorem completeApply_planning (execution : Execution)
    (topicMap : List (String × Topic)) (passId : String) (passTopicIds : List String)
    (index : List (String × TopicResult)) (passSummaryRaw : String)
    (estimatedTokensIn estimatedTokensOut : Nat) (passEntry : PassEntry)
    (timestamp : String) :
    (completeApply execution topicMap passId passTopicIds index passSummaryRaw
      estimatedTokensIn estimatedTokensOut passEntry timestamp).planning =
      execution.planning := rfl

theorem enforceTopicRetryLimits_passHistory (ex : Execution)
    (topicMap : List (String × Topic)) (timestamp : String) :
    (enforceTopicRetryLimits ex topicMap timestamp).passHistory = ex.passHistory := rfl

theorem enforceTopicRetryLimits_planning (ex : Execution)
    (topicMap : List (String × Topic)) (timestamp : String) :
    (enforceTopicRetryLimits ex topicMap timestamp).planning = ex.planning := rfl

theorem pass_result_status_active_or_complete {s : String}
    (h : s ∈ PASS_RESULT_TOPIC_STATUSES) :
    coerceString s "pending" ∈ TOPIC_ACTIVE_STATUSES ∨
    coerceString s "pending" ∈ TOPIC_COMPLETE_STATUSES := by
  rw [show PASS_RESULT_TOPIC_STATUSES =
    ["complete", "complete_with_caveats", "needs_followup"] from rfl] at h
  rcases List.mem_cons.mp h with rfl | h
  · exact Or.inr (by decide)
  rcases List.mem_cons.mp h with rfl | h
  · exact Or.inr (by decide)
  rcases List.mem_cons.mp h with rfl | h
  · exact Or.inl (by decide)
  cases h

set_option maxHeartbeats 1600000 in
/-- C7: when a successful complete brings (or finds) the pass history at the
total-pass cap, (1) no persisted topic entry is still active, (2) the pass
queue is cleared, (3) for a non-empty topic-status map whose statuses are
well-formed the execution status is forced to `complete`, and (4) every
out-of-pass topic that was active (not `in_progress`, below the per-topic
retry cap) is force-converted to `complete_with_caveats` with the synthetic
total-pass-cap unresolved-question note appended. -/
theorem C7_total_pass_cap_forces_completion
    {execution : Execution} {topicMap : List (String × Topic)} {passIdArg : String}
    {results : List TopicResult} {passSummaryRaw : String}
    {payloadTokens fallbackTokensIn : Nat} {timestamp : String}
    {out : Execution × Bool} (passEntry : PassEntry)
    (hok : completePass execution topicMap passIdArg results passSummaryRaw
      payloadTokens fallbackTokensIn timestamp = .ok out)
    (hfind : execution.passQueue.find? (fun e =>
        coerceString e.passId "" == coerceString passIdArg "" &&
        coerceString e.status "pending" == "in_progress") = some passEntry)
    (hcap : (planningConfig execution.planning).maxTotalPasses ≤
      execution.passHistory.length + 1)
    (hvalid : ∀ p ∈ execution.topicStatus,
      coerceString p.2.status "pending" ∈ TOPIC_ACTIVE_STATUSES ∨
      coerceString p.2.status "pending" ∈ TOPIC_COMPLETE_STATUSES)
    (hne : execution.topicStatus ≠ []) :
    (∀ p ∈ out.1.topicStatus, entryActive p.2 = false) ∧
    out.1.passQueue = [] ∧
    out.1.status = "complete" ∧
    (∀ t e, alGet execution.topicStatus t = some e →
      t ∉ coerceStringList passEntry.topicIds →
      entryActive e = true →
      coerceString e.status "pending" ≠ "in_progress" →
      coercePositiveInt e.passesAttempted 0 <
        (planningConfig execution.planning).maxPassesPerTopic →
      ∃ e', alGet out.1.topicStatus t = some e' ∧
        e'.status = "complete_with_caveats" ∧
        e'.unresolvedQuestions = appendUniqueNote e.unresolvedQuestions
          ("Total pass cap reached (" ++
            natStr (planningConfig execution.planning).maxTotalPasses ++
            "); accepting current findings with caveats.")) := by
  unfold completePass at hok
  dsimp only at hok
  split at hok
  · cases hok
  · rename_i passEntry' hfind'
    rw [hfind] at hfind'
    obtain rfl := Option.some.inj hfind'
    split at hok
    · cases hok
    · rename_i index hidx
      split at hok
      · cases hok
      · injection hok with hout
        subst hout
        refine ⟨?_, ?_, ?_, ?_⟩
        · intro p hp
          rw [completeFinalize_topicStatus] at hp
          exact (completeCaps_cap (by
            rw [completeApply_passHistory_length, completeApply_planning]
            exact not_lt.mpr hcap)).1 p hp
        · rw [completeFinalize_passQueue]
          exact (completeCaps_cap (by
            rw [completeApply_passHistory_length, completeApply_planning]
            exact not_lt.mpr hcap)).2
        · have hvalidS : ∀ q ∈ staleInProgressReset (coerceStringList passEntry.topicIds)
              timestamp (processTopicResults topicMap (coerceString passIdArg "") timestamp
                index (coerceStringList passEntry.topicIds) execution.sourceRegistry
                execution.topicStatus [] []).2.1,
              coerceString q.2.status "pending" ∈ TOPIC_ACTIVE_STATUSES ∨
              coerceString q.2.status "pending" ∈ TOPIC_COMPLETE_STATUSES := by
            intro q hq
            rcases staleInProgressReset_mem hq with ⟨p, hp, hq2⟩ | hpend
            · rcases processTopicResults_mem_status topicMap (coerceString passIdArg "")
                timestamp index _ _ _ _ _ p hp with hmem | hst
              · rw [hq2]
                exact hvalid p hmem
              · rw [hq2]
                exact pass_result_status_active_or_complete hst
            · rw [hpend]
              exact Or.inl (by decide)
          have hvalidCC : ∀ q ∈ (completeCaps (completeApply execution topicMap
              (coerceString passIdArg "") (coerceStringList passEntry.topicIds) index
              passSummaryRaw (if coercePositiveInt passEntry.estimatedTokensIn 0 < 1 then
                fallbackTokensIn +
                  (planningConfig execution.planning).estimatedTokensInOverheadPerPass
                else coercePositiveInt passEntry.estimatedTokensIn 0)
              (payloadTokens +
                (planningConfig execution.planning).estimatedTokensOutOverheadPerPass)
              passEntry timestamp) topicMap timestamp).topicStatus,
              coerceString q.2.status "pending" ∈ TOPIC_ACTIVE_STATUSES ∨
              coerceString q.2.status "pending" ∈ TOPIC_COMPLETE_STATUSES := by
            intro q hq
            rw [completeCaps_topicStatus_list] at hq
            rcases enforceTotalPassLimit_mem hq with ⟨p2, hp2, hq2⟩ | hcv
            · rcases enforceTopicRetryLimits_mem hp2 with ⟨p3, hp3, hp2e⟩ | hcv2
              · rw [completeApply_topicStatus] at hp3
                rw [hq2, hp2e]
                exact hvalidS p3 hp3
              · rw [hq2, hcv2]
                exact Or.inr (by decide)
            · rw [hcv]
              exact Or.inr (by decide)
          have hcomp : ∀ q ∈ (completeCaps (completeApply execution topicMap
              (coerceString passIdArg "") (coerceStringList passEntry.topicIds) index
              passSummaryRaw (if coercePositiveInt passEntry.estimatedTokensIn 0 < 1 then
                fallbackTokensIn +
                  (planningConfig execution.planning).estimatedTokensInOverheadPerPass
                else coercePositiveInt passEntry.estimatedTokensIn 0)
              (payloadTokens +
                (planningConfig execution.planning).estimatedTokensOutOverheadPerPass)
              passEntry timestamp) topicMap timestamp).topicStatus,
              coerceString q.2.status "pending" ∈ TOPIC_COMPLETE_STATUSES := by
            intro q hq
            rcases hvalidCC q hq with hact | hcpl
            · have h1 : entryActive q.2 = true := decide_eq_true hact
              rw [(completeCaps_cap (by
                rw [completeApply_passHistory_length, completeApply_planning]
                exact not_lt.mpr hcap)).1 q hq] at h1
              exact absurd h1 Bool.false_ne_true
            · exact hcpl
          have hlen : execution.topicStatus.length ≤ (completeCaps (completeApply execution
              topicMap (coerceString passIdArg "") (coerceStringList passEntry.topicIds)
              index passSummaryRaw (if coercePositiveInt passEntry.estimatedTokensIn 0 < 1
                then fallbackTokensIn +
                  (planningConfig execution.planning).estimatedTokensInOverheadPerPass
                else coercePositiveInt passEntry.estimatedTokensIn 0)
              (payloadTokens +
                (planningConfig execution.planning).estimatedTokensOutOverheadPerPass)
              passEntry timestamp) topicMap timestamp).topicStatus.length := by
            rw [completeCaps_topicStatus_list, enforceTotalPassLimit_length,
              enforceTopicRetryLimits_length, completeApply_topicStatus,
              staleInProgressReset_length]
            exact processTopicResults_length_ge topicMap (coerceString passIdArg "")
              timestamp index _ _ _ _ _
          refine completeFinalize_status_complete ?_ hcomp
          intro h0
          rw [h0] at hlen
          exact hne (List.length_eq_zero.mp (Nat.le_zero.mp hlen))
        · intro t e hget hnotin hact hnip hbelow
          have hunt : alGet (processTopicResults topicMap (coerceString passIdArg "")
              timestamp index (coerceStringList passEntry.topicIds)
              execution.sourceRegistry execution.topicStatus [] []).2.1 t = some e := by
            rw [processTopicResults_untouched topicMap (coerceString passIdArg "")
              timestamp index _ _ _ _ _ t hnotin]
            exact hget
          have hstale := staleInProgressReset_get
            (coerceStringList passEntry.topicIds)
            timestamp hunt
          rw [if_neg (fun hc => hnip hc.2)] at hstale
          have happ : alGet (completeApply execution topicMap (coerceString passIdArg "")
              (coerceStringList passEntry.topicIds) index passSummaryRaw
              (if coercePositiveInt passEntry.estimatedTokensIn 0 < 1 then
                fallbackTokensIn +
                  (planningConfig execution.planning).estimatedTokensInOverheadPerPass
                else coercePositiveInt passEntry.estimatedTokensIn 0)
              (payloadTokens +
                (planningConfig execution.planning).estimatedTokensOutOverheadPerPass)
              passEntry timestamp).topicStatus t = some e := by
            rw [completeApply_topicStatus]
            exact hstale
          have hretry := enforceTopicRetryLimits_get_below topicMap
            timestamp happ hbelow
          have htotal := enforceTotalPassLimit_get_capped topicMap
            timestamp
            (by
              rw [enforceTopicRetryLimits_passHistory, enforceTopicRetryLimits_planning,
                completeApply_passHistory_length, completeApply_planning]
              exact not_lt.mpr hcap)
            hretry hact
          refine ⟨markTopicCompleteWithCaveats e t topicMap timestamp
            ("Total pass cap reached (" ++
              natStr (planningConfig execution.planning).maxTotalPasses ++
              "); accepting current findings with caveats."), ?_, rfl, rfl⟩
          rw [completeFinalize_topicStatus, completeCaps_topicStatus_list]
          exact htotal

/-- Planning block with `max_total_passes = 1`. -/
def planningC7 : Planning := ⟨6, 3, 3, 1, 2, 180000, 70, 12000, 9000, 7000, 1⟩

/-- An active pending topic outside the pass, below the retry cap. -/
def entryC7two : TopicEntry :=
  ⟨"topic-two", "Topic Two", "pending", 1, "", "Summary two.", [], [], "t0"⟩

/-- Execution at the total-pass cap once one pass completes. -/
def executionC7 : Execution :=
  ⟨"in_progress", planningC7, [("topic-two", entryC7two)], [passEntryC6], [], [],
    chatContextC6, summaryC6, false, "", "", "t0"⟩

/-- C7 witness: with `max_total_passes = 1` and one unresolved pending topic,
completing `pass-r1-01` leaves no active topic, clears the queue, forces
execution status `complete`, and converts `topic-two` to
`complete_with_caveats` with the synthetic note. -/
theorem C7_total_pass_cap_forces_completion_witness :
    ((completePass executionC7 [] "pass-r1-01" [resultC6] "Pass done." 500 400
        "t1").toOption.map
      (fun out =>
        (out.1.topicStatus.all (fun p => !entryActive p.2),
         decide (out.1.passQueue = []),
         out.1.status,
         (alGet out.1.topicStatus "topic-two").map (fun e =>
           (e.status, e.unresolvedQuestions))))) =
      some (true, true, "complete",
        some ("complete_with_caveats",
          ["Total pass cap reached (1); accepting current findings with caveats."])) := by
  have hsome : (completePass executionC7 [] "pass-r1-01" [resultC6] "Pass done." 500 400
      "t1").toOption.isSome = true := by decide
  cases hok : completePass executionC7 [] "pass-r1-01" [resultC6] "Pass done." 500 400
      "t1" with
  | error e =>
    rw [hok] at hsome
    simp [Except.toOption] at hsome
  | ok out =>
    obtain ⟨h1, h2, h3, h4⟩ := C7_total_pass_cap_forces_completion
      passEntryC6 hok (by decide) (by decide) (by decide) (by decide)
    have hall : out.1.topicStatus.all (fun p => !entryActive p.2) = true := by
      rw [List.all_eq_true]
      intro p hp
      rw [h1 p hp]
      rfl
    obtain ⟨e', he', hst, hunq⟩ := h4 "topic-two" entryC7two (by decide) (by decide)
      (by decide) (by decide) (by decide)
    simp only [Except.toOption, Option.map_some']
    rw [hall, decide_eq_true h2, h3, he', Option.map_some', hst, hunq]
    decide

theorem coercePositiveInt_ge_min (v : Int) (m : Nat) : m ≤ coercePositiveInt v m := by
  unfold coercePositiveInt
  split
  · exact Nat.le_refl m
  · rename_i hge
    omega

theorem buildQueue_invariant (topicMap : List (String × Topic))
    (target maxTopics round : Nat) (timestamp : String) (hmax : 1 ≤ maxTopics) :
    ∀ (topics currentTopics : List String) (currentEffort passIndex : Nat)
      (queue : List PassEntry),
      currentEffort = (currentTopics.map (fun tid =>
        topicEffort ((alGet topicMap tid).getD Topic.empty))).sum →
      (currentTopics = [] ∨ currentEffort ≤ target ∨ currentTopics.length = 1) →
      currentTopics.length ≤ maxTopics →
      (∀ p ∈ queue,
        ((p.topicIds.map (fun tid =>
            topicEffort ((alGet topicMap tid).getD Topic.empty))).sum ≤ target ∨
          p.topicIds.length = 1) ∧ p.topicIds.length ≤ maxTopics) →
      ∀ p ∈ buildQueue topicMap target maxTopics round timestamp topics currentTopics
          currentEffort passIndex queue,
        ((p.topicIds.map (fun tid =>
            topicEffort ((alGet topicMap tid).getD Topic.empty))).sum ≤ target ∨
          p.topicIds.length = 1) ∧ p.topicIds.length ≤ maxTopics := by
  intro topics
  induction topics with
  | nil =>
    intro currentTopics currentEffort passIndex queue hsum hcur hlen hq p hp
    rw [buildQueue] at hp
    split at hp
    · exact hq p hp
    · rename_i hne
      rcases List.mem_append.mp hp with h1 | h2
      · exact hq p h1
      · rw [List.mem_singleton] at h2
        subst h2
        refine ⟨?_, hlen⟩
        rcases hcur with hemp | hok
        · exact absurd (by rw [hemp]; rfl) hne
        · rw [show (mkPlannedPass round passIndex currentTopics currentEffort
            timestamp).topicIds = currentTopics from rfl, ← hsum]
          exact hok
  | cons t rest ih =>
    intro currentTopics currentEffort passIndex queue hsum hcur hlen hq p hp
    rw [buildQueue] at hp
    split at hp
    · rename_i hclose
      refine ih [t] _ _ _ ?_ ?_ ?_ ?_ p hp
      · simp
      · exact Or.inr (Or.inr rfl)
      · exact hmax
      · intro q hqmem
        rcases List.mem_append.mp hqmem with h1 | h2
        · exact hq q h1
        · rw [List.mem_singleton] at h2
          subst h2
          refine ⟨?_, hlen⟩
          rcases hcur with hemp | hok
          · exact absurd (by rw [hemp]; rfl) hclose.1
          · rw [show (mkPlannedPass round passIndex currentTopics currentEffort
              timestamp).topicIds = currentTopics from rfl, ← hsum]
            exact hok
    · rename_i hopen
      refine ih (currentTopics ++ [t]) _ _ _ ?_ ?_ ?_ hq p hp
      · rw [List.map_append, List.sum_append, ← hsum]
        simp
      · by_cases hemp : currentTopics = []
        · subst hemp
          exact Or.inr (Or.inr rfl)
        · have hnotemp : ¬currentTopics.isEmpty = true := by
            rw [List.isEmpty_iff]
            exact hemp
          have hnc : ¬(maxTopics ≤ currentTopics.length ∨
              target < currentEffort +
                topicEffort ((alGet topicMap t).getD Topic.empty)) :=
            fun hc => hopen ⟨hnotemp, hc⟩
          exact Or.inr (Or.inl (Nat.le_of_not_lt (fun hlt => hnc (Or.inr hlt))))
      · by_cases hemp : currentTopics = []
        · subst hemp
          exact hmax
        · have hnotemp : ¬currentTopics.isEmpty = true := by
            rw [List.isEmpty_iff]
            exact hemp
          have hnc : ¬maxTopics ≤ currentTopics.length :=
            fun hc => hopen ⟨hnotemp, Or.inl hc⟩
          rw [List.length_append, List.length_singleton]
          exact Nat.lt_of_not_le hnc

/-- C4: every pass produced by the planner has total planned effort (the sum
of `topic_effort` over its topics) at most `target_effort_per_pass` or
exactly one topic, and at most `max_topics_per_pass` topics. -/
theorem C4_pass_capacity_invariant (execution : Execution)
    (topicMap : List (String × Topic)) (timestamp : String) :
    ∀ p ∈ (rebuildPassQueue execution topicMap timestamp).passQueue,
      ((p.topicIds.map (fun tid =>
          topicEffort ((alGet topicMap tid).getD Topic.empty))).sum ≤
            (planningConfig execution.planning).targetEffortPerPass ∨
        p.topicIds.length = 1) ∧
      p.topicIds.length ≤ (planningConfig execution.planning).maxTopicsPerPass := by
  intro p hp
  unfold rebuildPassQueue at hp
  dsimp only at hp
  split at hp
  · exact absurd hp (List.not_mem_nil p)
  · exact buildQueue_invariant topicMap
      (planningConfig execution.planning).targetEffortPerPass
      (planningConfig execution.planning).maxTopicsPerPass
      (latestRound execution + 1) timestamp
      (coercePositiveInt_ge_min execution.planning.maxTopicsPerPass 1)
      (sortTopicsForPlanning (unresolvedTopics execution) topicMap execution)
      [] 0 1 [] rfl (Or.inl rfl) (Nat.zero_le _)
      (fun q hq => absurd hq (List.not_mem_nil q)) p hp

/-- Spec-example topic `topic-one` (priority high, effort 4). -/
def topicC4one : Topic :=
  ⟨"topic-one", "Topic One", "technology", "high", "why", [], [], [], [], "block-1",
    "Block One"⟩

/-- Spec-example topic `topic-two` (priority medium, effort 3). -/
def topicC4two : Topic :=
  ⟨"topic-two", "Topic Two", "market", "medium", "why", [], [], [], [], "block-1",
    "Block One"⟩

def topicMapC4 : List (String × Topic) :=
  [("topic-one", topicC4one), ("topic-two", topicC4two)]

/-- Planning block with `max_topics_per_pass = 1`. -/
def planningC4 : Planning := ⟨6, 1, 3, 6, 2, 180000, 70, 12000, 9000, 7000, 0⟩

def entryC4one : TopicEntry := ⟨"topic-one", "Topic One", "pending", 0, "", "", [], [], "t0"⟩

def entryC4two : TopicEntry := ⟨"topic-two", "Topic Two", "pending", 0, "", "", [], [], "t0"⟩

def executionC4 : Execution :=
  ⟨"pending", planningC4, [("topic-one", entryC4one), ("topic-two", entryC4two)], [], [],
    [], chatContextC6, summaryC6, false, "", "", "t0"⟩

/-- C4 witness: replanning the two-topic spec example with
`max_topics_per_pass = 1` yields a non-empty queue whose passes all satisfy
the capacity invariant. -/
theorem C4_pass_capacity_invariant_witness :
    ((rebuildPassQueue executionC4 topicMapC4 "t1").passQueue.all (fun p =>
      (decide ((p.topicIds.map (fun tid =>
          topicEffort ((alGet topicMapC4 tid).getD Topic.empty))).sum ≤
            (planningConfig executionC4.planning).targetEffortPerPass) ||
        decide (p.topicIds.length = 1)) &&
      decide (p.topicIds.length ≤ (planningConfig executionC4.planning).maxTopicsPerPass)))
      = true ∧
    (rebuildPassQueue executionC4 topicMapC4 "t1").passQueue.isEmpty = false := by
  constructor
  · rw [List.all_eq_true]
    intro p hp
    obtain ⟨h1, h2⟩ := C4_pass_capacity_invariant executionC4 topicMapC4 "t1" p hp
    rw [Bool.and_eq_true, Bool.or_eq_true]
    refine ⟨?_, decide_eq_true h2⟩
    rcases h1 with h1 | h1
    · exact Or.inl (decide_eq_true h1)
    · exact Or.inr (decide_eq_true h1)
  · decide

theorem insertSorted_perm (lt : α → α → Bool) (x : α) :
    ∀ l : List α, (insertSorted lt x l).Perm (x :: l) := by
  intro l
  induction l with
  | nil => exact List.Perm.refl _
  | cons y ys ih =>
    rw [insertSorted]
    split
    · exact List.Perm.refl _
    · exact (List.Perm.cons y ih).trans (List.Perm.swap x y ys)

theorem sortBy'_foldl_perm (lt : α → α → Bool) :
    ∀ (l acc : List α),
      (l.foldl (fun acc x => insertSorted lt x acc) acc).Perm (l ++ acc) := by
  intro l
  induction l with
  | nil =>
    intro acc
    exact List.Perm.refl _
  | cons x xs ih =>
    intro acc
    rw [List.foldl_cons]
    refine (ih _).trans ?_
    refine (List.Perm.append_left xs (insertSorted_perm lt x acc)).trans ?_
    exact List.perm_middle

theorem sortBy'_perm (lt : α → α → Bool) (l : List α) : (sortBy' lt l).Perm l := by
  unfold sortBy'
  refine (sortBy'_foldl_perm lt l []).trans ?_
  rw [List.append_nil]

theorem insertSorted_pairwise (lt : α → α → Bool)
    (hasym : ∀ a b, lt a b = true → lt b a = false)
    (htrans : ∀ a b c, lt a b = true → lt b c = true → lt a c = true) (x : α) :
    ∀ l : List α, List.Pairwise (fun a b => lt b a = false) l →
      List.Pairwise (fun a b => lt b a = false) (insertSorted lt x l) := by
  intro l
  induction l with
  | nil =>
    intro _
    exact List.pairwise_singleton _ _
  | cons y ys ih =>
    intro hp
    rw [List.pairwise_cons] at hp
    rw [insertSorted]
    split
    · rename_i hxy
      rw [List.pairwise_cons]
      refine ⟨?_, List.pairwise_cons.mpr hp⟩
      intro z hz
      rcases List.mem_cons.mp hz with rfl | hzys
      · exact hasym x z hxy
      · cases hzx : lt z x with
        | false => rfl
        | true =>
          have hzy : lt z y = true := htrans z x y hzx hxy
          rw [hp.1 z hzys] at hzy
          cases hzy
    · rename_i hxy
      rw [List.pairwise_cons]
      refine ⟨?_, ih hp.2⟩
      intro z hz
      have hz2 := (insertSorted_perm lt x ys).mem_iff.mp hz
      rcases List.mem_cons.mp hz2 with rfl | hzys
      · exact Bool.not_eq_true _ ▸ hxy
      · exact hp.1 z hzys

theorem sortBy'_foldl_pairwise (lt : α → α → Bool)
    (hasym : ∀ a b, lt a b = true → lt b a = false)
    (htrans : ∀ a b c, lt a b = true → lt b c = true → lt a c = true) :
    ∀ (l acc : List α), List.Pairwise (fun a b => lt b a = false) acc →
      List.Pairwise (fun a b => lt b a = false)
        (l.foldl (fun acc x => insertSorted lt x acc) acc) := by
  intro l
  induction l with
  | nil =>
    intro acc h
    exact h
  | cons x xs ih =>
    intro acc h
    rw [List.foldl_cons]
    exact ih _ (insertSorted_pairwise lt hasym htrans x acc h)

theorem sortBy'_pairwise (lt : α → α → Bool)
    (hasym : ∀ a b, lt a b = true → lt b a = false)
    (htrans : ∀ a b c, lt a b = true → lt b c = true → lt a c = true) (l : List α) :
    List.Pairwise (fun a b => lt b a = false) (sortBy' lt l) :=
  sortBy'_foldl_pairwise lt hasym htrans l [] List.Pairwise.nil

theorem charListLt_asymm : ∀ a b : List Char,
    charListLt a b = true → charListLt b a = false := by
  intro a
  induction a with
  | nil =>
    intro b h
    cases b with
    | nil => cases h
    | cons y ys => rfl
  | cons x xs ih =>
    intro b h
    cases b with
    | nil => cases h
    | cons y ys =>
      rw [charListLt] at h ⊢
      by_cases h1 : x.toNat < y.toNat
      · rw [if_neg (by omega), if_pos h1]
      · rw [if_neg h1] at h
        by_cases h2 : y.toNat < x.toNat
        · rw [if_pos h2] at h
          cases h
        · rw [if_neg h2] at h
          rw [if_neg h2, if_neg h1]
          exact ih ys h

theorem charListLt_trans : ∀ a b c : List Char,
    charListLt a b = true → charListLt b c = true → charListLt a c = true := by
  intro a
  induction a with
  | nil =>
    intro b c hab hbc
    cases b with
    | nil => cases hab
    | cons y ys =>
      cases c with
      | nil => cases hbc
      | cons z zs => rfl
  | cons x xs ih =>
    intro b c hab hbc
    cases b with
    | nil => cases hab
    | cons y ys =>
      cases c with
      | nil => cases hbc
      | cons z zs =>
        rw [charListLt] at hab hbc ⊢
        by_cases h1 : x.toNat < y.toNat
        · by_cases h2 : y.toNat < z.toNat
          · rw [if_pos (by omega)]
          · rw [if_neg h2] at hbc
            by_cases h3 : z.toNat < y.toNat
            · rw [if_pos h3] at hbc
              cases hbc
            · rw [if_pos (by omega)]
        · rw [if_neg h1] at hab
          by_cases h4 : y.toNat < x.toNat
          · rw [if_pos h4] at hab
            cases hab
          · rw [if_neg h4] at hab
            by_cases h2 : y.toNat < z.toNat
            · rw [if_pos (by omega)]
            · rw [if_neg h2] at hbc
              by_cases h3 : z.toNat < y.toNat
              · rw [if_pos h3] at hbc
                cases hbc
              · rw [if_neg h3] at hbc
                rw [if_neg (by omega), if_neg (by omega)]
                exact ih ys zs hab hbc

theorem strLt_asymm (a b : String) (h : strLt a b = true) : strLt b a = false :=
  charListLt_asymm a.data b.data h

theorem strLt_trans (a b c : String) (hab : strLt a b = true) (hbc : strLt b c = true) :
    strLt a c = true :=
  charListLt_trans a.data b.data c.data hab hbc

theorem lexNat_asymm (x y : Nat) (r s : Bool) (hr : r = true → s = false)
    (h : (if x ≠ y then decide (x < y) else r) = true) :
    (if y ≠ x then decide (y < x) else s) = false := by
  by_cases hxy : x ≠ y
  · rw [if_pos hxy] at h
    rw [if_pos (Ne.symm hxy)]
    have hlt := of_decide_eq_true h
    rw [decide_eq_false_iff_not]
    omega
  · rw [if_neg hxy] at h
    rw [if_neg (fun hc => hxy (Ne.symm hc))]
    exact hr h

theorem lexInt_asymm (x y : Int) (r s : Bool) (hr : r = true → s = false)
    (h : (if x ≠ y then decide (x < y) else r) = true) :
    (if y ≠ x then decide (y < x) else s) = false := by
  by_cases hxy : x ≠ y
  · rw [if_pos hxy] at h
    rw [if_pos (Ne.symm hxy)]
    have hlt := of_decide_eq_true h
    rw [decide_eq_false_iff_not]
    omega
  · rw [if_neg hxy] at h
    rw [if_neg (fun hc => hxy (Ne.symm hc))]
    exact hr h

theorem lexNat_trans (x y z : Nat) (r s t : Bool)
    (hrst : r = true → s = true → t = true)
    (h1 : (if x ≠ y then decide (x < y) else r) = true)
    (h2 : (if y ≠ z then decide (y < z) else s) = true) :
    (if x ≠ z then decide (x < z) else t) = true := by
  by_cases hxy : x ≠ y
  · rw [if_pos hxy] at h1
    have a := of_decide_eq_true h1
    by_cases hyz : y ≠ z
    · rw [if_pos hyz] at h2
      have b := of_decide_eq_true h2
      rw [if_pos (by omega : x ≠ z)]
      exact decide_eq_true (by omega)
    · have hz : y = z := not_not.mp hyz
      subst hz
      rw [if_pos hxy]
      exact h1
  · have hz : x = y := not_not.mp hxy
    subst hz
    rw [if_neg (fun hc => hxy hc)] at h1
    by_cases hyz : x ≠ z
    · rw [if_pos hyz] at h2 ⊢
      exact h2
    · rw [if_neg hyz] at h2 ⊢
      exact hrst h1 h2

theorem lexInt_trans (x y z : Int) (r s t : Bool)
    (hrst : r = true → s = true → t = true)
    (h1 : (if x ≠ y then decide (x < y) else r) = true)
    (h2 : (if y ≠ z then decide (y < z) else s) = true) :
    (if x ≠ z then decide (x < z) else t) = true := by
  by_cases hxy : x ≠ y
  · rw [if_pos hxy] at h1
    have a := of_decide_eq_true h1
    by_cases hyz : y ≠ z
    · rw [if_pos hyz] at h2
      have b := of_decide_eq_true h2
      rw [if_pos (by omega : x ≠ z)]
      exact decide_eq_true (by omega)
    · have hz : y = z := not_not.mp hyz
      subst hz
      rw [if_pos hxy]
      exact h1
  · have hz : x = y := not_not.mp hxy
    subst hz
    rw [if_neg (fun hc => hxy hc)] at h1
    by_cases hyz : x ≠ z
    · rw [if_pos hyz] at h2 ⊢
      exact h2
    · rw [if_neg hyz] at h2 ⊢
      exact hrst h1 h2

theorem planKeyLt_asymm (a b : Nat × Nat × Nat × Int × String)
    (h : planKeyLt a b = true) : planKeyLt b a = false := by
  unfold planKeyLt at h ⊢
  exact lexNat_asymm _ _ _ _
    (lexNat_asymm _ _ _ _
      (lexNat_asymm _ _ _ _
        (lexInt_asymm _ _ _ _ (strLt_asymm _ _)))) h

theorem planKeyLt_trans (a b c : Nat × Nat × Nat × Int × String)
    (h1 : planKeyLt a b = true) (h2 : planKeyLt b c = true) : planKeyLt a c = true := by
  unfold planKeyLt at h1 h2 ⊢
  exact lexNat_trans _ _ _ _ _ _
    (lexNat_trans _ _ _ _ _ _
      (lexNat_trans _ _ _ _ _ _
        (lexInt_trans _ _ _ _ _ _ (fun p q => strLt_trans _ _ _ p q)))) h1 h2

theorem buildQueue_join (topicMap : List (String × Topic))
    (target maxTopics round : Nat) (timestamp : String) :
    ∀ (topics currentTopics : List String) (currentEffort passIndex : Nat)
      (queue : List PassEntry),
      ((buildQueue topicMap target maxTopics round timestamp topics currentTopics
        currentEffort passIndex queue).map PassEntry.topicIds).join =
        (queue.map PassEntry.topicIds).join ++ currentTopics ++ topics := by
  intro topics
  induction topics with
  | nil =>
    intro currentTopics currentEffort passIndex queue
    rw [buildQueue]
    split
    · rename_i hemp
      rw [List.isEmpty_iff.mp hemp]
      simp
    · simp [mkPlannedPass]
  | cons t rest ih =>
    intro currentTopics currentEffort passIndex queue
    rw [buildQueue]
    split
    · rw [ih]
      simp [mkPlannedPass]
    · rw [ih]
      simp

/-- Status rank as the CLAIM words it (`needs_followup` before `in_progress`
before `pending`). This definition follows the spec text, not the source, and
exists only to be compared with the code's `planSortKey`. -/
def claimStatusRank (status : String) : Nat :=
  if status = "needs_followup" then 0
  else if status = "in_progress" then 1
  else if status = "pending" then 2
  else 2

/-- The sort key as the CLAIM words it: the code's key with the status-rank
component replaced by `claimStatusRank`. -/
def claimPlanSortKey (statusMap : List (String × TopicEntry))
    (topicMap : List (String × Topic)) (topicId : String) :
    Nat × Nat × Nat × Int × String :=
  let status :=
    match alGet statusMap topicId with
    | some entry => pyLower (coerceString entry.status "pending")
    | none => "pending"
  let passesAttempted :=
    match alGet statusMap topicId with
    | some entry => coercePositiveInt entry.passesAttempted 0
    | none => 0
  let topic := (alGet topicMap topicId).getD Topic.empty
  let priority := pyLower (coerceString topic.priority "medium")
  let priorityRank : Nat :=
    if priority = "high" then 0
    else if priority = "medium" then 1
    else if priority = "low" then 2
    else 1
  (claimStatusRank status, passesAttempted, priorityRank, -(topicEffort topic : Int), topicId)

/-- Candidate ordering as the CLAIM words it. -/
def claimSortTopicsForPlanning (topicIds : List String)
    (topicMap : List (String × Topic)) (execution : Execution) : List String :=
  sortBy'
    (fun a b =>
      planKeyLt (claimPlanSortKey execution.topicStatus topicMap a)
        (claimPlanSortKey execution.topicStatus topicMap b))
    topicIds

def entryC1alpha : TopicEntry := ⟨"alpha", "Alpha", "pending", 0, "", "", [], [], "t0"⟩

def entryC1beta : TopicEntry :=
  ⟨"beta", "Beta", "needs_followup", 0, "", "", [], [], "t0"⟩

def executionC1 : Execution :=
  ⟨"in_progress", planningC6, [("alpha", entryC1alpha), ("beta", entryC1beta)], [], [],
    [], chatContextC6, summaryC6, false, "", "", "t0"⟩

/-- C1 counterexample: with a pending topic `alpha` and a needs-followup
topic `beta` otherwise identical, the code's `status_rank`
(`pending:0 < in_progress:1 < needs_followup:2`) schedules `alpha` first,
while the claim's rank (needs_followup before in_progress before pending)
would schedule `beta` first; the repo test
`test_start_prioritizes_pending_topics_before_repeat_followups` pins the
code's order as intended. -/
theorem C1_counterexample_status_rank_order :
    sortTopicsForPlanning ["alpha", "beta"] [] executionC1 = ["alpha", "beta"] ∧
    claimSortTopicsForPlanning ["alpha", "beta"] [] executionC1 = ["beta", "alpha"] ∧
    ¬ sortTopicsForPlanning ["alpha", "beta"] [] executionC1 =
      claimSortTopicsForPlanning ["alpha", "beta"] [] executionC1 :=
  ⟨by decide, by decide, by decide⟩

/-- C1 (amended): on every replan the candidate list is a permutation of the
unresolved topics, ordered ascending by the code's sort key (status rank with
pending before in_progress before needs_followup, then passes_attempted,
then priority high before medium before low, then effort descending, then
topic id), and when candidates exist the rebuilt queue's passes are filled
greedily in exactly that order (their topic lists concatenate to the sorted
candidate list). -/
theorem C1_planner_order_and_greedy_fill (execution : Execution)
    (topicMap : List (String × Topic)) (timestamp : String) :
    (sortTopicsForPlanning (unresolvedTopics execution) topicMap execution).Perm
      (unresolvedTopics execution) ∧
    List.Pairwise (fun a b =>
      planKeyLt (planSortKey execution.topicStatus topicMap b)
        (planSortKey execution.topicStatus topicMap a) = false)
      (sortTopicsForPlanning (unresolvedTopics execution) topicMap execution) ∧
    (unresolvedTopics execution ≠ [] →
      ((rebuildPassQueue execution topicMap timestamp).passQueue.map
        PassEntry.topicIds).join =
        sortTopicsForPlanning (unresolvedTopics execution) topicMap execution) := by
  refine ⟨?_, ?_, ?_⟩
  · unfold sortTopicsForPlanning
    exact sortBy'_perm _ _
  · unfold sortTopicsForPlanning
    exact sortBy'_pairwise
      (fun a b => planKeyLt (planSortKey execution.topicStatus topicMap a)
        (planSortKey execution.topicStatus topicMap b))
      (fun a b h => planKeyLt_asymm _ _ h)
      (fun a b c h1 h2 => planKeyLt_trans _ _ _ h1 h2)
      (unresolvedTopics execution)
  · intro hne
    unfold rebuildPassQueue
    dsimp only
    rw [if_neg (fun hc => hne (List.isEmpty_iff.mp hc))]
    dsimp only
    rw [buildQueue_join]
    simp

/-- C1 witness: on the spec's two-topic example with `max_topics_per_pass = 1`
the planner emits `pass-r1-01:[topic-one]` then `pass-r1-02:[topic-two]`, and
the emitted passes' topics concatenate to the sorted candidate list. -/
theorem C1_planner_order_and_greedy_fill_witness :
    ((rebuildPassQueue executionC4 topicMapC4 "t1").passQueue.map
      (fun p => (p.passId, p.topicIds))) =
      [("pass-r1-01", ["topic-one"]), ("pass-r1-02", ["topic-two"])] ∧
    ((rebuildPassQueue executionC4 topicMapC4 "t1").passQueue.map
      PassEntry.topicIds).join =
      sortTopicsForPlanning (unresolvedTopics executionC4) topicMapC4 executionC4 := by
  refine ⟨by decide, ?_⟩
  exact (C1_planner_order_and_greedy_fill executionC4 topicMapC4 "t1").2.2 (by decide)

/-! ### Embedding of `ideation_research.py`: alias inference and the entity
validation loop of `normalize_ideation_research` (the segment after entity
parsing/merging: `alias_lookup` construction, the per-topic alias-inference
loop with its cross-block guard, and the per-entity validation loop). The
upstream-normalized data (flat topics, merged entity registry, block ids in
order) are the segment's inputs. Validation errors are modelled structurally
(the message identities the code raises), dropping only the human-readable
reference listings that influence no control flow. -/

/-- A merged `normalized_entities` record. -/
structure REntity where
  entityId : String
  label : String
  kind : String
  aliases : List String
  ownerBlockId : String
deriving Repr, DecidableEq

/-- A `flat_topics` record (the topic fields this segment reads). -/
structure TopicRef where
  blockId : String
  topicId : String
  title : String
  keywords : List String
  tags : List String
  relatedEntities : List String
deriving Repr, DecidableEq

/-- The validation errors this segment can raise. -/
inductive AgendaError where
  | entityBlockConflict (entityId : String)
  | unknownEntityOwnerBlock (entityId : String) (blockId : String)
  | entityOwnerMismatch (entityId : String) (ownerBlockId : String)
deriving Repr, DecidableEq

/-- Python regex `\w` for the ASCII inputs this pipeline handles. -/
def wordC (c : Char) : Bool := c.isAlphanum || c == '_'

def wordO : Option Char → Bool
  | none => false
  | some c => wordC c

/-- A `\b` word boundary sits between a word and a non-word position (string
edges count as non-word). -/
def boundaryB (x y : Option Char) : Bool := wordO x != wordO y

/-- Does `a` occur at the head of `h` with `\b` on both sides, given the
character preceding `h`? -/
def matchAt (a h : List Char) (prev : Option Char) : Bool :=
  a.isPrefixOf h && boundaryB prev a.head? && boundaryB a.getLast? (h.drop a.length).head?

def matchScan (a : List Char) : Option Char → List Char → Bool
  | _, [] => false
  | prev, c :: rest => matchAt a (c :: rest) prev || matchScan a (some c) rest

/-- Embedding of `_match_alias`: `re.search(\b<alias>\b, haystack)` with the
alias taken literally. -/
def matchAlias (aliasStr haystack : String) : Bool :=
  if aliasStr.data.isEmpty then false else matchScan aliasStr.data none haystack.data

/-- `dict.setdefault(k, set()).add(v)` over an insertion-ordered list model
of a dict of sets. -/
def ebAdd (m : List (String × List String)) (k v : String) :
    List (String × List String) :=
  match alGet m k with
  | none => m ++ [(k, [v])]
  | some l => if v ∈ l then m else updateOrAppend m k (l ++ [v])

/-- The `alias_lookup` construction: normalized (stripped, lowered) aliases
and labels of length ≥ 3, mapped to the entity ids carrying them. -/
def buildAliasLookup (entities : List REntity) : List (String × List String) :=
  entities.foldl
    (fun m e =>
      let aliasValues := e.aliases ++ (if pyStrip e.label ≠ "" then [pyStrip e.label] else [])
      aliasValues.foldl
        (fun m aliasStr =>
          let normalizedAlias := pyLower (pyStrip aliasStr)
          if normalizedAlias.length < 3 then m else ebAdd m normalizedAlias e.entityId)
        m)
    []

/-- The pre-inference `entity_blocks` pass over explicit topic references. -/
def explicitEntityBlocks (flatTopics : List TopicRef) : List (String × List String) :=
  flatTopics.foldl
    (fun m tr => tr.relatedEntities.foldl (fun m eid => ebAdd m eid tr.blockId) m)
    []

/-- The lowered haystack a topic is matched against. -/
def topicHaystack (tr : TopicRef) : String :=
  pyLower (String.intercalate " "
    [coerceString tr.title "",
     String.intercalate " " (coerceStringList tr.keywords),
     String.intercalate " " (coerceStringList tr.tags)])

/-- The `detected_ids` loop: aliases in descending length order, keeping
aliases bound to exactly one entity that match the haystack. -/
def detectAliases (lookup : List (String × List String)) (sortedAliases : List String)
    (haystack : String) : List String :=
  sortedAliases.foldl
    (fun acc aliasStr =>
      match alGet lookup aliasStr with
      | some [eid] =>
        if matchAlias aliasStr haystack then
          (if eid ∈ acc then acc else acc ++ [eid])
        else acc
      | _ => acc)
    []

/-- One detected entity applied to one topic: the advisory cross-block guard
followed by the reference append. -/
def inferTopicEntity (entities : List REntity)
    (st : TopicRef × List (String × List String)) (eid : String) :
    TopicRef × List (String × List String) :=
  let t := st.1
  let eb := st.2
  if eid ∈ t.relatedEntities then st
  else
    match entities.find? (fun e => e.entityId == eid) with
    | none => st
    | some ent =>
      let owner := pyStrip ent.ownerBlockId
      let refBlocks := (alGet eb eid).getD []
      if owner ≠ "" ∧ owner ≠ t.blockId then st
      else if ¬refBlocks.isEmpty ∧ t.blockId ∉ refBlocks then st
      else
        ({ t with relatedEntities := t.relatedEntities ++ [eid] }, ebAdd eb eid t.blockId)

/-- Alias inference over one topic. -/
def inferTopic (lookup : List (String × List String)) (entities : List REntity)
    (sortedAliases : List String)
    (st : List TopicRef × List (String × List String)) (tr : TopicRef) :
    List TopicRef × List (String × List String) :=
  let detected := detectAliases lookup sortedAliases (topicHaystack tr)
  let stepped := detected.foldl (inferTopicEntity entities) (tr, st.2)
  (st.1 ++ [stepped.1], stepped.2)

/-- The topics and `entity_blocks` after the whole alias-inference stage. -/
def inferredState (entities : List REntity) (flatTopics : List TopicRef) :
    List TopicRef × List (String × List String) :=
  let lookup := buildAliasLookup entities
  let sortedAliases := sortBy' (fun x y => decide (y.length < x.length)) (lookup.map (·.1))
  flatTopics.foldl (inferTopic lookup entities sortedAliases)
    ([], explicitEntityBlocks flatTopics)

/-- Embedding of `_ordered_block_choice` with the set modelled as the
insertion-ordered reference list (ties among blocks outside `block_order`
follow that order, where CPython's set iteration order is unspecified). -/
def orderedBlockChoice (blockIds blockOrder : List String) : String :=
  match blockIds with
  | [] => ""
  | b :: bs =>
    bs.foldl
      (fun best x =>
        if ((blockOrder.indexOf? x).getD blockOrder.length) <
            ((blockOrder.indexOf? best).getD blockOrder.length) then x else best)
      b

/-- The per-entity validation loop: block conflicts, owner checks, and
owner back-fill from the referenced block. -/
def validateEntities (blockTitles blockOrder : List String)
    (eb : List (String × List String)) :
    List REntity → Except AgendaError (List REntity)
  | [] => .ok []
  | e :: rest =>
    let refBlocks := (alGet eb e.entityId).getD []
    let owner := pyStrip e.ownerBlockId
    if 1 < refBlocks.length then .error (.entityBlockConflict e.entityId)
    else if owner ≠ "" then
      if owner ∉ blockTitles then .error (.unknownEntityOwnerBlock e.entityId owner)
      else if ¬refBlocks.isEmpty ∧ owner ∉ refBlocks then
        .error (.entityOwnerMismatch e.entityId owner)
      else
        (validateEntities blockTitles blockOrder eb rest).map (e :: ·)
    else
      let e' := if ¬refBlocks.isEmpty then
          { e with ownerBlockId := orderedBlockChoice refBlocks blockOrder }
        else e
      (validateEntities blockTitles blockOrder eb rest).map (e' :: ·)

/-- The C5 segment: alias inference followed by entity validation. -/
def inferAndValidate (entities : List REntity) (flatTopics : List TopicRef)
    (blockTitles blockOrder : List String) :
    Except AgendaError (List TopicRef × List REntity × List (String × List String)) :=
  let st := inferredState entities flatTopics
  match validateEntities blockTitles blockOrder st.2 entities with
  | .error e => .error e
  | .ok entities' => .ok (st.1, entities', st.2)

theorem ebAdd_mem_self (m : List (String × List String)) (k v : String) :
    v ∈ (alGet (ebAdd m k v) k).getD [] := by
  unfold ebAdd
  cases h : alGet m k with
  | none =>
    dsimp only
    rw [alGet_append_none h, alGet_cons, if_pos (by simp)]
    simp
  | some l =>
    dsimp only
    by_cases hv : v ∈ l
    · rw [if_pos hv, h]
      exact hv
    · rw [if_neg hv, alGet_updateOrAppend_self]
      simp

theorem ebAdd_mono {m : List (String × List String)} {k' x : String} (k v : String)
    (h : x ∈ (alGet m k').getD []) : x ∈ (alGet (ebAdd m k v) k').getD [] := by
  unfold ebAdd
  cases hm : alGet m k with
  | none =>
    dsimp only
    cases hk' : alGet m k' with
    | none =>
      rw [hk'] at h
      cases h
    | some l =>
      rw [alGet_append_some hk']
      rw [hk'] at h
      exact h
  | some l =>
    dsimp only
    by_cases hv : v ∈ l
    · rw [if_pos hv]
      exact h
    · rw [if_neg hv]
      by_cases hk : k' = k
      · subst hk
        rw [alGet_updateOrAppend_self]
        rw [hm] at h
        exact List.mem_append_left _ h
      · rw [alGet_updateOrAppend_ne _ hk _]
        exact h

theorem ebAdd_len_guarded {m : List (String × List String)} {k v : String}
    (hguard : ((alGet m k).getD []).isEmpty = true ∨ v ∈ (alGet m k).getD []) :
    ∀ k', ((alGet (ebAdd m k v) k').getD []).length ≤
      max 1 (((alGet m k').getD []).length) := by
  intro k'
  unfold ebAdd
  cases hm : alGet m k with
  | none =>
    dsimp only
    by_cases hk : k' = k
    · subst hk
      rw [alGet_append_none hm, alGet_cons, if_pos (by simp)]
      simp
    · cases hk' : alGet m k' with
      | none =>
        rw [alGet_append_none hk', alGet_cons,
          if_neg (by simp only [beq_iff_eq]; exact fun hh => hk hh.symm)]
        simp [alGet]
      | some l =>
        rw [alGet_append_some hk']
        exact Nat.le_max_right _ _
  | some l =>
    dsimp only
    by_cases hv : v ∈ l
    · rw [if_pos hv]
      exact Nat.le_max_right _ _
    · rw [if_neg hv]
      by_cases hk : k' = k
      · subst hk
        rw [alGet_updateOrAppend_self, hm]
        rcases hguard with hge | hge
        · rw [hm] at hge
          have hl : l = [] := List.isEmpty_iff.mp hge
          subst hl
          simp
        · rw [hm] at hge
          exact absurd hge hv
      · rw [alGet_updateOrAppend_ne _ hk _]
        exact Nat.le_max_right _ _

theorem ebAddFold_mono {x k' : String} (b : String) :
    ∀ (l : List String) (m : List (String × List String)),
      x ∈ (alGet m k').getD [] →
      x ∈ (alGet (l.foldl (fun m eid => ebAdd m eid b) m) k').getD [] := by
  intro l
  induction l with
  | nil =>
    intro m h
    exact h
  | cons e es ih =>
    intro m h
    rw [List.foldl_cons]
    exact ih _ (ebAdd_mono _ _ h)

theorem ebAddFold_self (b : String) :
    ∀ (l : List String) (m : List (String × List String)), ∀ eid ∈ l,
      b ∈ (alGet (l.foldl (fun m eid => ebAdd m eid b) m) eid).getD [] := by
  intro l
  induction l with
  | nil =>
    intro m eid h
    cases h
  | cons e es ih =>
    intro m eid h
    rw [List.foldl_cons]
    rcases List.mem_cons.mp h with rfl | hmem
    · exact ebAddFold_mono b es _ (ebAdd_mem_self m eid b)
    · exact ih _ eid hmem

theorem explicitFold_mono {x k : String} :
    ∀ (topics : List TopicRef) (m : List (String × List String)),
      x ∈ (alGet m k).getD [] →
      x ∈ (alGet (topics.foldl
        (fun m tr => tr.relatedEntities.foldl (fun m eid => ebAdd m eid tr.blockId) m) m)
        k).getD [] := by
  intro topics
  induction topics with
  | nil =>
    intro m h
    exact h
  | cons t ts ih =>
    intro m h
    rw [List.foldl_cons]
    exact ih _ (ebAddFold_mono _ _ _ h)

theorem explicitEB_refs_aux :
    ∀ (topics : List TopicRef) (m : List (String × List String)),
      ∀ tr ∈ topics, ∀ e ∈ tr.relatedEntities,
        tr.blockId ∈ (alGet (topics.foldl
          (fun m tr => tr.relatedEntities.foldl (fun m eid => ebAdd m eid tr.blockId) m) m)
          e).getD [] := by
  intro topics
  induction topics with
  | nil =>
    intro m tr htr
    cases htr
  | cons t ts ih =>
    intro m tr htr e he
    rw [List.foldl_cons]
    rcases List.mem_cons.mp htr with rfl | hmem
    · exact explicitFold_mono ts _ (ebAddFold_self tr.blockId tr.relatedEntities m e he)
    · exact ih _ tr hmem e he

theorem explicitEB_refs (flatTopics : List TopicRef) :
    ∀ tr ∈ flatTopics, ∀ e ∈ tr.relatedEntities,
      tr.blockId ∈ (alGet (explicitEntityBlocks flatTopics) e).getD [] := by
  intro tr htr e he
  unfold explicitEntityBlocks
  exact explicitEB_refs_aux flatTopics [] tr htr e he

theorem inferTopicEntity_eb_mono (entities : List REntity)
    (st : TopicRef × List (String × List String)) (eid : String) {k x : String}
    (h : x ∈ (alGet st.2 k).getD []) :
    x ∈ (alGet (inferTopicEntity entities st eid).2 k).getD [] := by
  unfold inferTopicEntity
  dsimp only
  split
  · exact h
  · split
    · exact h
    · split
      · exact h
      · split
        · exact h
        · exact ebAdd_mono _ _ h

theorem inferTopicEntity_Q (entities : List REntity)
    (st : TopicRef × List (String × List String)) (eid : String)
    (hQ : ∀ e ∈ st.1.relatedEntities, st.1.blockId ∈ (alGet st.2 e).getD []) :
    (inferTopicEntity entities st eid).1.blockId = st.1.blockId ∧
    ∀ e ∈ (inferTopicEntity entities st eid).1.relatedEntities,
      (inferTopicEntity entities st eid).1.blockId ∈
        (alGet (inferTopicEntity entities st eid).2 e).getD [] := by
  unfold inferTopicEntity
  dsimp only
  split
  · exact ⟨rfl, hQ⟩
  · split
    · exact ⟨rfl, hQ⟩
    · split
      · exact ⟨rfl, hQ⟩
      · split
        · exact ⟨rfl, hQ⟩
        · refine ⟨rfl, ?_⟩
          intro e he
          dsimp only at he ⊢
          rcases List.mem_append.mp he with h1 | h2
          · exact ebAdd_mono _ _ (hQ e h1)
          · rw [List.mem_singleton] at h2
            subst h2
            exact ebAdd_mem_self _ _ _

theorem inferFold_mono (entities : List REntity) :
    ∀ (detected : List String) (st : TopicRef × List (String × List String)) {k x : String},
      x ∈ (alGet st.2 k).getD [] →
      x ∈ (alGet (detected.foldl (inferTopicEntity entities) st).2 k).getD [] := by
  intro detected
  induction detected with
  | nil =>
    intro st k x h
    exact h
  | cons d ds ih =>
    intro st k x h
    rw [List.foldl_cons]
    exact ih _ (inferTopicEntity_eb_mono entities st d h)

theorem inferFold_Q (entities : List REntity) :
    ∀ (detected : List String) (st : TopicRef × List (String × List String)),
      (∀ e ∈ st.1.relatedEntities, st.1.blockId ∈ (alGet st.2 e).getD []) →
      (detected.foldl (inferTopicEntity entities) st).1.blockId = st.1.blockId ∧
      ∀ e ∈ (detected.foldl (inferTopicEntity entities) st).1.relatedEntities,
        (detected.foldl (inferTopicEntity entities) st).1.blockId ∈
          (alGet (detected.foldl (inferTopicEntity entities) st).2 e).getD [] := by
  intro detected
  induction detected with
  | nil =>
    intro st h
    exact ⟨rfl, h⟩
  | cons d ds ih =>
    intro st h
    rw [List.foldl_cons]
    obtain ⟨hb, hq⟩ := inferTopicEntity_Q entities st d h
    obtain ⟨hb2, hq2⟩ := ih (inferTopicEntity entities st d) hq
    exact ⟨hb2.trans hb, hq2⟩

theorem inferTopicsFold_Q (lookup : List (String × List String)) (entities : List REntity)
    (sortedAliases : List String) :
    ∀ (topics : List TopicRef) (acc : List TopicRef)
      (eb : List (String × List String)),
      (∀ tr ∈ acc, ∀ e ∈ tr.relatedEntities, tr.blockId ∈ (alGet eb e).getD []) →
      (∀ tr ∈ topics, ∀ e ∈ tr.relatedEntities, tr.blockId ∈ (alGet eb e).getD []) →
      ∀ tr' ∈ (topics.foldl (inferTopic lookup entities sortedAliases) (acc, eb)).1,
        ∀ e ∈ tr'.relatedEntities,
          tr'.blockId ∈
            (alGet (topics.foldl (inferTopic lookup entities sortedAliases) (acc, eb)).2
              e).getD [] := by
  intro topics
  induction topics with
  | nil =>
    intro acc eb hacc _ tr' htr'
    exact hacc tr' htr'
  | cons t ts ih =>
    intro acc eb hacc htop tr' htr'
    rw [List.foldl_cons] at htr' ⊢
    have hQt := inferFold_Q entities
      (detectAliases lookup sortedAliases (topicHaystack t)) (t, eb)
      (htop t (List.mem_cons_self _ _))
    refine ih _ _ ?_ ?_ tr' htr'
    · intro tr htr e he
      dsimp only [inferTopic] at htr ⊢
      rcases List.mem_append.mp htr with h1 | h2
      · exact inferFold_mono entities _ _ (hacc tr h1 e he)
      · rw [List.mem_singleton] at h2
        subst h2
        exact hQt.2 e he
    · intro tr htr e he
      dsimp only [inferTopic]
      exact inferFold_mono entities _ _ (htop tr (List.mem_cons_of_mem _ htr) e he)

theorem inferredState_refs_sub (entities : List REntity) (flatTopics : List TopicRef) :
    ∀ tr' ∈ (inferredState entities flatTopics).1, ∀ e ∈ tr'.relatedEntities,
      tr'.blockId ∈ (alGet (inferredState entities flatTopics).2 e).getD [] := by
  unfold inferredState
  dsimp only
  refine inferTopicsFold_Q _ _ _ flatTopics [] _ ?_ ?_
  · intro tr htr
    cases htr
  · exact explicitEB_refs flatTopics

theorem inferTopicEntity_len (entities : List REntity)
    (st : TopicRef × List (String × List String)) (eid : String) {C : String → Nat}
    (h : ∀ k, ((alGet st.2 k).getD []).length ≤ max 1 (C k)) :
    ∀ k, ((alGet (inferTopicEntity entities st eid).2 k).getD []).length ≤ max 1 (C k) := by
  intro k
  unfold inferTopicEntity
  dsimp only
  split
  · exact h k
  · split
    · exact h k
    · split
      · exact h k
      · split
        · exact h k
        · rename_i hguard
          have hg : ((alGet st.2 eid).getD []).isEmpty = true ∨
              st.1.blockId ∈ (alGet st.2 eid).getD [] := by
            by_cases he : ((alGet st.2 eid).getD []).isEmpty = true
            · exact Or.inl he
            · by_cases hb : st.1.blockId ∈ (alGet st.2 eid).getD []
              · exact Or.inr hb
              · exact absurd ⟨he, hb⟩ hguard
          refine Nat.le_trans (ebAdd_len_guarded hg k) ?_
          have hk := h k
          rw [Nat.max_le]
          refine ⟨Nat.le_max_left _ _, ?_⟩
          exact hk

theorem inferFold_len (entities : List REntity) {C : String → Nat} :
    ∀ (detected : List String) (st : TopicRef × List (String × List String)),
      (∀ k, ((alGet st.2 k).getD []).length ≤ max 1 (C k)) →
      ∀ k, ((alGet (detected.foldl (inferTopicEntity entities) st).2 k).getD []).length ≤
        max 1 (C k) := by
  intro detected
  induction detected with
  | nil =>
    intro st h
    exact h
  | cons d ds ih =>
    intro st h
    rw [List.foldl_cons]
    exact ih _ (inferTopicEntity_len entities st d h)

theorem inferTopicsFold_len (lookup : List (String × List String))
    (entities : List REntity) (sortedAliases : List String) {C : String → Nat} :
    ∀ (topics : List TopicRef) (acc : List TopicRef)
      (eb : List (String × List String)),
      (∀ k, ((alGet eb k).getD []).length ≤ max 1 (C k)) →
      ∀ k, ((alGet (topics.foldl (inferTopic lookup entities sortedAliases)
        (acc, eb)).2 k).getD []).length ≤ max 1 (C k) := by
  intro topics
  induction topics with
  | nil =>
    intro acc eb h
    exact h
  | cons t ts ih =>
    intro acc eb h
    rw [List.foldl_cons]
    exact ih _ _ (inferFold_len entities _ _ h)

theorem inferredState_len (entities : List REntity) (flatTopics : List TopicRef) :
    ∀ k, ((alGet (inferredState entities flatTopics).2 k).getD []).length ≤
      max 1 (((alGet (explicitEntityBlocks flatTopics) k).getD []).length) := by
  unfold inferredState
  dsimp only
  exact inferTopicsFold_len _ _ _ flatTopics [] _ (fun k => Nat.le_max_right _ _)

theorem validateEntities_ok_len (blockTitles blockOrder : List String)
    (eb : List (String × List String)) :
    ∀ (es : List REntity) (es' : List REntity),
      validateEntities blockTitles blockOrder eb es = .ok es' →
      ∀ e ∈ es, ((alGet eb e.entityId).getD []).length ≤ 1 := by
  intro es
  induction es with
  | nil =>
    intro es' _ e he
    cases he
  | cons e0 rest ih =>
    intro es' hok e he
    rw [validateEntities] at hok
    by_cases h1 : 1 < ((alGet eb e0.entityId).getD []).length
    · rw [if_pos h1] at hok
      cases hok
    · rw [if_neg h1] at hok
      rcases List.mem_cons.mp he with rfl | hmem
      · exact Nat.le_of_not_lt h1
      · by_cases h2 : pyStrip e0.ownerBlockId ≠ ""
        · rw [if_pos h2] at hok
          by_cases h3 : pyStrip e0.ownerBlockId ∉ blockTitles
          · rw [if_pos h3] at hok
            cases hok
          · rw [if_neg h3] at hok
            by_cases h4 : ¬((alGet eb e0.entityId).getD []).isEmpty = true ∧
                pyStrip e0.ownerBlockId ∉ (alGet eb e0.entityId).getD []
            · rw [if_pos h4] at hok
              cases hok
            · rw [if_neg h4] at hok
              cases hr : validateEntities blockTitles blockOrder eb rest with
              | error err =>
                rw [hr] at hok
                cases hok
              | ok rest' =>
                exact ih rest' hr e hmem
        · rw [if_neg h2] at hok
          cases hr : validateEntities blockTitles blockOrder eb rest with
          | error err =>
            rw [hr] at hok
            cases hok
          | ok rest' =>
            exact ih rest' hr e hmem

theorem validateEntities_fails (blockTitles blockOrder : List String)
    (eb : List (String × List String)) :
    ∀ (es : List REntity), (∃ e ∈ es, 1 < ((alGet eb e.entityId).getD []).length) →
      ∃ err, validateEntities blockTitles blockOrder eb es = .error err := by
  intro es
  induction es with
  | nil =>
    intro h
    obtain ⟨e, he, _⟩ := h
    cases he
  | cons e0 rest ih =>
    intro h
    rw [validateEntities]
    by_cases h1 : 1 < ((alGet eb e0.entityId).getD []).length
    · rw [if_pos h1]
      exact ⟨_, rfl⟩
    · rw [if_neg h1]
      obtain ⟨e, he, hlen⟩ := h
      rcases List.mem_cons.mp he with rfl | hmem
      · exact absurd hlen h1
      · obtain ⟨err, herr⟩ := ih ⟨e, hmem, hlen⟩
        by_cases h2 : pyStrip e0.ownerBlockId ≠ ""
        · rw [if_pos h2]
          by_cases h3 : pyStrip e0.ownerBlockId ∉ blockTitles
          · rw [if_pos h3]
            exact ⟨_, rfl⟩
          · rw [if_neg h3]
            by_cases h4 : ¬((alGet eb e0.entityId).getD []).isEmpty = true ∧
                pyStrip e0.ownerBlockId ∉ (alGet eb e0.entityId).getD []
            · rw [if_pos h4]
              exact ⟨_, rfl⟩
            · rw [if_neg h4, herr]
              exact ⟨err, rfl⟩
        · rw [if_neg h2, herr]
          exact ⟨err, rfl⟩

theorem mem_len_le_one_eq {l : List α} {a b : α} (ha : a ∈ l) (hb : b ∈ l)
    (hlen : l.length ≤ 1) : a = b := by
  cases l with
  | nil => cases ha
  | cons x xs =>
    cases xs with
    | nil =>
      rw [List.mem_singleton] at ha hb
      rw [ha, hb]
    | cons y ys =>
      simp at hlen

/-- C5 (amended): on the alias-inference/validation segment, (1) when
validation returns without raising, each registry entity is referenced by
topics of at most one block; (2) if after alias inference some registry
entity is referenced from more than one block then normalization raises a
validation error — though not necessarily ENTITY_BLOCK_CONFLICT, since an
earlier entity's ENTITY_OWNER_MISMATCH (or owner check) can fire first; and
(3) alias inference alone never introduces a cross-block link: it never
grows an entity's referenced-block set beyond one block past its explicit
references. -/
theorem C5_entity_single_owner_invariant
    (entities : List REntity) (flatTopics : List TopicRef)
    (blockTitles blockOrder : List String) :
    (∀ topics' entities' eb,
      inferAndValidate entities flatTopics blockTitles blockOrder =
        .ok (topics', entities', eb) →
      ∀ ent ∈ entities, ∀ tr1 ∈ topics', ∀ tr2 ∈ topics',
        ent.entityId ∈ tr1.relatedEntities → ent.entityId ∈ tr2.relatedEntities →
        tr1.blockId = tr2.blockId) ∧
    ((∃ ent ∈ entities,
        1 < ((alGet (inferredState entities flatTopics).2 ent.entityId).getD []).length) →
      ∃ err, inferAndValidate entities flatTopics blockTitles blockOrder = .error err) ∧
    (∀ k, ((alGet (inferredState entities flatTopics).2 k).getD []).length ≤
      max 1 (((alGet (explicitEntityBlocks flatTopics) k).getD []).length)) := by
  refine ⟨?_, ?_, ?_⟩
  · intro topics' entities' eb hok ent hent tr1 htr1 tr2 htr2 h1 h2
    unfold inferAndValidate at hok
    dsimp only at hok
    cases hv : validateEntities blockTitles blockOrder
        (inferredState entities flatTopics).2 entities with
    | error err =>
      rw [hv] at hok
      cases hok
    | ok es' =>
      rw [hv] at hok
      injection hok with hout
      rw [Prod.mk.injEq] at hout
      obtain ⟨htop, hrest⟩ := hout
      rw [Prod.mk.injEq] at hrest
      obtain ⟨hents, heb⟩ := hrest
      subst htop
      subst heb
      have hlen := validateEntities_ok_len blockTitles blockOrder
        (inferredState entities flatTopics).2 entities es' hv ent hent
      have hb1 := inferredState_refs_sub entities flatTopics tr1 htr1 ent.entityId h1
      have hb2 := inferredState_refs_sub entities flatTopics tr2 htr2 ent.entityId h2
      exact mem_len_le_one_eq hb1 hb2 hlen
  · intro h
    obtain ⟨ent, hent, hlen⟩ := h
    obtain ⟨err, herr⟩ := validateEntities_fails blockTitles blockOrder
      (inferredState entities flatTopics).2 entities ⟨ent, hent, hlen⟩
    refine ⟨err, ?_⟩
    unfold inferAndValidate
    dsimp only
    rw [herr]
  · exact inferredState_len entities flatTopics

instance exceptDecEq {ε α : Type} [DecidableEq ε] [DecidableEq α] :
    DecidableEq (Except ε α) := fun x y =>
  match x, y with
  | .error a, .error b =>
    if h : a = b then isTrue (by rw [h])
    else isFalse (fun hc => h (Except.error.inj hc))
  | .error _, .ok _ => isFalse (fun hc => Except.noConfusion hc)
  | .ok _, .error _ => isFalse (fun hc => Except.noConfusion hc)
  | .ok a, .ok b =>
    if h : a = b then isTrue (by rw [h])
    else isFalse (fun hc => h (Except.ok.inj hc))

/-- Registry entity `alpha`, owned by `block-2` but referenced from
`block-1`. -/
def entityC5alpha : REntity := ⟨"alpha", "", "entity", [], "block-2"⟩

/-- Registry entity `beta`, referenced from both blocks. -/
def entityC5beta : REntity := ⟨"beta", "", "entity", [], ""⟩

def entitiesC5c : List REntity := [entityC5alpha, entityC5beta]

def topicC5t1 : TopicRef := ⟨"block-1", "t1", "Topic one", [], [], ["alpha", "beta"]⟩

def topicC5t2 : TopicRef := ⟨"block-2", "t2", "Topic two", [], [], ["beta"]⟩

def topicsC5c : List TopicRef := [topicC5t1, topicC5t2]

/-- C5 counterexample: `beta` is referenced from two blocks, so the claim
says normalization raises ENTITY_BLOCK_CONFLICT — but the per-entity
validation loop reaches `alpha` first and raises its ENTITY_OWNER_MISMATCH
instead; no ENTITY_BLOCK_CONFLICT for `beta` is ever reported. -/
theorem C5_counterexample_owner_mismatch_preempts_block_conflict :
    1 < ((alGet (inferredState entitiesC5c topicsC5c).2 "beta").getD []).length ∧
    inferAndValidate entitiesC5c topicsC5c ["block-1", "block-2"] ["block-1", "block-2"] =
      .error (.entityOwnerMismatch "alpha" "block-2") ∧
    inferAndValidate entitiesC5c topicsC5c ["block-1", "block-2"] ["block-1", "block-2"] ≠
      .error (.entityBlockConflict "beta") :=
  ⟨by decide, by decide, by decide⟩

/-- Registry entity with an alias that inference can match. -/
def entityC5acme : REntity := ⟨"acme", "Acme", "entity", ["Acme Corp"], ""⟩

def topicC5w1 : TopicRef := ⟨"block-1", "t1", "Intro", [], [], ["acme"]⟩

def topicC5w2 : TopicRef := ⟨"block-1", "t2", "About Acme Corp products", [], [], []⟩

/-- C5 witness: the two-block `beta` conflict input is rejected (via the
theorem's failure clause), while a same-block agenda with an inferred alias
reference normalizes successfully. -/
theorem C5_entity_single_owner_invariant_witness :
    (inferAndValidate entitiesC5c topicsC5c ["block-1", "block-2"]
      ["block-1", "block-2"]).toOption = none ∧
    (inferAndValidate [entityC5acme] [topicC5w1, topicC5w2] ["block-1"]
      ["block-1"]).toOption.isSome = true := by
  constructor
  · obtain ⟨err, herr⟩ := (C5_entity_single_owner_invariant entitiesC5c topicsC5c
      ["block-1", "block-2"] ["block-1", "block-2"]).2.1
      ⟨entityC5beta, by decide, by decide⟩
    rw [herr]
    rfl
  · decide

theorem ensureChatContext_passQueue (ex : Execution) (ts : String) (r : Bool) :
    (ensureChatContext ex ts r).passQueue = ex.passQueue := rfl

theorem ensureChatContext_topicStatus (ex : Execution) (ts : String) (r : Bool) :
    (ensureChatContext ex ts r).topicStatus = ex.topicStatus := rfl

theorem ensureChatContext_planning (ex : Execution) (ts : String) (r : Bool) :
    (ensureChatContext ex ts r).planning = ex.planning := rfl

theorem ensureChatContext_passHistory (ex : Execution) (ts : String) (r : Bool) :
    (ensureChatContext ex ts r).passHistory = ex.passHistory := rfl

theorem ensureChatContext_handoffRequired (ex : Execution) (ts : String) (r : Bool) :
    (ensureChatContext ex ts r).handoffRequired = ex.handoffRequired := rfl

theorem recomputeExecutionSummary_passQueue (ex : Execution) :
    (recomputeExecutionSummary ex).passQueue = ex.passQueue := rfl

theorem recomputeExecutionSummary_topicStatus (ex : Execution) :
    (recomputeExecutionSummary ex).topicStatus = ex.topicStatus := rfl

theorem recomputeExecutionSummary_planning (ex : Execution) :
    (recomputeExecutionSummary ex).planning = ex.planning := rfl

theorem recomputeExecutionSummary_passHistory (ex : Execution) :
    (recomputeExecutionSummary ex).passHistory = ex.passHistory := rfl

theorem recomputeExecutionSummary_handoff_false {ex : Execution}
    (h : ex.handoffRequired = false) :
    (recomputeExecutionSummary ex).handoffRequired = false := by
  unfold recomputeExecutionSummary
  dsimp only
  rw [h, ite_self]

theorem map_pair_id {β : Type} {l : List (String × β)} {f : String × β → β}
    (h : ∀ p ∈ l, f p = p.2) : l.map (fun p => (p.1, f p)) = l := by
  induction l with
  | nil => rfl
  | cons p ps ih =>
    rw [List.map_cons, h p (List.mem_cons_self _ _), Prod.mk.eta,
      ih (fun q hq => h q (List.mem_cons_of_mem _ hq))]

theorem enforceTopicRetryLimits_noop {ex : Execution} {topicMap : List (String × Topic)}
    {timestamp : String}
    (h2 : ∀ p ∈ ex.topicStatus, entryActive p.2 = true →
      coercePositiveInt p.2.passesAttempted 0 <
        (planningConfig ex.planning).maxPassesPerTopic) :
    enforceTopicRetryLimits ex topicMap timestamp = ex := by
  unfold enforceTopicRetryLimits
  dsimp only
  rw [map_pair_id (fun p hp => by
    rw [if_neg (fun hc => absurd (h2 p hp hc.1) (not_lt.mpr hc.2))])]

theorem enforceTotalPassLimit_noop {ex : Execution} {topicMap : List (String × Topic)}
    {timestamp : String}
    (h3 : ex.passHistory.length < (planningConfig ex.planning).maxTotalPasses) :
    enforceTotalPassLimit ex topicMap timestamp = ex := by
  unfold enforceTotalPassLimit
  dsimp only
  rw [if_pos h3]

theorem coerceString_empty_eq (s : String) : coerceString s "" = pyStrip s := by
  unfold coerceString
  dsimp only
  split
  · rename_i h
    exact h.symm
  · rfl

theorem coerceString_stable {s : String} (h : pyStrip s = s) : coerceString s "" = s := by
  rw [coerceString_empty_eq, h]

theorem coerceString_empty_idem (s : String) :
    coerceString (coerceString s "") "" = coerceString s "" := by
  rw [coerceString_empty_eq, coerceString_empty_eq, pyStrip_idem]

theorem coercePositiveInt_natCast (n : Nat) : coercePositiveInt ((n : Nat) : Int) 0 = n := by
  unfold coercePositiveInt
  split <;> omega

theorem coerceString_pending_lit :
    coerceString "pending" "pending" = "pending" ∧
    coerceString "in_progress" "pending" = "in_progress" := by
  constructor <;> decide

theorem coerceStringList_foldl_stable_mem :
    ∀ (values items : List String),
      (∀ x ∈ items, coerceString x "" = x ∧ x ≠ "") →
      ∀ x ∈ values.foldl
        (fun items raw =>
          let text := coerceString raw ""
          if text ≠ "" ∧ text ∉ items then items ++ [text] else items)
        items,
        coerceString x "" = x ∧ x ≠ "" := by
  intro values
  induction values with
  | nil =>
    intro items h x hx
    exact h x hx
  | cons v vs ih =>
    intro items h x hx
    rw [List.foldl_cons] at hx
    dsimp only at hx
    by_cases hc : coerceString v "" ≠ "" ∧ coerceString v "" ∉ items
    · rw [if_pos hc] at hx
      refine ih _ ?_ x hx
      intro y hy
      rcases List.mem_append.mp hy with h1 | h2
      · exact h y h1
      · rw [List.mem_singleton] at h2
        subst h2
        exact ⟨coerceString_empty_idem v, hc.1⟩
    · rw [if_neg hc] at hx
      exact ih _ h x hx

theorem coerceStringList_mem_stable (values : List String) :
    ∀ x ∈ coerceStringList values, coerceString x "" = x ∧ x ≠ "" := by
  intro x hx
  unfold coerceStringList at hx
  exact coerceStringList_foldl_stable_mem values []
    (fun y hy => absurd hy (List.not_mem_nil y)) x hx

theorem coerceStringList_of_stable :
    ∀ (l acc : List String),
      (∀ x ∈ l, coerceString x "" = x ∧ x ≠ "") → (acc ++ l).Nodup →
      l.foldl
        (fun items raw =>
          let text := coerceString raw ""
          if text ≠ "" ∧ text ∉ items then items ++ [text] else items)
        acc = acc ++ l := by
  intro l
  induction l with
  | nil =>
    intro acc _ _
    exact (List.append_nil acc).symm
  | cons v vs ih =>
    intro acc hst hnd
    rw [List.foldl_cons]
    dsimp only
    have hv := hst v (List.mem_cons_self _ _)
    have hvnotin : v ∉ acc := by
      intro hin
      rw [List.nodup_append] at hnd
      exact hnd.2.2 hin (List.mem_cons_self _ _)
    rw [hv.1, if_pos ⟨hv.2, hvnotin⟩]
    rw [ih (acc ++ [v]) (fun y hy => hst y (List.mem_cons_of_mem _ hy))
      (by rw [List.append_cons] at hnd; exact hnd)]
    simp

theorem coerceStringList_stable_id {l : List String}
    (hst : ∀ x ∈ l, coerceString x "" = x ∧ x ≠ "") (hnd : l.Nodup) :
    coerceStringList l = l := by
  unfold coerceStringList
  have h := coerceStringList_of_stable l [] hst (by simpa using hnd)
  simpa using h

theorem coerceStringList_idem (l : List String) :
    coerceStringList (coerceStringList l) = coerceStringList l :=
  coerceStringList_stable_id (coerceStringList_mem_stable l) (coerceStringList_nodup l)

theorem replaceFirst_congr {p : α → Bool} {f : α → α} :
    ∀ {l : List α} {x : α}, l.find? p = some x → f x = x → replaceFirst p f l = l := by
  intro l
  induction l with
  | nil =>
    intro x h _
    cases h
  | cons a as ih =>
    intro x hf hfx
    rw [replaceFirst]
    by_cases hp : p a = true
    · rw [if_pos hp]
      rw [List.find?_cons_of_pos _ hp] at hf
      rw [Option.some_inj] at hf
      subst hf
      rw [hfx]
    · rw [if_neg hp]
      rw [List.find?_cons_of_neg _ hp] at hf
      rw [ih hf hfx]

theorem find?_some_of_mem {p : α → Bool} :
    ∀ {l : List α} {x : α}, x ∈ l → p x = true → ∃ y, l.find? p = some y := by
  intro l
  induction l with
  | nil =>
    intro x hx
    cases hx
  | cons a as ih =>
    intro x hx hp
    by_cases hpa : p a = true
    · exact ⟨a, List.find?_cons_of_pos _ hpa⟩
    · rw [List.find?_cons_of_neg _ hpa]
      rcases List.mem_cons.mp hx with rfl | hmem
      · exact absurd hp hpa
      · exact ih hmem hp

/-- A `pass_queue` entry in the normal form produced by `prune_pass_queue`
(all string fields stripped, numeric fields non-negative, status in the
queue whitelist, topic ids deduplicated, non-empty and all active in the
given execution's `topic_status`). -/
abbrev QueueEntryFixed (ex : Execution) (e : PassEntry) : Prop :=
  coerceString e.passId "" = e.passId ∧
  ((coercePositiveInt e.round 0 : Nat) : Int) = e.round ∧
  (e.status = "pending" ∨ e.status = "in_progress") ∧
  coerceStringList e.topicIds = e.topicIds ∧
  (∀ tid ∈ e.topicIds,
    tid ∈ (ex.topicStatus.filter (fun p => entryActive p.2)).map (fun p => p.1)) ∧
  e.topicIds ≠ [] ∧
  ((coercePositiveInt e.plannedEffort 0 : Nat) : Int) = e.plannedEffort ∧
  coerceString e.createdAt "" = e.createdAt ∧
  coerceString e.startedAt "" = e.startedAt ∧
  ((coercePositiveInt e.estimatedTokensIn 0 : Nat) : Int) = e.estimatedTokensIn

theorem prunePassQueue_noop {ex : Execution}
    (hfix : ∀ e ∈ ex.passQueue, QueueEntryFixed ex e) :
    prunePassQueue ex = ex := by
  have hfold : ∀ (q : List PassEntry), (∀ e ∈ q, QueueEntryFixed ex e) →
      ∀ (acc : List PassEntry),
      q.foldl
        (fun acc entry =>
          if ((coerceStringList entry.topicIds).filter
              (· ∈ (ex.topicStatus.filter (fun p => entryActive p.2)).map (·.1))).isEmpty then
            acc
          else
            acc ++ [{
              passId := coerceString entry.passId ""
              round := (coercePositiveInt entry.round 0 : Nat)
              status :=
                if coerceString entry.status "pending" = "pending" ∨
                    coerceString entry.status "pending" = "in_progress" then
                  coerceString entry.status "pending"
                else "pending"
              topicIds := (coerceStringList entry.topicIds).filter
                (· ∈ (ex.topicStatus.filter (fun p => entryActive p.2)).map (·.1))
              plannedEffort := (coercePositiveInt entry.plannedEffort 0 : Nat)
              createdAt := coerceString entry.createdAt ""
              startedAt := coerceString entry.startedAt ""
              estimatedTokensIn :=
                (coercePositiveInt entry.estimatedTokensIn 0 : Nat) : PassEntry }])
        acc = acc ++ q := by
    intro q
    induction q with
    | nil =>
      intro _ acc
      exact (List.append_nil acc).symm
    | cons e es ih =>
      intro hq acc
      rw [List.foldl_cons]
      obtain ⟨h1, h2, h3, h4, h5, h6, h7, h8, h9, h10⟩ := hq e (List.mem_cons_self _ _)
      rw [h4]
      rw [List.filter_eq_self.mpr (fun tid htid => decide_eq_true (h5 tid htid))]
      rw [if_neg (fun hc => h6 (List.isEmpty_iff.mp hc))]
      have hstat : (if coerceString e.status "pending" = "pending" ∨
          coerceString e.status "pending" = "in_progress" then
          coerceString e.status "pending" else "pending") = e.status := by
        rcases h3 with h3 | h3 <;> rw [h3] <;> decide
      rw [hstat, h1, h2, h7, h8, h9, h10]
      have hLIT : (⟨e.passId, e.round, e.status, e.topicIds, e.plannedEffort,
          e.createdAt, e.startedAt, e.estimatedTokensIn⟩ : PassEntry) = e := rfl
      rw [hLIT]
      rw [ih (fun x hx => hq x (List.mem_cons_of_mem _ hx)) (acc ++ [e])]
      simp
  unfold prunePassQueue
  dsimp only
  rw [hfold ex.passQueue hfix []]
  rfl

theorem activeIds_map_mono {g : String × TopicEntry → TopicEntry}
    {l : List (String × TopicEntry)}
    (hg : ∀ p ∈ l, entryActive p.2 = true → entryActive (g p) = true)
    (tid : String)
    (h : tid ∈ (l.filter (fun p => entryActive p.2)).map (fun p => p.1)) :
    tid ∈ ((l.map (fun p => (p.1, g p))).filter
      (fun p => entryActive p.2)).map (fun p => p.1) := by
  rw [List.mem_map] at h
  obtain ⟨p, hp, hptid⟩ := h
  rw [List.mem_filter] at hp
  rw [List.mem_map]
  refine ⟨(p.1, g p), ?_, hptid⟩
  rw [List.mem_filter]
  exact ⟨List.mem_map_of_mem _ hp.1, hg p hp.1 hp.2⟩

theorem map_pair_forall {β : Type} {l : List (String × β)} {g : String × β → β}
    {P : String × β → Prop}
    (h : ∀ p ∈ l, P p) (hg : ∀ p ∈ l, P p → P (p.1, g p)) :
    ∀ p ∈ l.map (fun p => (p.1, g p)), P p := by
  intro p hp
  rw [List.mem_map] at hp
  obtain ⟨q, hq, hqe⟩ := hp
  rw [← hqe]
  exact hg q hq (h q hq)

theorem mark_entryActive (p : String × TopicEntry) (passTopicIds : List String)
    (passId timestamp : String) (ha : entryActive p.2 = true) :
    entryActive
      (if p.1 ∈ passTopicIds ∧
          ¬ decide (coerceString p.2.status "pending" ∈ TOPIC_COMPLETE_STATUSES) = true then
        let e := p.2
        let e := if e.status ≠ "needs_followup" then { e with status := "in_progress" } else e
        { e with lastPassId := passId, updatedAt := timestamp }
      else p.2) = true := by
  by_cases hc : p.1 ∈ passTopicIds ∧
      ¬ decide (coerceString p.2.status "pending" ∈ TOPIC_COMPLETE_STATUSES) = true
  · rw [if_pos hc]
    dsimp only
    by_cases hn : p.2.status ≠ "needs_followup"
    · rw [if_pos hn]
      unfold entryActive
      dsimp only
      decide
    · rw [if_neg hn]
      exact ha
  · rw [if_neg hc]
    exact ha

theorem mark_passesAttempted (p : String × TopicEntry) (passTopicIds : List String)
    (passId timestamp : String) :
    (if p.1 ∈ passTopicIds ∧
        ¬ decide (coerceString p.2.status "pending" ∈ TOPIC_COMPLETE_STATUSES) = true then
      let e := p.2
      let e := if e.status ≠ "needs_followup" then { e with status := "in_progress" } else e
      { e with lastPassId := passId, updatedAt := timestamp }
    else p.2).passesAttempted = p.2.passesAttempted := by
  by_cases hc : p.1 ∈ passTopicIds ∧
      ¬ decide (coerceString p.2.status "pending" ∈ TOPIC_COMPLETE_STATUSES) = true
  · rw [if_pos hc]
    dsimp only
    by_cases hn : p.2.status ≠ "needs_followup"
    · rw [if_pos hn]
    · rw [if_neg hn]
  · rw [if_neg hc]

theorem startPass_steady (ex : Execution) (topicMap : List (String × Topic))
    (timestamp : String) (ack : Bool) (estTokens : Nat) (E : PassEntry)
    (hho : ex.handoffRequired = false)
    (hcap : ∀ p ∈ ex.topicStatus, coercePositiveInt p.2.passesAttempted 0 <
      (planningConfig ex.planning).maxPassesPerTopic)
    (htot : ex.passHistory.length < (planningConfig ex.planning).maxTotalPasses)
    (hfix : ∀ e ∈ ex.passQueue, QueueEntryFixed ex e)
    (hfind : ex.passQueue.find?
      (fun e => coerceString e.status "pending" == "in_progress") = some E)
    (hfid : ex.passQueue.find?
      (fun e => coerceString e.passId "" == E.passId) = some E)
    (hest : 1 ≤ coercePositiveInt E.estimatedTokensIn 0) :
    ∃ out, startPass ex topicMap timestamp ack estTokens = .started out E ∧
      out.passQueue = ex.passQueue ∧
      out.handoffRequired = false ∧
      out.passHistory = ex.passHistory ∧
      out.planning = ex.planning ∧
      (∀ p ∈ out.topicStatus, coercePositiveInt p.2.passesAttempted 0 <
        (planningConfig out.planning).maxPassesPerTopic) ∧
      (∀ e ∈ out.passQueue, QueueEntryFixed out e) := by
  obtain ⟨hE1, hE2, hE3, hE4, hE5, hE6, hE7, hE8, hE9, hE10⟩ :=
    hfix E (List.mem_of_find?_eq_some hfind)
  have hc1 : ¬(ex.handoffRequired = true ∧ ¬(ack = true)) :=
    fun hc => Bool.false_ne_true (hho ▸ hc.1)
  have hc2 : ¬(ex.handoffRequired = true ∧ ack = true) :=
    fun hc => Bool.false_ne_true (hho ▸ hc.1)
  have hX1 : enforceTopicRetryLimits (ensureChatContext ex timestamp false) topicMap timestamp
      = ensureChatContext ex timestamp false :=
    enforceTopicRetryLimits_noop (fun p hp _ => hcap p hp)
  have hX2 : enforceTotalPassLimit (ensureChatContext ex timestamp false) topicMap timestamp
      = ensureChatContext ex timestamp false :=
    enforceTotalPassLimit_noop htot
  have hX3 : prunePassQueue (ensureChatContext ex timestamp false)
      = ensureChatContext ex timestamp false :=
    prunePassQueue_noop hfix
  unfold startPass
  dsimp only
  rw [if_neg hc1, if_neg hc2, hX1, hX2, hX3]
  rw [ensureChatContext_passQueue, hfind]
  dsimp only
  unfold startCommon
  rw [ensureChatContext_passQueue, hfind]
  dsimp only
  simp only [if_neg (Nat.not_lt.mpr hest)]
  rw [hE1]
  rw [recomputeExecutionSummary_passQueue]
  dsimp only
  rw [hfid, Option.getD_some]
  refine ⟨_, rfl, rfl, recomputeExecutionSummary_handoff_false rfl, rfl, rfl, ?_, ?_⟩
  · intro p hp
    rw [recomputeExecutionSummary_topicStatus] at hp
    dsimp only at hp
    rw [ensureChatContext_topicStatus] at hp
    show coercePositiveInt p.2.passesAttempted 0 < (planningConfig ex.planning).maxPassesPerTopic
    refine map_pair_forall hcap ?_ p hp
    intro q hq hPq
    dsimp only
    split
    · dsimp only
      split
      · exact hPq
      · exact hPq
    · exact hPq
  · intro e he
    have he2 : e ∈ ex.passQueue := he
    obtain ⟨h1, h2, h3, h4, h5, h6, h7, h8, h9, h10⟩ := hfix e he2
    refine ⟨h1, h2, h3, h4, ?_, h6, h7, h8, h9, h10⟩
    intro tid htid
    rw [recomputeExecutionSummary_topicStatus]
    dsimp only
    rw [ensureChatContext_topicStatus]
    refine activeIds_map_mono ?_ tid (h5 tid htid)
    intro q hq ha
    exact mark_entryActive q (coerceStringList E.topicIds) E.passId timestamp ha

/-- C8: if the pass queue already contains an `in_progress` pass — the entry
`E` found by the queue's in-progress scan — then `start` returns exactly that
entry and leaves the pass queue unchanged (no replan, no new pass), and
calling `start` twice without an intervening `complete` returns the same
in-progress pass both times. The hypotheses state the steady state
`handle_start` itself maintains between passes: no pending handoff, every
topic below the per-topic retry cap, pass history below the total-pass cap, a
prune-normalized queue whose pass-id scan for `E.passId` also finds `E`, and
`E`'s token estimate already filled (positive). -/
theorem C8_start_idempotent_returns_in_progress_pass
    (ex : Execution) (topicMap : List (String × Topic))
    (t1 t2 : String) (a1 a2 : Bool) (est1 est2 : Nat) (E : PassEntry)
    (hho : ex.handoffRequired = false)
    (hcap : ∀ p ∈ ex.topicStatus, coercePositiveInt p.2.passesAttempted 0 <
      (planningConfig ex.planning).maxPassesPerTopic)
    (htot : ex.passHistory.length < (planningConfig ex.planning).maxTotalPasses)
    (hfix : ∀ e ∈ ex.passQueue, QueueEntryFixed ex e)
    (hfind : ex.passQueue.find?
      (fun e => coerceString e.status "pending" == "in_progress") = some E)
    (hfid : ex.passQueue.find?
      (fun e => coerceString e.passId "" == E.passId) = some E)
    (hest : 1 ≤ coercePositiveInt E.estimatedTokensIn 0) :
    ∃ out1 out2,
      startPass ex topicMap t1 a1 est1 = .started out1 E ∧
      out1.passQueue = ex.passQueue ∧
      startPass out1 topicMap t2 a2 est2 = .started out2 E := by
  obtain ⟨out1, hs1, hq1, hho1, hph1, hpl1, hcap1, hfix1⟩ :=
    startPass_steady ex topicMap t1 a1 est1 E hho hcap htot hfix hfind hfid hest
  obtain ⟨out2, hs2, h2rest⟩ :=
    startPass_steady out1 topicMap t2 a2 est2 E hho1 hcap1
      (by rw [hph1, hpl1]; exact htot) hfix1
      (by rw [hq1]; exact hfind) (by rw [hq1]; exact hfid) hest
  exact ⟨out1, out2, hs1, hq1, hs2⟩

/-- Fixture for the C8 witness: the single topic's status entry. -/
def entryC8 : TopicEntry :=
  ⟨"topic-one", "Topic One", "in_progress", 1, "pass-r1-01", "Summary so far.", [], [], "t0"⟩

/-- Fixture for the C8 witness: the in-progress queue entry. -/
def passEntryC8 : PassEntry :=
  ⟨"pass-r1-01", 1, "in_progress", ["topic-one"], 4, "t0", "t0", 9500⟩

/-- Fixture for the C8 witness: planning block. -/
def planningC8 : Planning := ⟨6, 3, 3, 6, 2, 180000, 70, 12000, 9000, 7000, 1⟩

/-- Fixture for the C8 witness: chat context. -/
def chatContextC8 : ChatContext :=
  ⟨1, 0, 12000, 0, 0, 12000, 180000, 126000, 70, "t0", "t0", "", 0, 0⟩

/-- Fixture for the C8 witness: summary block. -/
def summaryC8 : ExecSummary := ⟨1, 0, 0, 0, 1, 1, 0, "pass-r1-01"⟩

/-- Fixture for the C8 witness: an execution with one in-progress pass. -/
def executionC8 : Execution :=
  ⟨"in_progress", planningC8, [("topic-one", entryC8)], [passEntryC8], [], [],
    chatContextC8, summaryC8, false, "", "", "t0"⟩

theorem C8_start_idempotent_returns_in_progress_pass_witness :
    ∃ out1 out2,
      startPass executionC8 [] "t1" false 500 = .started out1 passEntryC8 ∧
      out1.passQueue = executionC8.passQueue ∧
      startPass out1 [] "t2" false 600 = .started out2 passEntryC8 :=
  C8_start_idempotent_returns_in_progress_pass executionC8 [] "t1" "t2" false false 500 600
    passEntryC8 rfl (by decide) (by decide) (by decide) (by decide) (by decide) (by decide)

end Cadence
